import Mathlib

/-!
# Connect-style board game engine (`src/main.c`): embedding and properties

The C program keeps one global `tGame`.  The embedding below follows the C
structures field by field and turns every function into a Lean function on
explicit state.

Modelling conventions
* `int` is `Int`; the program never relies on wrap-around (signed overflow is
  undefined in C), so values are taken to stay inside the `int` range.
* `char*` names are `String`; `strcmp(a, b) == 0` is `a = b`.  An optional
  trailing argument obtained from `strtok` (which may be `NULL`) is an
  `Option String`.
* A `pPlayer` held by a seat points to a record of the ledger.  The ledger is
  keyed by name (`add_player` is only called when `has_player` fails), so the
  pointer is represented by the name of the record it points to and
  dereferencing it is a lookup of the first record with that name.
* The two `tInGamePlayer` allocations `game->player1` and `game->player2` are
  the only values ever stored in board cells, so a `pInGamePlayer` is a `Seat`
  tag and a board cell is an `Option Seat` (`none` is `NULL`).
* Operations whose C behaviour is undefined (dereferencing `NULL`, reading or
  writing outside an array) return `none`.
* A `for` loop with a known number of iterations is a recursion on the number
  of iterations left.  The `while` loop of `count_pieces` gets a number of
  iterations that any shift other than `(0, 0)` cannot use up on a board of the
  recorded dimensions; running out stands for a loop that does not stop.
* Memory returned by `malloc` holds values the program does not choose; they
  are a parameter of the command that allocates.  Allocation itself succeeds,
  except for the rows of a board of negative height (`start_game`,
  `load_game`): that request is for more than the address space and returns
  `NULL`.
-/

namespace Projeto

/-! ## Data model -/

/-- A registered player (`tPlayer`). -/
structure tPlayer where
  name : String
  games_played : Int
  wins : Int
deriving DecidableEq, Repr

/-- The identity of one of the two `tInGamePlayer` allocations of a game. -/
inductive Seat where
  | player1 : Seat
  | player2 : Seat
deriving DecidableEq, Repr

/-- A player seated in the current game (`tInGamePlayer`); `player` is the name
of the ledger record the C pointer refers to, `num_special_sequences` is the
length of `special_sequences`. -/
structure tInGamePlayer where
  player : String
  special_sequences : List Int
deriving DecidableEq, Repr

/-- A board cell: `NULL` or one of the two seats. -/
abbrev Cell := Option Seat

/-- The board, `height` rows (row 0 on top) of `width` cells. -/
abbrev Board := List (List Cell)

/-- The global state (`tGame`); `num_players` and `num_special_sequences` are the
lengths of the corresponding lists, a `NULL` pointer is `none`. -/
structure tGame where
  players : List tPlayer
  width : Int
  height : Int
  sequence_size : Int
  special_sequences : List Int
  player1 : Option tInGamePlayer
  player2 : Option tInGamePlayer
  board : Option Board
deriving DecidableEq, Repr

/-- The state built by `new_game`. -/
def new_game : tGame :=
  { players := [], width := -1, height := -1, sequence_size := -1,
    special_sequences := [], player1 := none, player2 := none, board := none }

/-! ## Memory access -/

/-- Read of `game->board[l][c]`; `none` when the access is out of bounds. -/
def board_get (b : Board) (l c : Int) : Option Cell :=
  if l < 0 ∨ c < 0 then none
  else
    match b[l.toNat]? with
    | none => none
    | some row => row[c.toNat]?

/-- Write `game->board[l][c] = v`; `none` when the access is out of bounds. -/
def board_set (b : Board) (l c : Int) (v : Cell) : Option Board :=
  if l < 0 ∨ c < 0 then none
  else
    match b[l.toNat]? with
    | none => none
    | some row =>
      if c.toNat < row.length then some (b.set l.toNat (row.set c.toNat v)) else none

/-- Write `a[i] = v` into an `int` array; `none` when out of bounds. -/
def array_set (a : List Int) (i : Int) (v : Int) : Option (List Int) :=
  if i < 0 then none
  else if i.toNat < a.length then some (a.set i.toNat v) else none

/-- Read `a[i]` from an `int` array; `none` when out of bounds. -/
def array_get (a : List Int) (i : Int) : Option Int :=
  if i < 0 then none else a[i.toNat]?

/-! ## Ledger -/

/-- The loop of `get_player_idx`, at index `i`. -/
def get_player_idx_loop (name : String) : List tPlayer → Int → Int
  | [], _ => -1
  | p :: ps, i => if p.name = name then i else get_player_idx_loop name ps (i + 1)

/-- Index of the first player with the given name, or `-1`. -/
def get_player_idx (game : tGame) (name : String) : Int :=
  get_player_idx_loop name game.players 0

/-- The record of the named player, or `none` (`NULL`). -/
def get_player (game : tGame) (name : String) : Option tPlayer :=
  let idx := get_player_idx game name
  if idx ≠ -1 then game.players[idx.toNat]? else none

/-- Whether a player with this name is registered. -/
def has_player (game : tGame) (name : String) : Bool :=
  (get_player game name).isSome

/-- Append a fresh record with zero counters. -/
def add_player (game : tGame) (name : String) : tGame :=
  { game with players := game.players ++ [{ name := name, games_played := 0, wins := 0 }] }

/-- Remove the record at the index found by `get_player_idx`. -/
def remove_player (game : tGame) (name : String) : Option tGame :=
  let idx := get_player_idx game name
  if idx < 0 then none
  else some { game with players := game.players.eraseIdx idx.toNat }

/-- Update through a `pPlayer`: apply `f` to the first record named `name`;
`none` when no such record exists (the pointer would be invalid). -/
def player_update (f : tPlayer → tPlayer) (name : String) : List tPlayer → Option (List tPlayer)
  | [] => none
  | p :: ps =>
    if p.name = name then some (f p :: ps)
    else
      match player_update f name ps with
      | none => none
      | some ps' => some (p :: ps')

/-- Whether a game is in progress (`game->board != NULL`). -/
def in_game (game : tGame) : Bool :=
  game.board.isSome

/-- Whether the named player is seated: pointer comparison of the ledger record
found by name with the records of both seats. -/
def player_in_game (game : tGame) (name : String) : Option Bool :=
  match game.player1, game.player2 with
  | some p1, some p2 =>
    match get_player game name with
    | none => some false
    | some p => some (p1.player = p.name || p2.player = p.name)
  | _, _ => none

/-! ## Starting a game -/

/-- Dimension check, with C integer division (truncation towards zero). -/
def valid_dimensions (width height : Int) : Bool :=
  height ≥ Int.tdiv width 2

/-- Sequence-size check. -/
def valid_sequence (width sequence_size : Int) : Bool :=
  width > sequence_size

/-- Special sizes check: every declared size is below the winning size. -/
def valid_special_sequences (sequence_size : Int) : List Int → Bool
  | [] => true
  | x :: xs => if x ≥ sequence_size then false else valid_special_sequences sequence_size xs

/-- Allocation of one seat with a copy of the declared sizes. -/
def start_game_player (_game : tGame) (name : String) (special_sequences : List Int) :
    tInGamePlayer :=
  { player := name, special_sequences := special_sequences }

/-- Creation of the match: both seats, the parameters and an empty board.  For a
negative `height` the request `malloc(sizeof(pInGamePlayer*) * height)` is for
more than the address space and returns `NULL`: the board stays `NULL` and the
loop over the rows does not run.  Every other allocation is taken to succeed (a
request of size 0 included); a row of negative width has no cells. -/
def start_game (game : tGame) (player1_name player2_name : String)
    (width height sequence_size : Int) (special_sequences : List Int) : tGame :=
  { game with
    player1 := some (start_game_player game player1_name special_sequences)
    player2 := some (start_game_player game player2_name special_sequences)
    sequence_size := sequence_size
    special_sequences := special_sequences
    width := width
    height := height
    board :=
      if height < 0 then none
      else some (List.replicate height.toNat (List.replicate width.toNat none)) }

/-! ## Seats -/

/-- Dereference of a `pInGamePlayer`. -/
def seat (game : tGame) : Seat → Option tInGamePlayer
  | Seat.player1 => game.player1
  | Seat.player2 => game.player2

/-- The seat of the named player: seat 1 when the name is that of seat 1,
seat 2 otherwise. -/
def get_in_game_player (game : tGame) (name : String) : Option Seat :=
  match game.player1 with
  | none => none
  | some p1 => if p1.player = name then some Seat.player1 else some Seat.player2

/-- The seat opposite to the named player. -/
def get_other_in_game_player (game : tGame) (name : String) : Option Seat :=
  match game.player1 with
  | none => none
  | some p1 => if p1.player = name then some Seat.player2 else some Seat.player1

/-! ## Move validation -/

/-- The search loop of `valid_size` over the inventory. -/
def valid_size_loop (size : Int) : List Int → Bool
  | [] => false
  | x :: xs => if x = size then true else valid_size_loop size xs

/-- Whether the named player may drop a piece of this size. -/
def valid_size (game : tGame) (name : String) (size : Int) : Option Bool :=
  if size = 1 then some true
  else if size ≤ 0 then some false
  else
    match get_in_game_player game name with
    | none => none
    | some s =>
      match seat game s with
      | none => none
      | some player => some (valid_size_loop size player.special_sequences)

/-- Leftmost column (0-indexed) of a piece. -/
def get_starting_column (size column : Int) (direction : Option String) : Int :=
  let dir : Int :=
    match direction with
    | none => 1
    | some d => if d = "D" then 0 else -1
  let col := column - 1
  let shift := (size - 1) * dir
  col + shift

/-- The loop of `valid_position` over the target columns: `n` iterations left,
current column `c`. -/
def valid_position_loop (b : Board) : Nat → Int → Option Bool
  | 0, _ => some true
  | n + 1, c =>
    match board_get b 0 c with
    | none => none
    | some cell => if cell.isSome then some false else valid_position_loop b n (c + 1)

/-- Whether the piece fits in the board and every target column has a free top
cell. -/
def valid_position (game : tGame) (size column : Int) (direction : Option String) :
    Option Bool :=
  let col := get_starting_column size column direction
  if col < 0 ∨ col + size > game.width then some false
  else
    match game.board with
    | none => none
    | some b => valid_position_loop b size.toNat col

/-! ## Dropping a piece -/

/-- The loop of `remove_special_sequence`: delete the first entry equal to
`size` (the entries after it move one place down). -/
def remove_special_sequence_loop (size : Int) : List Int → List Int
  | [] => []
  | x :: xs => if x = size then xs else x :: remove_special_sequence_loop size xs

/-- Remove one instance of `size` from the inventory of a seat. -/
def remove_special_sequence (game : tGame) (player : Seat) (size : Int) : Option tGame :=
  match player, seat game player with
  | _, none => none
  | Seat.player1, some p =>
    some { game with
      player1 := some { p with
        special_sequences := remove_special_sequence_loop size p.special_sequences } }
  | Seat.player2, some p =>
    some { game with
      player2 := some { p with
        special_sequences := remove_special_sequence_loop size p.special_sequences } }

/-- The memory written by `drop`: the board and the two output arrays. -/
structure DropState where
  board : Board
  lines : List Int
  columns : List Int
deriving DecidableEq, Repr

/-- The inner loop of `drop` for column `c`, with `n` iterations left at row `l`
(it is entered with `placed = false` and leaves as soon as `placed` is set).
Returns the final value of `placed` and the memory. -/
def drop_line_loop (player : Seat) (c idx : Int) : Nat → Int → DropState → Option (Bool × DropState)
  | 0, _, st => some (false, st)
  | n + 1, l, st =>
    match board_get st.board l c with
    | none => none
    | some cell =>
      if cell.isSome then
        match board_set st.board (l - 1) c (some player), array_set st.lines idx (l - 1),
          array_set st.columns idx c with
        | some b, some ls, some cs => some (true, { board := b, lines := ls, columns := cs })
        | _, _, _ => none
      else drop_line_loop player c idx n (l + 1) st

/-- The body of the outer loop of `drop` for column `c`. -/
def drop_column (player : Seat) (height : Int) (c idx : Int) (st : DropState) : Option DropState :=
  match drop_line_loop player c idx height.toNat 0 st with
  | none => none
  | some (placed, st1) =>
    if !placed then
      match board_set st1.board (height - 1) c (some player), array_set st1.lines idx (height - 1),
        array_set st1.columns idx c with
      | some b, some ls, some cs => some { board := b, lines := ls, columns := cs }
      | _, _, _ => none
    else some st1

/-- The outer loop of `drop`, with `n` columns left starting at column `c`.  The
output index `idx` is the same in every iteration: the source never changes
it. -/
def drop_column_loop (player : Seat) (height : Int) (idx : Int) : Nat → Int → DropState → Option DropState
  | 0, _, st => some st
  | n + 1, c, st =>
    match drop_column player height c idx st with
    | none => none
    | some st1 => drop_column_loop player height idx n (c + 1) st1

/-- Drop a piece of the given size; `lines` and `columns` are the caller's output
arrays (with whatever they contained).  Returns the new state and the arrays. -/
def drop (game : tGame) (name : String) (size column : Int) (direction : Option String)
    (lines columns : List Int) : Option (tGame × List Int × List Int) :=
  match get_in_game_player game name, game.board with
  | some player, some b =>
    let col := get_starting_column size column direction
    let idx : Int := 0
    match drop_column_loop player game.height idx size.toNat col
        { board := b, lines := lines, columns := columns } with
    | none => none
    | some st =>
      let game1 := { game with board := some st.board }
      if size > 1 then
        match remove_special_sequence game1 player size with
        | none => none
        | some game2 => some (game2, st.lines, st.columns)
      else some (game1, st.lines, st.columns)
  | _, _ => none

/-! ## Win detection -/

/-- The `while` loop of `count_pieces` at position `(l, c)` with the running
`count`; `fuel` bounds the number of iterations and `none` stands for a loop
that does not stop (or for an invalid read). -/
def count_pieces_loop (game : tGame) (b : Board) (player : Seat) (line column l_shift c_shift : Int) :
    Nat → Int → Int → Int → Option Int
  | 0, _, _, _ => none
  | fuel + 1, l, c, count =>
    if l ≥ 0 ∧ l < game.height ∧ c ≥ 0 ∧ c < game.width then
      match board_get b l c with
      | none => none
      | some cell =>
        if cell = some player then
          count_pieces_loop game b player line column l_shift c_shift fuel
            (l + l_shift) (c + c_shift) (if ¬(l = line ∧ c = column) then count + 1 else count)
        else some count
    else some count

/-- Number of iterations granted to the loop of `count_pieces`: one more than
the number of cells any line through the board can hold. -/
def count_pieces_fuel (game : tGame) : Nat :=
  game.height.toNat + game.width.toNat + 1

/-- Count the pieces of `player` from `(line, column)` along a shift. -/
def count_pieces (game : tGame) (player : Seat) (line column l_shift c_shift : Int) : Option Int :=
  match game.board with
  | none => none
  | some b =>
    count_pieces_loop game b player line column l_shift c_shift (count_pieces_fuel game)
      line column 0

/-- The test made by `player_wins` for one shift pair. -/
def axis_wins (game : tGame) (player : Seat) (line column l_shift c_shift : Int) : Option Bool :=
  match count_pieces game player line column l_shift c_shift,
    count_pieces game player line column (-l_shift) (-c_shift) with
  | some start_segment, some end_segment =>
    some (decide (start_segment + 1 + end_segment ≥ game.sequence_size))
  | _, _ => none

/-- The inner loop of `player_wins` over the remaining values of `c_shift`;
`some true` is the early `return true`. -/
def player_wins_c_loop (game : tGame) (player : Seat) (line column l_shift : Int) :
    List Int → Option Bool
  | [] => some false
  | c_shift :: rest =>
    if l_shift = 0 ∧ c_shift = 0 then player_wins_c_loop game player line column l_shift rest
    else
      match axis_wins game player line column l_shift c_shift with
      | none => none
      | some true => some true
      | some false => player_wins_c_loop game player line column l_shift rest

/-- The outer loop of `player_wins` over the remaining values of `l_shift`. -/
def player_wins_l_loop (game : tGame) (player : Seat) (line column : Int) : List Int → Option Bool
  | [] => some false
  | l_shift :: rest =>
    match player_wins_c_loop game player line column l_shift [0, 1] with
    | none => none
    | some true => some true
    | some false => player_wins_l_loop game player line column rest

/-- Whether the named player has a winning run through `(line, column)`:
`l_shift` and `c_shift` both range over `0, 1`. -/
def player_wins (game : tGame) (name : String) (line column : Int) : Option Bool :=
  match get_in_game_player game name with
  | none => none
  | some player => player_wins_l_loop game player line column [0, 1]

/-! ## End of a game -/

/-- Record `wins++` on a ledger record. -/
def incr_wins (p : tPlayer) : tPlayer := { p with wins := p.wins + 1 }

/-- Record `games_played++` on a ledger record. -/
def incr_games_played (p : tPlayer) : tPlayer := { p with games_played := p.games_played + 1 }

/-- End the game: when `second_name` is `NULL` the seat opposite to `first_name`
records a win; both seats record a game played; the match is discarded. -/
def game_over (game : tGame) (first_name : String) (second_name : Option String) : Option tGame :=
  match get_in_game_player game first_name, game.player1, game.player2 with
  | some _, some p1, some p2 =>
    let credited : Option (List tPlayer) :=
      if second_name = none then
        match get_other_in_game_player game first_name with
        | none => none
        | some o =>
          match seat game o with
          | none => none
          | some other => player_update incr_wins other.player game.players
      else some game.players
    match credited with
    | none => none
    | some ps0 =>
      match player_update incr_games_played p1.player ps0 with
      | none => none
      | some ps1 =>
        match player_update incr_games_played p2.player ps1 with
        | none => none
        | some ps2 =>
          some { game with
            players := ps2, board := none, special_sequences := [],
            player1 := none, player2 := none }
  | _, _, _ => none

/-! ## Commands of `main`

Each command is a function from the state (and the already tokenised
arguments) to the new state and the message printed. -/

/-- The messages printed by the commands below, named after their meaning. -/
inductive Output where
  /-- "Jogador existente." -/
  | AlreadyExists : Output
  /-- "Jogador registado com sucesso." -/
  | Created : Output
  /-- "Jogador não existente." -/
  | Unknown : Output
  /-- "Jogador participa no jogo em curso." -/
  | SeatedInActiveMatch : Output
  /-- "Jogador removido com sucesso." -/
  | Removed : Output
  /-- "Existe um jogo em curso." -/
  | AlreadyActive : Output
  /-- "Jogador não registado." -/
  | UnknownPlayer : Output
  /-- "Dimensões de grelha inválidas." -/
  | InvalidDimensions : Output
  /-- "Tamanho de sequência inválido." -/
  | InvalidSequenceSize : Output
  /-- "Dimensões de peças especiais inválidas." -/
  | InvalidSpecialSequence : Output
  /-- "Jogo iniciado entre ... e ...." -/
  | Started : Output
  /-- "Não existe jogo em curso." -/
  | NoMatch : Output
  /-- "Jogador não participa no jogo em curso." -/
  | PlayerNotSeated : Output
  /-- "Desistência com sucesso. Jogo terminado." -/
  | Resigned : Output
  /-- "Tamanho de peça não disponível." -/
  | SizeUnavailable : Output
  /-- "Posição irregular." -/
  | InvalidPosition : Output
  /-- "Sequência conseguida. Jogo terminado." -/
  | Won : Output
  /-- "Peça colocada." -/
  | Placed : Output
deriving DecidableEq, Repr

/-- Command `RJ name`. -/
def cmd_RJ (game : tGame) (name : String) : tGame × Output :=
  if has_player game name then (game, Output.AlreadyExists)
  else (add_player game name, Output.Created)

/-- Command `EJ name`. -/
def cmd_EJ (game : tGame) (name : String) : Option (tGame × Output) :=
  if !has_player game name then some (game, Output.Unknown)
  else
    let seated : Option Bool := if in_game game then player_in_game game name else some false
    match seated with
    | none => none
    | some true => some (game, Output.SeatedInActiveMatch)
    | some false =>
      match remove_player game name with
      | none => none
      | some game1 => some (game1, Output.Removed)

/-- Command `IJ player1 player2`, followed by the line `width height
sequence_size` and the line of special sizes. -/
def cmd_IJ (game : tGame) (player1_name player2_name : String)
    (width height sequence_size : Int) (special_sequences : List Int) : tGame × Output :=
  if in_game game then (game, Output.AlreadyActive)
  else if !has_player game player1_name || !has_player game player2_name then
    (game, Output.UnknownPlayer)
  else if !valid_dimensions width height then (game, Output.InvalidDimensions)
  else if !valid_sequence width sequence_size then (game, Output.InvalidSequenceSize)
  else if !valid_special_sequences sequence_size special_sequences then
    (game, Output.InvalidSpecialSequence)
  else
    (start_game game player1_name player2_name width height sequence_size special_sequences,
      Output.Started)

/-- Command `D player1 [player2]`. -/
def cmd_D (game : tGame) (player1_name : String) (player2_name : Option String) :
    Option (tGame × Output) :=
  if !in_game game then some (game, Output.NoMatch)
  else
    match player_in_game game player1_name with
    | none => none
    | some false => some (game, Output.PlayerNotSeated)
    | some true =>
      let second_seated : Option Bool :=
        match player2_name with
        | none => some true
        | some n2 => player_in_game game n2
      match second_seated with
      | none => none
      | some false => some (game, Output.PlayerNotSeated)
      | some true =>
        match game_over game player1_name player2_name with
        | none => none
        | some game1 => some (game1, Output.Resigned)

/-- A block of `size` ints returned by `malloc`; `content` stands for whatever
the memory holds, which the program does not choose. -/
def malloc_ints (content : Nat → Int) (size : Int) : List Int :=
  (List.range size.toNat).map content

/-- The loop of command `CP` over the entries of `lines` and `columns`, with `n`
iterations left at index `i`: the first entry at which `player_wins` holds ends
the game.  Returns the state and the final value of `player_won`. -/
def cp_win_loop (game : tGame) (name : String) (lines columns : List Int) :
    Nat → Int → Option (tGame × Bool)
  | 0, _ => some (game, false)
  | n + 1, i =>
    match array_get lines i, array_get columns i with
    | some l, some c =>
      match player_wins game name l c with
      | none => none
      | some true =>
        match game_over game name none with
        | none => none
        | some game1 => some (game1, true)
      | some false => cp_win_loop game name lines columns n (i + 1)
    | _, _ => none

/-- Command `CP name size column [direction]`; `content_lines` and
`content_columns` are the initial contents of the two blocks it allocates. -/
def cmd_CP (game : tGame) (name : String) (size column : Int) (direction : Option String)
    (content_lines content_columns : Nat → Int) : Option (tGame × Output) :=
  if !in_game game then some (game, Output.NoMatch)
  else
    match player_in_game game name with
    | none => none
    | some false => some (game, Output.PlayerNotSeated)
    | some true =>
      match valid_size game name size with
      | none => none
      | some false => some (game, Output.SizeUnavailable)
      | some true =>
        match valid_position game size column direction with
        | none => none
        | some false => some (game, Output.InvalidPosition)
        | some true =>
          match drop game name size column direction (malloc_ints content_lines size)
              (malloc_ints content_columns size) with
          | none => none
          | some (game1, lines, columns) =>
            match cp_win_loop game1 name lines columns size.toNat 0 with
            | none => none
            | some (game2, player_won) =>
              if !player_won then some (game2, Output.Placed) else some (game2, Output.Won)

/-! ## The command loop -/

/-- A tokenised input line of `main` that acts on the state.  For `CP` the last
two fields are the contents of the memory blocks `malloc` returns. -/
inductive Command where
  | RJ (name : String) : Command
  | EJ (name : String) : Command
  | IJ (player1_name player2_name : String) (width height sequence_size : Int)
      (special_sequences : List Int) : Command
  | D (player1_name : String) (player2_name : Option String) : Command
  | CP (name : String) (size column : Int) (direction : Option String)
      (content_lines content_columns : Nat → Int) : Command

/-- One iteration of the loop of `main`. -/
def exec (game : tGame) : Command → Option (tGame × Output)
  | Command.RJ name => some (cmd_RJ game name)
  | Command.EJ name => cmd_EJ game name
  | Command.IJ n1 n2 width height sequence_size special_sequences =>
    some (cmd_IJ game n1 n2 width height sequence_size special_sequences)
  | Command.D n1 n2 => cmd_D game n1 n2
  | Command.CP name size column direction content_lines content_columns =>
    cmd_CP game name size column direction content_lines content_columns

/-- The loop of `main` over a list of input lines, collecting the messages. -/
def run (game : tGame) : List Command → Option (tGame × List Output)
  | [] => some (game, [])
  | cmd :: rest =>
    match exec game cmd with
    | none => none
    | some (game1, out) =>
      match run game1 rest with
      | none => none
      | some (game2, outs) => some (game2, out :: outs)

/-- Fresh memory that happens to hold zeros. -/
def zeros : Nat → Int := fun _ => 0

/-! ## The save file

The file is a list of characters.  `save_game` builds the text that its
`fprintf` calls write; `load_game` reads a text with the same library calls as
the source (`fscanf`, `getline`, `strtok`, `atoi`), each modelled by a function
from the unread text to a value and the text left. -/

/-- The text written by `%d`. -/
def print_int (n : Int) : List Char :=
  if n < 0 then '-' :: Nat.toDigits 10 n.natAbs else Nat.toDigits 10 n.natAbs

/-- The text written by a loop of `fprintf(fp, "%d ", x)`. -/
def print_ints : List Int → List Char
  | [] => []
  | x :: xs => print_int x ++ ' ' :: print_ints xs

/-- The ledger lines: `"%s %d %d\n"` for every registered player. -/
def print_players : List tPlayer → List Char
  | [] => []
  | p :: ps =>
    p.name.toList ++ ' ' :: print_int p.games_played ++ ' ' :: print_int p.wins ++
      '\n' :: print_players ps

/-- The text written for one cell: `"0 "` for `NULL`, `"1 "` for the first seat,
`"2 "` otherwise. -/
def print_cell : Cell → List Char
  | none => ['0', ' ']
  | some Seat.player1 => ['1', ' ']
  | some Seat.player2 => ['2', ' ']

/-- The loop of `save_game` over the cells of row `l`, with `n` cells left at
column `c`. -/
def save_row_loop (b : Board) (l : Int) : Nat → Int → Option (List Char)
  | 0, _ => some []
  | n + 1, c =>
    match board_get b l c, save_row_loop b l n (c + 1) with
    | some cell, some rest => some (print_cell cell ++ rest)
    | _, _ => none

/-- The loop of `save_game` over the rows, with `n` rows left at row `l`. -/
def save_board_loop (b : Board) (width : Int) : Nat → Int → Option (List Char)
  | 0, _ => some []
  | n + 1, l =>
    match save_row_loop b l width.toNat 0, save_board_loop b width n (l + 1) with
    | some row, some rest => some (row ++ '\n' :: rest)
    | _, _ => none

/-- The text `save_game` writes to the file. -/
def save_game (game : tGame) : Option (List Char) :=
  let ledger := print_int game.players.length ++ '\n' :: print_players game.players
  if in_game game then
    match game.player1, game.player2, game.board with
    | some p1, some p2, some b =>
      match save_board_loop b game.width game.height.toNat 0 with
      | none => none
      | some rows =>
        some (ledger ++
          print_int game.height ++ ' ' :: print_int game.width ++ ' ' ::
            print_int game.sequence_size ++ '\n' ::
          print_int game.special_sequences.length ++ ' ' ::
            print_ints game.special_sequences ++ '\n' ::
          p1.player.toList ++ ' ' :: print_ints p1.special_sequences ++ '\n' ::
          p2.player.toList ++ ' ' :: print_ints p2.special_sequences ++ '\n' ::
          rows)
    | _, _, _ => none
  else some ledger

/-- The characters `isspace` accepts. -/
def isspace (c : Char) : Bool :=
  c = ' ' || c = '\t' || c = '\n' || c = Char.ofNat 11 || c = Char.ofNat 12 || c = '\r'

/-- Skip white space. -/
def skip_space : List Char → List Char
  | [] => []
  | c :: cs => if isspace c then skip_space cs else c :: cs

/-- Read decimal digits, accumulating their value. -/
def scan_digits : List Char → Nat → Nat × List Char
  | [], acc => (acc, [])
  | c :: cs, acc =>
    if c.isDigit then scan_digits cs (acc * 10 + (c.toNat - 48)) else (acc, c :: cs)

/-- The conversion made by `%d` of `fscanf` and by `atoi`: white space, an
optional sign, at least one digit; `none` when no number is there. -/
def scan_int (s : List Char) : Option (Int × List Char) :=
  match skip_space s with
  | [] => none
  | c :: cs =>
    if c = '-' then
      match cs with
      | [] => none
      | d :: _ =>
        if d.isDigit then some (-((scan_digits cs 0).1 : Int), (scan_digits cs 0).2) else none
    else if c = '+' then
      match cs with
      | [] => none
      | d :: _ =>
        if d.isDigit then some (((scan_digits cs 0).1 : Int), (scan_digits cs 0).2) else none
    else if c.isDigit then
      some (((scan_digits (c :: cs) 0).1 : Int), (scan_digits (c :: cs) 0).2)
    else none

/-- The value of `atoi`: 0 when the text does not start with a number. -/
def atoi (s : List Char) : Int :=
  match scan_int s with
  | some (n, _) => n
  | none => 0

/-- The text left unread by a `%d` conversion of `fscanf` that fails: the white
space before the item has been read, and so has a sign that no digit follows
(only the character after the item is put back). -/
def scan_int_failed (s : List Char) : List Char :=
  match skip_space s with
  | [] => []
  | c :: cs => if c = '-' ∨ c = '+' then cs else c :: cs

/-- The call `fscanf(fp, "%d\n", &x)`: the value stored in `x` (the old one when
the conversion fails, and then the rest of the format is not processed) and the
text left. -/
def fscanf_int (fp : List Char) (old : Int) : Int × List Char :=
  match scan_int fp with
  | some (n, rest) => (n, skip_space rest)
  | none => (old, scan_int_failed fp)

/-- The call `fscanf(fp, "%d %d %d\n", &h, &w, &s)`: the conversions stop at the
first failure and the variables not reached keep their values. -/
def fscanf_header (fp : List Char) (h w s : Int) : (Int × Int × Int) × List Char :=
  match scan_int fp with
  | none => ((h, w, s), scan_int_failed fp)
  | some (h1, r1) =>
    match scan_int r1 with
    | none => ((h1, w, s), scan_int_failed r1)
    | some (w1, r2) =>
      match scan_int r2 with
      | none => ((h1, w1, s), scan_int_failed r2)
      | some (s1, r3) => ((h1, w1, s1), skip_space r3)

/-- The text up to and including the first newline, and the text after it. -/
def take_line : List Char → List Char × List Char
  | [] => ([], [])
  | c :: cs => if c = '\n' then ([c], cs) else (c :: (take_line cs).1, (take_line cs).2)

/-- The call `getline`: the next line with its newline; `none` at end of file,
where the buffer is not filled. -/
def getline (fp : List Char) : Option (List Char × List Char) :=
  match fp with
  | [] => none
  | _ :: _ => some (take_line fp)

/-- The call `strtok(_, " ")` on the text not yet tokenised: the next token and
the text after its delimiter; `none` (`NULL`) when only spaces are left. -/
def strtok (s : List Char) : Option (List Char × List Char) :=
  match s.dropWhile (fun c => c = ' ') with
  | [] => none
  | c :: cs =>
    some ((c :: cs).takeWhile (fun c => c ≠ ' '), ((c :: cs).dropWhile (fun c => c ≠ ' ')).drop 1)

/-- The loops `while (tok != NULL && strcmp(tok, " ") != 0)` of the loader: the
values `atoi` gives for the remaining tokens.  Every token uses up at least one
character, which bounds the iterations. -/
def load_tokens_loop : Nat → List Char → List Int
  | 0, _ => []
  | fuel + 1, s =>
    match strtok s with
    | none => []
    | some (tok, rest) =>
      if tok = [' '] then [] else atoi tok :: load_tokens_loop fuel rest

/-- All tokens of a line, as read by `load_tokens_loop`. -/
def load_tokens (s : List Char) : List Int :=
  load_tokens_loop (s.length + 1) s

/-- The loop of `load_game` over the ledger lines, with `n` players left. -/
def load_players_loop : Nat → List Char → Option (List tPlayer × List Char)
  | 0, fp => some ([], fp)
  | n + 1, fp =>
    match getline fp with
    | none => none
    | some (line, fp1) =>
      match strtok line with
      | none => none
      | some (name, r1) =>
        match strtok r1 with
        | none => none
        | some (games, r2) =>
          match strtok r2 with
          | none => none
          | some (wins, _) =>
            match load_players_loop n fp1 with
            | none => none
            | some (ps, fp2) =>
              some ({ name := String.mk name, games_played := atoi games, wins := atoi wins }
                :: ps, fp2)

/-- Read the line of one seat: the name, looked up in the ledger, and the
remaining tokens as inventory.  The line is tokenised as `getline` returned
it.  A name that is not registered would leave a `NULL` player pointer, which
is not a state of this model: the result is `none`. -/
def load_in_game_player (game : tGame) (fp : List Char) :
    Option (tInGamePlayer × List Char) :=
  match getline fp with
  | none => none
  | some (line, fp1) =>
    match strtok line with
    | none => none
    | some (player_name, rest) =>
      match get_player game (String.mk player_name) with
      | none => none
      | some p => some ({ player := p.name, special_sequences := load_tokens rest }, fp1)

/-- The cell stored for a token of a board row. -/
def load_cell (player_id : Int) : Cell :=
  if player_id = 0 then none
  else if player_id = 1 then some Seat.player1
  else some Seat.player2

/-- The loop of `load_game` over the board rows, with `n` rows left: each line
loses its last character and is tokenised into cells (the row loop only tests
the token against `NULL`; the extra comparison made by `load_tokens_loop` never
succeeds, a token holds no space).  A row must hold exactly `width` tokens:
more would be written past the row, fewer would leave cells that were never
written. -/
def load_board_loop (width : Int) : Nat → List Char → Option (Board × List Char)
  | 0, fp => some ([], fp)
  | n + 1, fp =>
    match getline fp with
    | none => none
    | some (row_contents, fp1) =>
      let row := (load_tokens row_contents.dropLast).map load_cell
      if row.length ≠ width.toNat then none
      else
        match load_board_loop width n fp1 with
        | none => none
        | some (rows, fp2) => some (row :: rows, fp2)

/-- Build the state from the text of the file.  As in `start_game`, the request
for the rows of a board of negative height returns `NULL`: the board stays
`NULL` and no row is read. -/
def load_game (fp : List Char) : Option tGame :=
  let game := new_game
  let counted := fscanf_int fp 0
  match load_players_loop counted.1.toNat counted.2 with
  | none => none
  | some (players, fp2) =>
    let header := fscanf_header fp2 game.height game.width game.sequence_size
    let game1 : tGame :=
      { game with
        players := players
        height := header.1.1
        width := header.1.2.1
        sequence_size := header.1.2.2 }
    if game1.height ≠ 0 then
      match getline header.2 with
      | none => none
      | some (row_contents, fp4) =>
        match strtok row_contents.dropLast with
        | none => none
        | some (count, rest) =>
          let special_sequences := load_tokens rest
          if special_sequences.length ≠ (atoi count).toNat then none
          else
            let game2 := { game1 with special_sequences := special_sequences }
            match load_in_game_player game2 fp4 with
            | none => none
            | some (player1, fp5) =>
              match load_in_game_player game2 fp5 with
              | none => none
              | some (player2, fp6) =>
                match load_board_loop game2.width game2.height.toNat fp6 with
                | none => none
                | some (board, _) =>
                  some { game2 with
                    player1 := some player1
                    player2 := some player2
                    board := if game2.height < 0 then none else some board }
    else some game1

/-! ## Concrete games -/

/-- The ledger with players "a" and "b" and no match. -/
def two_players : tGame := add_player (add_player new_game "a") "b"

/-- A fresh match between "a" and "b": width 7, height 4, winning size 4, no
special sizes. -/
def game_7x4 : tGame := start_game two_players "a" "b" 7 4 4 []

/-- A fresh match between "a" and "b": width 5, height 3, winning size 3, one
special piece of size 2 each. -/
def game_5x3 : tGame := start_game two_players "a" "b" 5 3 3 [2]

/-- Input lines: on a 4 x 3 board with winning size 3, "a" ends up with the
cells (2,0), (1,1), (0,2), the last one placed by the last line. -/
def antidiagonal_commands : List Command :=
  [Command.RJ "a", Command.RJ "b", Command.IJ "a" "b" 4 3 3 [],
    Command.CP "a" 1 1 none zeros zeros, Command.CP "b" 1 2 none zeros zeros,
    Command.CP "a" 1 2 none zeros zeros, Command.CP "b" 1 3 none zeros zeros,
    Command.CP "a" 1 3 none zeros zeros, Command.CP "b" 1 1 none zeros zeros,
    Command.CP "a" 1 3 none zeros zeros]

/-- The state after `antidiagonal_commands`. -/
def antidiagonal_game : tGame :=
  { players := [{ name := "a", games_played := 0, wins := 0 },
      { name := "b", games_played := 0, wins := 0 }],
    width := 4, height := 3, sequence_size := 3, special_sequences := [],
    player1 := some { player := "a", special_sequences := [] },
    player2 := some { player := "b", special_sequences := [] },
    board := some [[none, none, some Seat.player1, none],
      [some Seat.player2, some Seat.player1, some Seat.player1, none],
      [some Seat.player1, some Seat.player2, some Seat.player2, none]] }

/-- Input lines: on a 7 x 4 board with winning size 4, "a" drops four single
pieces in column 4. -/
def stack_commands : List Command :=
  [Command.RJ "a", Command.RJ "b", Command.IJ "a" "b" 7 4 4 [],
    Command.CP "a" 1 4 none zeros zeros, Command.CP "a" 1 4 none zeros zeros,
    Command.CP "a" 1 4 none zeros zeros, Command.CP "a" 1 4 none zeros zeros]

/-- Input lines: on a 5 x 3 board with winning size 3, "a" drops two single
pieces in column 3 and then a piece of size 2 on columns 3 and 4; the last
field is the content of the fresh block `columns`. -/
def wide_commands (content_columns : Nat → Int) : List Command :=
  [Command.RJ "a", Command.RJ "b", Command.IJ "a" "b" 5 3 3 [2],
    Command.CP "a" 1 3 none zeros zeros, Command.CP "a" 1 3 none zeros zeros,
    Command.CP "a" 2 3 (some "D") zeros content_columns]

/-- The state after the first five lines of `wide_commands` followed by the drop
of the piece of size 2. -/
def wide_game : tGame :=
  { players := [{ name := "a", games_played := 0, wins := 0 },
      { name := "b", games_played := 0, wins := 0 }],
    width := 5, height := 3, sequence_size := 3, special_sequences := [2],
    player1 := some { player := "a", special_sequences := [] },
    player2 := some { player := "b", special_sequences := [2] },
    board := some [[none, none, some Seat.player1, none, none],
      [none, none, some Seat.player1, none, none],
      [none, none, some Seat.player1, some Seat.player1, none]] }

/-- The 7 x 4 match after "a" dropped a single piece in column 4. -/
def game_7x4_one : tGame :=
  { game_7x4 with
    board := some [List.replicate 7 none, List.replicate 7 none, List.replicate 7 none,
      [none, none, none, some Seat.player1, none, none, none]] }

/-- The 7 x 4 match after "a" and then "b" dropped a single piece in column 4. -/
def game_7x4_two : tGame :=
  { game_7x4 with
    board := some [List.replicate 7 none, List.replicate 7 none,
      [none, none, none, some Seat.player2, none, none, none],
      [none, none, none, some Seat.player1, none, none, none]] }

/-- The 7 x 4 match after "a" dropped three single pieces in column 4. -/
def game_7x4_three : tGame :=
  { game_7x4 with
    board := some [List.replicate 7 none,
      [none, none, none, some Seat.player1, none, none, none],
      [none, none, none, some Seat.player1, none, none, none],
      [none, none, none, some Seat.player1, none, none, none]] }

/-- The state after a match between "a" and "b" on the 7 x 4 board has ended
with the win recorded for "b". -/
def game_7x4_ended : tGame :=
  { game_7x4 with
    players := [{ name := "a", games_played := 1, wins := 0 },
      { name := "b", games_played := 1, wins := 1 }]
    player1 := none
    player2 := none
    board := none }

/-- The board has `height` rows of `width` cells each. -/
def BoardShape (b : Board) (height width : Int) : Prop :=
  b.length = height.toNat ∧ ∀ row ∈ b, row.length = width.toNat

/-- A match is active: both seats exist and the board has the recorded
dimensions. -/
def ActiveMatch (g : tGame) : Prop :=
  ∃ p1 p2 b, g.player1 = some p1 ∧ g.player2 = some p2 ∧ g.board = some b ∧
    BoardShape b g.height g.width

/-- The cell `(l, c)` of the board holds a piece. -/
def Occupied (b : Board) (l c : Int) : Prop :=
  ∃ s, board_get b l c = some (some s)

/-- The cell `(l, c)` is inside the board and empty. -/
def Empty (b : Board) (l c : Int) : Prop :=
  board_get b l c = some none

/-- Row `l` is the resting place of a piece dropped in column `c`: the cell and
all cells above it are empty, and it is the bottom row or the cell right below
holds a piece. -/
def Landing (b : Board) (height : Int) (l c : Int) : Prop :=
  0 ≤ l ∧ l < height ∧ (∀ l1, 0 ≤ l1 → l1 ≤ l → Empty b l1 c) ∧
    (l = height - 1 ∨ Occupied b (l + 1) c)

/-- No floating pieces: a piece above the bottom row rests on another piece. -/
def Gravity (b : Board) (height : Int) : Prop :=
  ∀ r c, 0 ≤ r → r < height - 1 → Occupied b r c → Occupied b (r + 1) c

/-- States reached from a freshly started match (an active match whose cells are
all empty) by drops that pass `valid_size` and `valid_position`; the output
arrays handed to `drop` have `size` entries, as in command `CP`. -/
inductive DropReachable : tGame → Prop where
  | fresh (g : tGame) (b : Board) : ActiveMatch g → g.board = some b →
      (∀ row ∈ b, ∀ cell ∈ row, cell = none) → DropReachable g
  | move (g g1 : tGame) (name : String) (size column : Int) (direction : Option String)
      (lines columns ls cs : List Int) : DropReachable g →
      valid_size g name size = some true →
      valid_position g size column direction = some true →
      lines.length = size.toNat → columns.length = size.toNat →
      drop g name size column direction lines columns = some (g1, ls, cs) →
      DropReachable g1

/-- The results that report a refused start, resignation or move. -/
def ErrorResult (out : Output) : Prop :=
  out = Output.AlreadyActive ∨ out = Output.UnknownPlayer ∨ out = Output.InvalidDimensions ∨
  out = Output.InvalidSequenceSize ∨ out = Output.InvalidSpecialSequence ∨
  out = Output.NoMatch ∨ out = Output.PlayerNotSeated ∨ out = Output.SizeUnavailable ∨
  out = Output.InvalidPosition

/-- No match is in progress: the board and both seats are gone. -/
def NoActiveMatch (g : tGame) : Prop :=
  in_game g = false ∧ g.board = none ∧ g.player1 = none ∧ g.player2 = none

/-- The states the program can be in after some input lines: `new_game` followed
by any commands of `exec`. -/
inductive Reachable : tGame → Prop where
  | init : Reachable new_game
  | step (g g1 : tGame) (cmd : Command) (out : Output) : Reachable g →
      exec g cmd = some (g1, out) → Reachable g1

/-- Input lines: a start with winning size 0 and one declared size -1. -/
def zero_sequence_commands : List Command :=
  [Command.RJ "a", Command.RJ "b", Command.IJ "a" "b" 3 2 0 [-1]]

/-- The state after `zero_sequence_commands`. -/
def zero_sequence_game : tGame := start_game two_players "a" "b" 3 2 0 [-1]

/-- The seat facing a seat. -/
def other_seat : Seat → Seat
  | Seat.player1 => Seat.player2
  | Seat.player2 => Seat.player1

/-- Input lines: "a" starts a match against "a" and then resigns naming both
seats. -/
def self_match_commands : List Command :=
  [Command.RJ "a", Command.IJ "a" "a" 3 2 2 [1], Command.D "a" (some "a")]

/-- The cell `(l, c)` is inside the board and holds a piece of `player`. -/
def Owned (b : Board) (player : Seat) (l c : Int) : Prop :=
  board_get b l c = some (some player)

/-- The shift pairs `player_wins` goes through, in its order: the pairs
`(l_shift, c_shift)` with both in `0 .. 1`, without `(0, 0)`. -/
def axis_checks : List (Int × Int) := [(0, 1), (1, 0), (1, 1)]

/-- The axis tests of `player_wins` made over any list of shift pairs, in the
order of the list, stopping at the first that succeeds. -/
def wins_over (game : tGame) (player : Seat) (line column : Int) :
    List (Int × Int) → Option Bool
  | [] => some false
  | (l_shift, c_shift) :: rest =>
    match axis_wins game player line column l_shift c_shift with
    | none => none
    | some true => some true
    | some false => wins_over game player line column rest

/-- Number of cells of the board that hold a piece. -/
def occupied_count (b : Board) : Nat :=
  (b.map (fun row => row.countP (fun cell => cell.isSome))).sum

/-- What holds of the ledger and the seats in every state the program reaches:
names are unique, no record has more wins than games or a negative number of
wins, and while a match is in progress both seats exist and their players are
registered. -/
def LedgerInvariant (g : tGame) : Prop :=
  (g.players.map tPlayer.name).Nodup ∧
  (∀ p ∈ g.players, 0 ≤ p.wins ∧ p.wins ≤ p.games_played) ∧
  (in_game g = true →
    ∃ p1 p2, g.player1 = some p1 ∧ g.player2 = some p2 ∧
      has_player g p1.player = true ∧ has_player g p2.player = true)

/-- The match holds nothing but `k` pieces of the seat of `name`, stacked from
the bottom row in column `c` (counted from 0); both seated players are
registered. -/
def Stacked (g : tGame) (name : String) (c : Int) (k : Nat) : Prop :=
  ∃ p1 p2 b player, g.player1 = some p1 ∧ g.player2 = some p2 ∧ g.board = some b ∧
    BoardShape b g.height g.width ∧ has_player g p1.player = true ∧
    has_player g p2.player = true ∧ (name = p1.player ∨ name = p2.player) ∧
    get_in_game_player g name = some player ∧
    ∀ l c1, 0 ≤ l → l < g.height → 0 ≤ c1 → c1 < g.width →
      board_get b l c1 = some (if c1 = c ∧ g.height - k ≤ l then some player else none)

/-- The input lines of successive drops of a single piece by `name` in `column`;
each line has its own direction field and meets its own fresh memory. -/
def stack_drops (name : String) (column : Int) :
    List (Option String × (Nat → Int) × (Nat → Int)) → List Command
  | [] => []
  | (direction, content_lines, content_columns) :: rest =>
    Command.CP name 1 column direction content_lines content_columns ::
      stack_drops name column rest

/-- The board of `game_7x4_three`. -/
def board_7x4_three : Board :=
  [List.replicate 7 none,
    [none, none, none, some Seat.player1, none, none, none],
    [none, none, none, some Seat.player1, none, none, none],
    [none, none, none, some Seat.player1, none, none, none]]

/-- The board of `wide_game`. -/
def board_wide : Board :=
  [[none, none, some Seat.player1, none, none],
    [none, none, some Seat.player1, none, none],
    [none, none, some Seat.player1, some Seat.player1, none]]

/-- Input lines: the first player registered has a name that starts with a tab
(the command line is split at spaces only), and starts a 5 x 3 match against
"b". -/
def tab_name_commands : List Command :=
  [Command.RJ "\tx", Command.RJ "b", Command.IJ "\tx" "b" 5 3 3 [2]]

/-- The state after `tab_name_commands`. -/
def tab_name_game : tGame :=
  start_game (add_player (add_player new_game "\tx") "b") "\tx" "b" 5 3 3 [2]

/-! ## Theorems -/

/-! ### Board access -/

theorem board_get_bounds {b : Board} {h w l c : Int} {cell : Cell} (hs : BoardShape b h w)
    (hg : board_get b l c = some cell) : 0 ≤ l ∧ l < h ∧ 0 ≤ c ∧ c < w := by
  unfold board_get at hg
  split at hg
  · exact absurd hg (by simp)
  · rename_i hneg
    push_neg at hneg
    cases hrow : b[l.toNat]? with
    | none => simp [hrow] at hg
    | some row =>
      simp only [hrow] at hg
      have hl : l.toNat < b.length := (List.getElem?_eq_some_iff.1 hrow).1
      have hc : c.toNat < row.length := (List.getElem?_eq_some_iff.1 hg).1
      have hmem : row ∈ b := List.getElem?_mem hrow
      have hlen := hs.2 row hmem
      have hbl := hs.1
      omega

theorem board_get_in_bounds {b : Board} {h w l c : Int} (hs : BoardShape b h w)
    (hl0 : 0 ≤ l) (hl : l < h) (hc0 : 0 ≤ c) (hc : c < w) :
    ∃ cell, board_get b l c = some cell := by
  have hbl := hs.1
  have hlt : l.toNat < b.length := by omega
  have hrow : b[l.toNat]? = some b[l.toNat] := List.getElem?_eq_getElem hlt
  have hlen := hs.2 _ (List.getElem_mem hlt)
  have hct : c.toNat < (b[l.toNat]).length := by omega
  refine ⟨(b[l.toNat])[c.toNat], ?_⟩
  unfold board_get
  rw [if_neg (by omega)]
  simp only [hrow]
  exact List.getElem?_eq_getElem hct

theorem board_set_in_bounds {b : Board} {h w l c : Int} (v : Cell) (hs : BoardShape b h w)
    (hl0 : 0 ≤ l) (hl : l < h) (hc0 : 0 ≤ c) (hc : c < w) :
    ∃ b1, board_set b l c v = some b1 := by
  have hbl := hs.1
  have hlt : l.toNat < b.length := by omega
  have hrow : b[l.toNat]? = some b[l.toNat] := List.getElem?_eq_getElem hlt
  have hlen := hs.2 _ (List.getElem_mem hlt)
  have hct : c.toNat < (b[l.toNat]).length := by omega
  unfold board_set
  rw [if_neg (by omega)]
  simp only [hrow]
  rw [if_pos hct]
  exact ⟨_, rfl⟩

theorem board_get_set {b b1 : Board} {l c : Int} {v : Cell}
    (hset : board_set b l c v = some b1) (l1 c1 : Int) :
    board_get b1 l1 c1 = if l1 = l ∧ c1 = c then some v else board_get b l1 c1 := by
  unfold board_set at hset
  split at hset
  · exact absurd hset (by simp)
  · rename_i hneg
    push_neg at hneg
    cases hrow : b[l.toNat]? with
    | none => simp [hrow] at hset
    | some row =>
      simp only [hrow] at hset
      split at hset
      · rename_i hct
        have hb1 : b1 = b.set l.toNat (row.set c.toNat v) := by
          injection hset with e; exact e.symm
        have hlt : l.toNat < b.length := (List.getElem?_eq_some_iff.1 hrow).1
        subst hb1
        unfold board_get
        by_cases hn : l1 < 0 ∨ c1 < 0
        · rw [if_pos hn, if_pos hn]
          rw [if_neg]
          rintro ⟨rfl, rfl⟩
          omega
        · rw [if_neg hn, if_neg hn]
          push_neg at hn
          rw [List.getElem?_set]
          by_cases hll : l.toNat = l1.toNat
          · have hl1 : l1 = l := by omega
            subst hl1
            rw [if_pos rfl, if_pos hlt]
            simp only [hrow, true_and]
            rw [List.getElem?_set]
            by_cases hcc : c.toNat = c1.toNat
            · have hc1 : c1 = c := by omega
              subst hc1
              rw [if_pos rfl, if_pos hct, if_pos rfl]
            · have hc1 : c1 ≠ c := by omega
              rw [if_neg hcc, if_neg hc1]
          · have hl1 : l1 ≠ l := by omega
            rw [if_neg hll, if_neg]
            exact fun hh => hl1 hh.1
      · exact absurd hset (by simp)

theorem board_set_shape {b b1 : Board} {h w l c : Int} {v : Cell}
    (hset : board_set b l c v = some b1) (hs : BoardShape b h w) : BoardShape b1 h w := by
  unfold board_set at hset
  split at hset
  · exact absurd hset (by simp)
  · cases hrow : b[l.toNat]? with
    | none => simp [hrow] at hset
    | some row =>
      simp only [hrow] at hset
      split at hset
      · have hb1 : b1 = b.set l.toNat (row.set c.toNat v) := by
          injection hset with e; exact e.symm
        subst hb1
        refine ⟨by simpa using hs.1, ?_⟩
        intro r hr
        rcases List.mem_or_eq_of_mem_set hr with hmem | heq
        · exact hs.2 r hmem
        · subst heq
          simpa using hs.2 row (List.getElem?_mem hrow)
      · exact absurd hset (by simp)

/-! ### Starting column (`get_starting_column`) -/

/-- C7 (as stated, refuted): with no direction, size 2 and target column 3 the
result is column 3, not `(3 - 1) - (2 - 1) = 1`, and it differs from the result
for a supplied direction other than "D". -/
theorem no_direction_counterexample :
    get_starting_column 2 3 none ≠ (3 - 1) - (2 - 1) ∧
    get_starting_column 2 3 none ≠ get_starting_column 2 3 (some "E") := by
  decide

/-- C7 (amended): with no direction `get_starting_column` returns
`(targetColumn - 1) + (size - 1)` (the factor is `+1`); for size 1 this is
`targetColumn - 1`, the same leftmost column as for any supplied direction. -/
theorem get_starting_column_no_direction (size column : Int) :
    get_starting_column size column none = (column - 1) + (size - 1) ∧
    ∀ direction : Option String, get_starting_column 1 column direction = column - 1 := by
  refine ⟨by simp [get_starting_column], ?_⟩
  intro direction
  simp [get_starting_column]

/-- C8: for a supplied direction string, `get_starting_column` returns
`targetColumn - 1` when the string is "D" and `(targetColumn - 1) - (size - 1)`
for any other string (for every size, in particular every size >= 1). -/
theorem get_starting_column_direction (size column : Int) (d : String) :
    get_starting_column size column (some d) =
      if d = "D" then column - 1 else (column - 1) - (size - 1) := by
  unfold get_starting_column
  by_cases hd : d = "D"
  · simp [hd]
  · simp only [hd, if_false]
    ring

/-! ### Size validation (`valid_size`) -/

theorem valid_size_loop_eq (size : Int) (xs : List Int) :
    valid_size_loop size xs = decide (size ∈ xs) := by
  induction xs with
  | nil => simp [valid_size_loop]
  | cons x xs ih =>
    unfold valid_size_loop
    by_cases hx : x = size
    · simp [hx]
    · have hx1 : ¬ size = x := fun e => hx e.symm
      simp [hx, hx1, ih]

/-- C10: in an active match, for a seated player `name`, `valid_size` returns
true for size 1, false for size <= 0, and for size >= 2 it returns whether the
size occurs in the inventory of the seat of `name` (seat 1 when `name` is the
player of seat 1, seat 2 otherwise), whatever the other seat holds. -/
theorem valid_size_spec (g : tGame) (p1 p2 : tInGamePlayer) (name : String) (size : Int)
    (h1 : g.player1 = some p1) (h2 : g.player2 = some p2)
    (hseated : name = p1.player ∨ name = p2.player) :
    (size = 1 → valid_size g name size = some true) ∧
    (size ≤ 0 → valid_size g name size = some false) ∧
    (2 ≤ size → name = p1.player →
      valid_size g name size = some (decide (size ∈ p1.special_sequences))) ∧
    (2 ≤ size → name ≠ p1.player →
      name = p2.player ∧
      valid_size g name size = some (decide (size ∈ p2.special_sequences))) := by
  refine ⟨?_, ?_, ?_, ?_⟩
  · intro hs
    simp [valid_size, hs]
  · intro hs
    have hne : size ≠ 1 := by omega
    simp [valid_size, hne, hs]
  · intro hs hn
    have hne : size ≠ 1 := by omega
    have hpos : ¬ size ≤ 0 := by omega
    simp [valid_size, hne, hpos, get_in_game_player, h1, hn, seat, valid_size_loop_eq]
  · intro hs hn
    have hne : size ≠ 1 := by omega
    have hpos : ¬ size ≤ 0 := by omega
    have hn1 : ¬ p1.player = name := fun e => hn e.symm
    refine ⟨hseated.resolve_left hn, ?_⟩
    simp [valid_size, hne, hpos, get_in_game_player, h1, hn1, seat, h2, valid_size_loop_eq]

/-! ### Position validation (`valid_position`) -/

theorem valid_position_loop_spec {b : Board} {h w : Int} (hs : BoardShape b h w) (hh : 1 ≤ h) :
    ∀ (n : Nat) (c0 : Int), 0 ≤ c0 → c0 + n ≤ w →
      ∃ r, valid_position_loop b n c0 = some r ∧
        (r = false ↔ ∃ c, c0 ≤ c ∧ c < c0 + n ∧ Occupied b 0 c) := by
  intro n
  induction n with
  | zero =>
    intro c0 _ _
    refine ⟨true, rfl, ?_⟩
    constructor
    · intro hf; cases hf
    · rintro ⟨c, h1, h2, _⟩
      simp at h2
      omega
  | succ n ih =>
    intro c0 hc0 hcw
    push_cast at hcw
    obtain ⟨cell, hcell⟩ := board_get_in_bounds hs (le_refl 0) (by omega) hc0 (by omega : c0 < w)
    cases cell with
    | some s =>
      refine ⟨false, by simp [valid_position_loop, hcell], ?_⟩
      constructor
      · intro _
        exact ⟨c0, le_refl _, by push_cast; omega, s, hcell⟩
      · intro _; rfl
    | none =>
      obtain ⟨r, hr, hiff⟩ := ih (c0 + 1) (by omega) (by omega)
      refine ⟨r, by simp [valid_position_loop, hcell, hr], ?_⟩
      rw [hiff]
      constructor
      · rintro ⟨c, h1, h2, ho⟩
        exact ⟨c, by omega, by push_cast; omega, ho⟩
      · rintro ⟨c, h1, h2, ho⟩
        push_cast at h2
        have hne : c ≠ c0 := by
          rintro rfl
          obtain ⟨s, hs1⟩ := ho
          rw [hcell] at hs1
          cases hs1
        exact ⟨c, by omega, by omega, ho⟩

/-- C9: in an active match with height >= 1, for size >= 1, `valid_position`
returns a result, and the result is false exactly when the leftmost column is
negative, or the piece passes the right edge, or one of the target columns has
a piece in the top row. -/
theorem valid_position_spec (g : tGame) (b : Board) (size column : Int)
    (direction : Option String) (hb : g.board = some b)
    (hshape : BoardShape b g.height g.width) (hh : 1 ≤ g.height) (hsize : 1 ≤ size) :
    ∃ r, valid_position g size column direction = some r ∧
      (r = false ↔
        (get_starting_column size column direction < 0 ∨
          get_starting_column size column direction + size > g.width ∨
          ∃ c, get_starting_column size column direction ≤ c ∧
            c < get_starting_column size column direction + size ∧ Occupied b 0 c)) := by
  unfold valid_position
  simp only [hb]
  by_cases hout : get_starting_column size column direction < 0 ∨
      get_starting_column size column direction + size > g.width
  · rw [if_pos hout]
    refine ⟨false, rfl, ?_⟩
    constructor
    · intro _
      rcases hout with h1 | h2
      · exact Or.inl h1
      · exact Or.inr (Or.inl h2)
    · intro _; rfl
  · rw [if_neg hout]
    push_neg at hout
    have hcast : ((size.toNat : Nat) : Int) = size := Int.toNat_of_nonneg (by omega)
    obtain ⟨r, hr, hiff⟩ := valid_position_loop_spec hshape hh size.toNat
      (get_starting_column size column direction) hout.1 (by omega)
    refine ⟨r, hr, ?_⟩
    rw [hiff, hcast]
    constructor
    · intro hex
      exact Or.inr (Or.inr hex)
    · rintro (h1 | h2 | h3)
      · omega
      · omega
      · exact h3

/-! ### Dropping (`drop`) -/

theorem array_set_zero {a : List Int} (v : Int) (h : 1 ≤ a.length) :
    array_set a 0 v = some (a.set 0 v) := by
  unfold array_set
  have h0 : (0 : Int).toNat < a.length := by simpa using h
  rw [if_neg (by decide), if_pos h0]
  rfl

theorem landing_unique {b : Board} {h l1 l2 c : Int}
    (h1 : Landing b h l1 c) (h2 : Landing b h l2 c) : l1 = l2 := by
  obtain ⟨a0, a1, a2, a3⟩ := h1
  obtain ⟨b0, b1, b2, b3⟩ := h2
  by_contra hne
  rcases lt_or_gt_of_ne hne with hlt | hgt
  · rcases a3 with e | ⟨s, hs⟩
    · omega
    · have := b2 (l1 + 1) (by omega) (by omega)
      unfold Empty at this
      rw [this] at hs
      cases hs
  · rcases b3 with e | ⟨s, hs⟩
    · omega
    · have := a2 (l2 + 1) (by omega) (by omega)
      unfold Empty at this
      rw [this] at hs
      cases hs

theorem drop_line_loop_spec {h w : Int} (player : Seat) (c : Int) (st : DropState)
    (hs : BoardShape st.board h w) (hc0 : 0 ≤ c) (hcw : c < w)
    (htop : Empty st.board 0 c) (hl : 1 ≤ st.lines.length) (hcl : 1 ≤ st.columns.length) :
    ∀ (n : Nat) (l : Int), 0 ≤ l → l + n = h →
      (∀ l1, 0 ≤ l1 → l1 < l → Empty st.board l1 c) →
      (∃ r b1, Landing st.board h r c ∧ board_set st.board r c (some player) = some b1 ∧
          drop_line_loop player c 0 n l st =
            some (true, { board := b1, lines := st.lines.set 0 r, columns := st.columns.set 0 c })) ∨
      ((∀ l1, 0 ≤ l1 → l1 < h → Empty st.board l1 c) ∧
          drop_line_loop player c 0 n l st = some (false, st)) := by
  intro n
  induction n with
  | zero =>
    intro l _ hln habove
    right
    refine ⟨?_, rfl⟩
    intro l1 h0 h1
    exact habove l1 h0 (by simp at hln; omega)
  | succ n ih =>
    intro l hl0 hln habove
    push_cast at hln
    obtain ⟨cell, hcell⟩ := board_get_in_bounds hs hl0 (by omega : l < h) hc0 hcw
    cases cell with
    | some s =>
      left
      have hlne : l ≠ 0 := by
        rintro rfl
        unfold Empty at htop
        rw [htop] at hcell
        cases hcell
      obtain ⟨b1, hb1⟩ := board_set_in_bounds (some player) hs (by omega : 0 ≤ l - 1)
        (by omega : l - 1 < h) hc0 hcw
      refine ⟨l - 1, b1, ⟨by omega, by omega, ?_, Or.inr ⟨s, by simpa using hcell⟩⟩, hb1, ?_⟩
      · intro l1 h0 h1
        exact habove l1 h0 (by omega)
      · simp [drop_line_loop, hcell, hb1, array_set_zero _ hl, array_set_zero _ hcl]
    | none =>
      have hrec := ih (l + 1) (by omega) (by omega) (by
        intro l1 h0 h1
        by_cases he : l1 = l
        · subst he; exact hcell
        · exact habove l1 h0 (by omega))
      rcases hrec with ⟨r, b1, hland, hset, hloop⟩ | ⟨hall, hloop⟩
      · left
        exact ⟨r, b1, hland, hset, by simp [drop_line_loop, hcell, hloop]⟩
      · right
        exact ⟨hall, by simp [drop_line_loop, hcell, hloop]⟩

theorem drop_column_spec {h w : Int} (player : Seat) (c : Int) (st : DropState)
    (hs : BoardShape st.board h w) (hh : 1 ≤ h) (hc0 : 0 ≤ c) (hcw : c < w)
    (htop : Empty st.board 0 c) (hl : 1 ≤ st.lines.length) (hcl : 1 ≤ st.columns.length) :
    ∃ r b1, Landing st.board h r c ∧ board_set st.board r c (some player) = some b1 ∧
      drop_column player h c 0 st =
        some { board := b1, lines := st.lines.set 0 r, columns := st.columns.set 0 c } := by
  have hcast : ((h.toNat : Nat) : Int) = h := Int.toNat_of_nonneg (by omega)
  rcases drop_line_loop_spec player c st hs hc0 hcw htop hl hcl h.toNat 0 (le_refl 0)
      (by omega) (by intro l1 h0 h1; omega) with ⟨r, b1, hland, hset, hloop⟩ | ⟨hall, hloop⟩
  · exact ⟨r, b1, hland, hset, by simp [drop_column, hloop]⟩
  · obtain ⟨b1, hb1⟩ := board_set_in_bounds (some player) hs (by omega : 0 ≤ h - 1)
      (by omega : h - 1 < h) hc0 hcw
    refine ⟨h - 1, b1, ⟨by omega, by omega, ?_, Or.inl rfl⟩, hb1, ?_⟩
    · intro l1 h0 h1
      exact hall l1 h0 (by omega)
    · simp [drop_column, hloop, hb1, array_set_zero _ hl, array_set_zero _ hcl]

theorem landing_congr {b b1 : Board} {h l c : Int}
    (hsame : ∀ l1, board_get b1 l1 c = board_get b l1 c) :
    Landing b1 h l c ↔ Landing b h l c := by
  unfold Landing Empty Occupied
  simp only [hsame]

/-- What the outer loop of `drop` does to the board and to the output arrays,
for `n` columns starting at `c0`, all inside the board and with a free top
cell. -/
theorem drop_column_loop_spec {h w : Int} (player : Seat) (hh : 1 ≤ h) :
    ∀ (n : Nat) (c0 : Int) (st : DropState), BoardShape st.board h w → 0 ≤ c0 → c0 + n ≤ w →
      (∀ c, c0 ≤ c → c < c0 + n → Empty st.board 0 c) →
      1 ≤ st.lines.length → 1 ≤ st.columns.length →
      ∃ st1, drop_column_loop player h 0 n c0 st = some st1 ∧ BoardShape st1.board h w ∧
        (∀ l c, c0 ≤ c → c < c0 + n → Landing st.board h l c →
          board_get st1.board l c = some (some player)) ∧
        (∀ l c, ¬ (c0 ≤ c ∧ c < c0 + n ∧ Landing st.board h l c) →
          board_get st1.board l c = board_get st.board l c) ∧
        (∀ c, c0 ≤ c → c < c0 + n → ∃ l, Landing st.board h l c) ∧
        st1.lines.length = st.lines.length ∧ st1.columns.length = st.columns.length ∧
        (∀ i : Nat, 1 ≤ i → st1.lines[i]? = st.lines[i]? ∧ st1.columns[i]? = st.columns[i]?) ∧
        (1 ≤ n → st1.columns[0]? = some (c0 + n - 1) ∧
          ∃ r, Landing st.board h r (c0 + n - 1) ∧ st1.lines[0]? = some r) := by
  intro n
  induction n with
  | zero =>
    intro c0 st hs _ _ _ _ _
    refine ⟨st, rfl, hs, ?_, ?_, ?_, rfl, rfl, ?_, ?_⟩
    · intro l c h1 h2; simp at h2; omega
    · intro l c _; rfl
    · intro c h1 h2; simp at h2; omega
    · intro i _; exact ⟨rfl, rfl⟩
    · intro h1; omega
  | succ n ih =>
    intro c0 st hs hc0 hcw htop hl hcl
    push_cast at hcw
    obtain ⟨r, b1, hland, hset, hcol⟩ := drop_column_spec player c0 st hs hh hc0 (by omega)
      (htop c0 (le_refl _) (by push_cast; omega)) hl hcl
    have hget := board_get_set hset
    have hsame : ∀ c, c ≠ c0 → ∀ l1, board_get b1 l1 c = board_get st.board l1 c := by
      intro c hc l1
      rw [hget, if_neg]
      exact fun hh => hc hh.2
    obtain ⟨st1, hloop, hs1, hnew, hold, hex, hlen1, hlen2, hrest, hlast⟩ :=
      ih (c0 + 1) { board := b1, lines := st.lines.set 0 r, columns := st.columns.set 0 c0 }
        (board_set_shape hset hs) (by omega) (by omega)
        (by
          intro c h1 h2
          unfold Empty
          rw [hsame c (by omega)]
          exact htop c (by omega) (by push_cast; omega))
        (by simpa using hl) (by simpa using hcl)
    simp only at hnew hold hex hlen1 hlen2 hrest hlast
    refine ⟨st1, by simp [drop_column_loop, hcol, hloop], hs1, ?_, ?_, ?_, ?_, ?_, ?_, ?_⟩
    · intro l c h1 h2 hl1
      push_cast at h2
      by_cases hc : c = c0
      · subst hc
        have hlr : l = r := landing_unique hl1 hland
        subst hlr
        rw [hold l c (by intro hh; omega), hget, if_pos ⟨rfl, rfl⟩]
      · exact hnew l c (by omega) (by omega) ((landing_congr (hsame c hc)).2 hl1)
    · intro l c hnot
      have hnot1 : ¬ (c0 + 1 ≤ c ∧ c < c0 + 1 + n ∧ Landing b1 h l c) := by
        rintro ⟨h1, h2, h3⟩
        exact hnot ⟨by omega, by push_cast; omega, (landing_congr (hsame c (by omega))).1 h3⟩
      rw [hold l c hnot1, hget, if_neg]
      rintro ⟨rfl, rfl⟩
      exact hnot ⟨le_refl _, by push_cast; omega, hland⟩
    · intro c h1 h2
      push_cast at h2
      by_cases hc : c = c0
      · subst hc; exact ⟨r, hland⟩
      · obtain ⟨l, hl1⟩ := hex c (by omega) (by omega)
        exact ⟨l, (landing_congr (hsame c hc)).1 hl1⟩
    · simpa using hlen1
    · simpa using hlen2
    · intro i hi
      obtain ⟨e1, e2⟩ := hrest i hi
      have h0i : 0 ≠ i := by omega
      rw [e1, e2, List.getElem?_set_ne h0i, List.getElem?_set_ne h0i]
      exact ⟨rfl, rfl⟩
    · intro _
      by_cases hn : 1 ≤ n
      · obtain ⟨e1, r1, hr1, e2⟩ := hlast hn
        have hcc : c0 + 1 + (n : Int) - 1 = c0 + ((n + 1 : Nat) : Int) - 1 := by push_cast; ring
        rw [hcc] at e1 hr1
        refine ⟨e1, r1, (landing_congr (hsame _ (by push_cast; omega))).1 hr1, e2⟩
      · have hn0 : n = 0 := by omega
        subst hn0
        have hst1 : (⟨b1, st.lines.set 0 r, st.columns.set 0 c0⟩ : DropState) = st1 := by
          simpa [drop_column_loop] using hloop
        subst hst1
        refine ⟨?_, r, ?_, ?_⟩
        · simp only [List.getElem?_set_self (by omega : 0 < st.columns.length)]
          simp
        · simpa using hland
        · simp only [List.getElem?_set_self (by omega : 0 < st.lines.length)]

theorem valid_position_loop_true {b : Board} :
    ∀ (n : Nat) (c0 : Int), valid_position_loop b n c0 = some true →
      ∀ c, c0 ≤ c → c < c0 + n → Empty b 0 c := by
  intro n
  induction n with
  | zero =>
    intro c0 _ c h1 h2
    simp at h2
    omega
  | succ n ih =>
    intro c0 hv c h1 h2
    push_cast at h2
    unfold valid_position_loop at hv
    cases hcell : board_get b 0 c0 with
    | none => simp [hcell] at hv
    | some cell =>
      cases cell with
      | some s => simp [hcell] at hv
      | none =>
        simp only [hcell, Option.isSome_none] at hv
        by_cases hc : c = c0
        · subst hc; exact hcell
        · exact ih (c0 + 1) (by simpa using hv) c (by omega) (by omega)

/-- What an accepted position guarantees: the target columns are inside the
board and their top cells are free. -/
theorem valid_position_true {g : tGame} {b : Board} {size column : Int}
    {direction : Option String} (hb : g.board = some b)
    (hshape : BoardShape b g.height g.width) (hsize : 1 ≤ size)
    (hv : valid_position g size column direction = some true) :
    0 ≤ get_starting_column size column direction ∧
    get_starting_column size column direction + size ≤ g.width ∧
    (∀ c, get_starting_column size column direction ≤ c →
      c < get_starting_column size column direction + size → Empty b 0 c) ∧
    1 ≤ g.height := by
  unfold valid_position at hv
  simp only [hb] at hv
  split at hv
  · cases hv
  · rename_i hout
    push_neg at hout
    have hcast : ((size.toNat : Nat) : Int) = size := Int.toNat_of_nonneg (by omega)
    have hall := valid_position_loop_true size.toNat _ hv
    rw [hcast] at hall
    refine ⟨hout.1, hout.2, hall, ?_⟩
    have h0 := hall (get_starting_column size column direction) (le_refl _) (by omega)
    have := board_get_bounds hshape h0
    omega

theorem valid_size_true_pos {g : tGame} {name : String} {size : Int}
    (hv : valid_size g name size = some true) : 1 ≤ size := by
  by_contra hneg
  have hne : size ≠ 1 := by omega
  have hle : size ≤ 0 := by omega
  simp [valid_size, hne, hle] at hv

theorem get_in_game_player_active {g : tGame} {p1 : tInGamePlayer} (h1 : g.player1 = some p1)
    (name : String) :
    get_in_game_player g name =
      some (if p1.player = name then Seat.player1 else Seat.player2) := by
  unfold get_in_game_player
  simp only [h1]
  split <;> rfl

/-- The state returned by `drop` once its loop has produced `st1`: the board is
the one of `st1`, the outputs are its arrays, and dimensions, ledger and the
players of the seats are as before. -/
theorem drop_result {g : tGame} {name : String} {size column : Int}
    {direction : Option String} {lines columns : List Int} {p1 p2 : tInGamePlayer}
    {b : Board} {mover : Seat} {st1 : DropState}
    (h1 : g.player1 = some p1) (h2 : g.player2 = some p2) (hb : g.board = some b)
    (hm : get_in_game_player g name = some mover)
    (hloop : drop_column_loop mover g.height 0 size.toNat
      (get_starting_column size column direction)
      { board := b, lines := lines, columns := columns } = some st1) :
    ∃ g1 q1 q2, drop g name size column direction lines columns =
        some (g1, st1.lines, st1.columns) ∧
      g1.board = some st1.board ∧ g1.height = g.height ∧ g1.width = g.width ∧
      g1.sequence_size = g.sequence_size ∧ g1.players = g.players ∧
      g1.player1 = some q1 ∧ g1.player2 = some q2 ∧
      q1.player = p1.player ∧ q2.player = p2.player := by
  unfold drop
  simp only [hm, hb, hloop]
  by_cases hsz : size > 1
  · rw [if_pos hsz]
    cases mover with
    | player1 =>
      refine ⟨{ g with
          board := some st1.board
          player1 := some { p1 with
            special_sequences := remove_special_sequence_loop size p1.special_sequences } },
        _, _, ?_, rfl, rfl, rfl, rfl, rfl, rfl, h2, rfl, rfl⟩
      simp [remove_special_sequence, seat, h1]
    | player2 =>
      refine ⟨{ g with
          board := some st1.board
          player2 := some { p2 with
            special_sequences := remove_special_sequence_loop size p2.special_sequences } },
        _, _, ?_, rfl, rfl, rfl, rfl, rfl, h1, rfl, rfl, rfl⟩
      simp [remove_special_sequence, seat, h2]
  · rw [if_neg hsz]
    exact ⟨_, p1, p2, rfl, rfl, rfl, rfl, rfl, rfl, h1, h2, rfl, rfl⟩

/-- C4: in an active match, for size >= 1 and an accepted position, `drop`
returns; in each of the `size` target columns exactly one cell changes, it
becomes the mover's, and it is the resting cell of the column (all cells down
to it were empty and it is the bottom row or lies right above a piece, the
topmost one of the column); all other cells of the board are unchanged. -/
theorem drop_places_one_cell_per_column (g : tGame) (name : String) (size column : Int)
    (direction : Option String) (lines columns : List Int)
    (hact : ActiveMatch g) (hsize : 1 ≤ size)
    (hv : valid_position g size column direction = some true)
    (hl : lines.length = size.toNat) (hcl : columns.length = size.toNat) :
    ∃ mover b g1 ls cs b1, get_in_game_player g name = some mover ∧ g.board = some b ∧
      drop g name size column direction lines columns = some (g1, ls, cs) ∧
      g1.board = some b1 ∧ BoardShape b1 g.height g.width ∧
      (∀ c, get_starting_column size column direction ≤ c →
        c < get_starting_column size column direction + size →
        ∃ l, Landing b g.height l c ∧ board_get b1 l c = some (some mover) ∧
          ∀ l1, l1 ≠ l → board_get b1 l1 c = board_get b l1 c) ∧
      (∀ l c, ¬ (get_starting_column size column direction ≤ c ∧
          c < get_starting_column size column direction + size) →
        board_get b1 l c = board_get b l c) := by
  obtain ⟨p1, p2, b, h1, h2, hb, hshape⟩ := hact
  obtain ⟨hc0, hcw, htop, hh⟩ := valid_position_true hb hshape hsize hv
  have hcast : ((size.toNat : Nat) : Int) = size := Int.toNat_of_nonneg (by omega)
  have hpos : 1 ≤ size.toNat := by omega
  obtain ⟨st1, hloop, hs1, hnew, hold, hex, _, _, _, _⟩ :=
    drop_column_loop_spec (if p1.player = name then Seat.player1 else Seat.player2) hh
      size.toNat (get_starting_column size column direction)
      { board := b, lines := lines, columns := columns } hshape hc0 (by omega)
      (by rw [hcast]; exact htop) (by simp only; omega) (by simp only; omega)
  rw [hcast] at hnew hold hex
  simp only at hnew hold hex
  obtain ⟨g1, q1, q2, hdrop, hb1, _⟩ :=
    drop_result h1 h2 hb (get_in_game_player_active h1 name) hloop
  refine ⟨_, b, g1, st1.lines, st1.columns, st1.board, get_in_game_player_active h1 name, hb,
    hdrop, hb1, hs1, ?_, ?_⟩
  · intro c hc1 hc2
    obtain ⟨l, hland⟩ := hex c hc1 hc2
    refine ⟨l, hland, hnew l c hc1 hc2 hland, ?_⟩
    intro l1 hne
    apply hold
    rintro ⟨_, _, hl1⟩
    exact hne (landing_unique hl1 hland)
  · intro l c hnot
    apply hold
    rintro ⟨a1, a2, _⟩
    exact hnot ⟨a1, a2⟩

/-! ### Gravity -/

theorem board_get_mem {b : Board} {l c : Int} {cell : Cell}
    (hg : board_get b l c = some cell) : ∃ row ∈ b, cell ∈ row := by
  unfold board_get at hg
  split at hg
  · cases hg
  · cases hrow : b[l.toNat]? with
    | none => simp [hrow] at hg
    | some row =>
      simp only [hrow] at hg
      exact ⟨row, List.getElem?_mem hrow, List.getElem?_mem hg⟩

/-- A drop that passes the validations keeps the match active and the board
free of floating pieces. -/
theorem drop_preserves_gravity {g g1 : tGame} {name : String} {size column : Int}
    {direction : Option String} {lines columns ls cs : List Int}
    (hact : ActiveMatch g) (hgrav : ∀ b, g.board = some b → Gravity b g.height)
    (hvs : valid_size g name size = some true)
    (hv : valid_position g size column direction = some true)
    (hl : lines.length = size.toNat) (hcl : columns.length = size.toNat)
    (hdrop : drop g name size column direction lines columns = some (g1, ls, cs)) :
    ActiveMatch g1 ∧ ∀ b1, g1.board = some b1 → Gravity b1 g1.height := by
  have hsize := valid_size_true_pos hvs
  obtain ⟨p1, p2, b, h1, h2, hb, hshape⟩ := hact
  obtain ⟨hc0, hcw, htop, hh⟩ := valid_position_true hb hshape hsize hv
  have hcast : ((size.toNat : Nat) : Int) = size := Int.toNat_of_nonneg (by omega)
  have hpos : 1 ≤ size.toNat := by omega
  obtain ⟨st1, hloop, hs1, hnew, hold, _, _, _, _, _⟩ :=
    drop_column_loop_spec (if p1.player = name then Seat.player1 else Seat.player2) hh
      size.toNat (get_starting_column size column direction)
      { board := b, lines := lines, columns := columns } hshape hc0 (by omega)
      (by rw [hcast]; exact htop) (by simp only; omega) (by simp only; omega)
  simp only at hnew hold
  obtain ⟨g2, q1, q2, hdrop2, hb2, hh2, hw2, _, _, hq1, hq2, _, _⟩ :=
    drop_result h1 h2 hb (get_in_game_player_active h1 name) hloop
  rw [hdrop] at hdrop2
  have hg : g1 = g2 := by
    injection hdrop2 with e
    exact congrArg Prod.fst e
  subst hg
  have hmono : ∀ l c, Occupied b l c → Occupied st1.board l c := by
    intro l c hocc
    by_cases hin : get_starting_column size column direction ≤ c ∧
        c < get_starting_column size column direction + (size.toNat : Int) ∧
        Landing b g.height l c
    · exact ⟨_, hnew l c hin.1 hin.2.1 hin.2.2⟩
    · obtain ⟨s, hs⟩ := hocc
      exact ⟨s, by rw [hold l c hin]; exact hs⟩
  refine ⟨⟨q1, q2, st1.board, hq1, hq2, hb2, by rw [hh2, hw2]; exact hs1⟩, ?_⟩
  intro b1 hb1
  rw [hb2] at hb1
  injection hb1 with hb1
  subst hb1
  rw [hh2]
  intro r c hr0 hr1 hocc
  by_cases hin : get_starting_column size column direction ≤ c ∧
      c < get_starting_column size column direction + (size.toNat : Int) ∧
      Landing b g.height r c
  · obtain ⟨_, _, _, _, _, hrest⟩ := hin
    rcases hrest with e | hbelow
    · omega
    · exact hmono _ _ hbelow
  · obtain ⟨s, hs⟩ := hocc
    rw [hold r c hin] at hs
    exact hmono _ _ (hgrav b hb r c hr0 hr1 ⟨s, hs⟩)

theorem drop_reachable_invariant {g : tGame} (hr : DropReachable g) :
    ActiveMatch g ∧ ∀ b, g.board = some b → Gravity b g.height := by
  induction hr with
  | fresh g b hact hb hempty =>
    refine ⟨hact, ?_⟩
    intro b1 hb1
    rw [hb] at hb1
    injection hb1 with hb1
    subst hb1
    intro r c _ _ hocc
    obtain ⟨s, hs⟩ := hocc
    obtain ⟨row, hrow, hcell⟩ := board_get_mem hs
    have := hempty row hrow _ hcell
    cases this
  | move g g1 name size column direction lines columns ls cs _ hvs hv hl hcl hdrop ih =>
    exact drop_preserves_gravity ih.1 ih.2 hvs hv hl hcl hdrop

/-- C3: in every state reached from a freshly started match by drops that pass
`valid_size` and `valid_position`, a piece at a row above the bottom row has a
piece right below it, so the pieces of a column fill it from the piece down to
the bottom row. -/
theorem gravity_invariant (g : tGame) (b : Board) (hr : DropReachable g)
    (hb : g.board = some b) :
    (∀ r c, 0 ≤ r → r < g.height - 1 → Occupied b r c → Occupied b (r + 1) c) ∧
    (∀ r c, 0 ≤ r → Occupied b r c → ∀ r1, r ≤ r1 → r1 < g.height → Occupied b r1 c) := by
  have hgrav := (drop_reachable_invariant hr).2 b hb
  refine ⟨hgrav, ?_⟩
  intro r c hr0 hocc r1 h1 h2
  obtain ⟨k, hk⟩ : ∃ k : Nat, r1 = r + k := ⟨(r1 - r).toNat, by omega⟩
  subst hk
  clear h1
  induction k with
  | zero => simpa using hocc
  | succ k ih =>
    push_cast at h2 ⊢
    have := hgrav (r + k) c (by omega) (by omega) (ih (by omega))
    rw [← add_assoc]
    exact this

/-- The board built by `start_game` when the height is not negative. -/
theorem start_game_board (g : tGame) (n1 n2 : String) (width height sequence_size : Int)
    (special_sequences : List Int) (hh : 0 ≤ height) :
    (start_game g n1 n2 width height sequence_size special_sequences).board =
      some (List.replicate height.toNat (List.replicate width.toNat none)) := by
  simp only [start_game]
  rw [if_neg (by omega)]

theorem cp_win_loop_not_won {g g2 : tGame} {name : String} {ls cs : List Int} :
    ∀ (n : Nat) (i : Int), cp_win_loop g name ls cs n i = some (g2, false) → g2 = g := by
  intro n
  induction n with
  | zero =>
    intro i h
    simp only [cp_win_loop, Option.some.injEq, Prod.mk.injEq] at h
    exact h.1.symm
  | succ n ih =>
    intro i h
    unfold cp_win_loop at h
    split at h
    · split at h
      · cases h
      · split at h
        · cases h
        · simp at h
      · exact ih _ h
    · cases h

/-- A `CP` line answered `Placed` passed both validations and left the state that
`drop` returned, so it is a step of `DropReachable`. -/
theorem cmd_CP_placed {g g1 : tGame} {name : String} {size column : Int}
    {direction : Option String} {cl cc : Nat → Int}
    (h : cmd_CP g name size column direction cl cc = some (g1, Output.Placed)) :
    valid_size g name size = some true ∧ valid_position g size column direction = some true ∧
    ∃ ls cs, drop g name size column direction (malloc_ints cl size) (malloc_ints cc size) =
      some (g1, ls, cs) := by
  unfold cmd_CP at h
  split at h
  · simp at h
  · split at h
    · cases h
    · simp at h
    · split at h
      · cases h
      · simp at h
      · split at h
        · cases h
        · simp at h
        · split at h
          · cases h
          · rename_i game1 lines columns hdrop
            split at h
            · cases h
            · rename_i game2 player_won hloop
              cases player_won with
              | true => simp at h
              | false =>
                simp only [Bool.not_false, if_true, Option.some.injEq, Prod.mk.injEq,
                  and_true] at h
                subst h
                have := cp_win_loop_not_won _ _ hloop
                subst this
                exact ⟨by assumption, by assumption, lines, columns, hdrop⟩

theorem drop_reachable_cmd_CP {g g1 : tGame} {name : String} {size column : Int}
    {direction : Option String} {cl cc : Nat → Int} (hr : DropReachable g)
    (h : cmd_CP g name size column direction cl cc = some (g1, Output.Placed)) :
    DropReachable g1 := by
  obtain ⟨hvs, hvp, ls, cs, hdrop⟩ := cmd_CP_placed h
  exact DropReachable.move g g1 name size column direction _ _ ls cs hr hvs hvp
    (by simp [malloc_ints]) (by simp [malloc_ints]) hdrop

/-! ### Evaluations on concrete games -/

/-- C1: after `antidiagonal_commands` player "a" owns (2,0), (1,1) and (0,2), a
run of `sequence_size = 3` cells along the shift (1,-1) through the cell (0,2)
just placed (2 cells one way, 0 the other, plus the cell itself), yet
`player_wins` returns false there and the last move reports `Placed`. -/
theorem player_wins_ignores_antidiagonal :
    run new_game antidiagonal_commands =
      some (antidiagonal_game,
        [Output.Created, Output.Created, Output.Started, Output.Placed, Output.Placed,
          Output.Placed, Output.Placed, Output.Placed, Output.Placed, Output.Placed]) ∧
    count_pieces antidiagonal_game Seat.player1 0 2 1 (-1) = some 2 ∧
    count_pieces antidiagonal_game Seat.player1 0 2 (-1) 1 = some 0 ∧
    (2 : Int) + 1 + 0 ≥ antidiagonal_game.sequence_size ∧
    player_wins antidiagonal_game "a" 0 2 = some false := by
  refine ⟨by rfl, by rfl, by rfl, by decide, by rfl⟩

/-- C2: after `stack_commands` the fourth drop of "a" reports `Won`, and the win
is recorded for "b": "a" has 1 game and 0 wins, "b" has 1 game and 1 win. -/
theorem win_is_credited_to_opponent :
    (run new_game stack_commands).map (fun r => (r.1.players, r.2)) =
      some ([{ name := "a", games_played := 1, wins := 0 },
          { name := "b", games_played := 1, wins := 1 }],
        [Output.Created, Output.Created, Output.Started, Output.Placed, Output.Placed,
          Output.Placed, Output.Won]) := by
  rfl

/-- C5: on the fresh 5 x 3 board, dropping a piece of size 2 on columns 2 and 3
(0-indexed) fills the cells (2,2) and (2,3), but the output arrays come back as
`[2, x1]` and `[3, y1]`: entry 0 holds the cell of the last column and entry 1
still holds what it held before the call. -/
theorem drop_outputs_only_last_cell (x0 x1 y0 y1 : Int) :
    drop game_5x3 "a" 2 3 (some "D") [x0, x1] [y0, y1] =
      some ({ game_5x3 with
          player1 := some { player := "a", special_sequences := [] }
          board := some [[none, none, none, none, none], [none, none, none, none, none],
            [none, none, some Seat.player1, some Seat.player1, none]] },
        [2, x1], [3, y1]) := by
  rfl

/-- C6: in `wide_commands` the piece of size 2 fills (0,2) and (2,3) and
completes the column (0,2), (1,2), (2,2) of "a", so `player_wins` holds at the
filled cell (0,2) and not at (2,3).  When the fresh block `columns` holds zeros
the move reports `Placed` and the match goes on; when it holds 2 the same move
reports `Won`. -/
theorem wide_drop_win_depends_on_memory :
    run new_game (wide_commands zeros) =
      some (wide_game,
        [Output.Created, Output.Created, Output.Started, Output.Placed, Output.Placed,
          Output.Placed]) ∧
    player_wins wide_game "a" 0 2 = some true ∧
    player_wins wide_game "a" 2 3 = some false ∧
    (run new_game (wide_commands (fun _ => 2))).map (fun r => r.2) =
      some [Output.Created, Output.Created, Output.Started, Output.Placed, Output.Placed,
        Output.Won] := by
  refine ⟨by rfl, by rfl, by rfl, by rfl⟩

/-! ### Instances of the general theorems -/

theorem game_5x3_active : ActiveMatch game_5x3 :=
  ⟨_, _, _, rfl, rfl, rfl, by simp [BoardShape, game_5x3, start_game]⟩

theorem game_7x4_active : ActiveMatch game_7x4 :=
  ⟨_, _, _, rfl, rfl, rfl, by simp [BoardShape, game_7x4, start_game]⟩

/-- Instance of `valid_size_spec` (C10): player "a" of the 5 x 3 match, size 2. -/
theorem valid_size_spec_witness :
    ("a" = "a" ∨ "a" = "b") ∧
    ((2 : Int) = 1 → valid_size game_5x3 "a" 2 = some true) ∧
    ((2 : Int) ≤ 0 → valid_size game_5x3 "a" 2 = some false) ∧
    ((2 : Int) ≤ 2 → "a" = "a" →
      valid_size game_5x3 "a" 2 = some (decide ((2 : Int) ∈ [(2 : Int)]))) ∧
    ((2 : Int) ≤ 2 → "a" ≠ "a" →
      "a" = "b" ∧ valid_size game_5x3 "a" 2 = some (decide ((2 : Int) ∈ [(2 : Int)]))) :=
  ⟨Or.inl rfl,
    valid_size_spec game_5x3 { player := "a", special_sequences := [2] }
      { player := "b", special_sequences := [2] } "a" 2 rfl rfl (Or.inl rfl)⟩

/-- Instance of `valid_position_spec` (C9): size 2 at column 3 towards "D" on
the fresh 5 x 3 board. -/
theorem valid_position_spec_witness :
    (1 : Int) ≤ game_5x3.height ∧ (1 : Int) ≤ 2 ∧
    ∃ r, valid_position game_5x3 2 3 (some "D") = some r ∧
      (r = false ↔
        (get_starting_column 2 3 (some "D") < 0 ∨
          get_starting_column 2 3 (some "D") + 2 > game_5x3.width ∨
          ∃ c, get_starting_column 2 3 (some "D") ≤ c ∧
            c < get_starting_column 2 3 (some "D") + 2 ∧
            Occupied (List.replicate 3 (List.replicate 5 none)) 0 c)) :=
  ⟨by decide, by decide,
    valid_position_spec game_5x3 (List.replicate 3 (List.replicate 5 none)) 2 3 (some "D") rfl
      (by simp [BoardShape, game_5x3, start_game]) (by decide) (by decide)⟩

theorem game_7x4_two_reachable : DropReachable game_7x4_two :=
  DropReachable.move game_7x4_one game_7x4_two "b" 1 4 none [0] [0] [2] [3]
    (DropReachable.move game_7x4 game_7x4_one "a" 1 4 none [0] [0] [3] [3]
      (DropReachable.fresh game_7x4 (List.replicate 4 (List.replicate 7 none)) game_7x4_active
        rfl (by simp))
      (by rfl) (by rfl) rfl rfl (by rfl))
    (by rfl) (by rfl) rfl rfl (by rfl)

/-- Instance of `gravity_invariant` (C3): the 7 x 4 match after two drops in
column 4. -/
theorem gravity_invariant_witness :
    DropReachable game_7x4_two ∧
    game_7x4_two.board = some [List.replicate 7 none, List.replicate 7 none,
      [none, none, none, some Seat.player2, none, none, none],
      [none, none, none, some Seat.player1, none, none, none]] ∧
    (∀ r c, 0 ≤ r → r < game_7x4_two.height - 1 →
      Occupied [List.replicate 7 none, List.replicate 7 none,
        [none, none, none, some Seat.player2, none, none, none],
        [none, none, none, some Seat.player1, none, none, none]] r c →
      Occupied [List.replicate 7 none, List.replicate 7 none,
        [none, none, none, some Seat.player2, none, none, none],
        [none, none, none, some Seat.player1, none, none, none]] (r + 1) c) ∧
    (∀ r c, 0 ≤ r →
      Occupied [List.replicate 7 none, List.replicate 7 none,
        [none, none, none, some Seat.player2, none, none, none],
        [none, none, none, some Seat.player1, none, none, none]] r c →
      ∀ r1, r ≤ r1 → r1 < game_7x4_two.height →
        Occupied [List.replicate 7 none, List.replicate 7 none,
          [none, none, none, some Seat.player2, none, none, none],
          [none, none, none, some Seat.player1, none, none, none]] r1 c) :=
  ⟨game_7x4_two_reachable, rfl,
    gravity_invariant game_7x4_two _ game_7x4_two_reachable rfl⟩

/-- Instance of `drop_places_one_cell_per_column` (C4): "a" drops the piece of
size 2 on columns 3 and 4 of the fresh 5 x 3 board. -/
theorem drop_places_one_cell_per_column_witness :
    ActiveMatch game_5x3 ∧ (1 : Int) ≤ 2 ∧
    valid_position game_5x3 2 3 (some "D") = some true ∧
    ([0, 0] : List Int).length = (2 : Int).toNat ∧
    ∃ mover b g1 ls cs b1, get_in_game_player game_5x3 "a" = some mover ∧
      game_5x3.board = some b ∧
      drop game_5x3 "a" 2 3 (some "D") [0, 0] [0, 0] = some (g1, ls, cs) ∧
      g1.board = some b1 ∧ BoardShape b1 game_5x3.height game_5x3.width ∧
      (∀ c, get_starting_column 2 3 (some "D") ≤ c →
        c < get_starting_column 2 3 (some "D") + 2 →
        ∃ l, Landing b game_5x3.height l c ∧ board_get b1 l c = some (some mover) ∧
          ∀ l1, l1 ≠ l → board_get b1 l1 c = board_get b l1 c) ∧
      (∀ l c, ¬ (get_starting_column 2 3 (some "D") ≤ c ∧
          c < get_starting_column 2 3 (some "D") + 2) →
        board_get b1 l c = board_get b l c) :=
  ⟨game_5x3_active, by decide, by rfl, rfl,
    drop_places_one_cell_per_column game_5x3 "a" 2 3 (some "D") [0, 0] [0, 0]
      game_5x3_active (by decide) (by rfl) rfl rfl⟩

/-! ### Starting a match (command `IJ`) -/

theorem valid_special_sequences_iff (sequence_size : Int) (xs : List Int) :
    valid_special_sequences sequence_size xs = true ↔ ∀ x ∈ xs, x < sequence_size := by
  induction xs with
  | nil => simp [valid_special_sequences]
  | cons x xs ih =>
    unfold valid_special_sequences
    by_cases hx : x ≥ sequence_size
    · simp only [hx, if_true, List.mem_cons, forall_eq_or_imp]
      constructor
      · intro hf; cases hf
      · intro hall; omega
    · simp only [hx, if_false, List.mem_cons, forall_eq_or_imp, ih]
      constructor
      · intro hall; exact ⟨by omega, hall⟩
      · intro hall; exact hall.2

/-- What an accepted start went through and produced. -/
theorem cmd_IJ_started {g g1 : tGame} {n1 n2 : String} {width height sequence_size : Int}
    {special_sequences : List Int}
    (h : cmd_IJ g n1 n2 width height sequence_size special_sequences = (g1, Output.Started)) :
    in_game g = false ∧ has_player g n1 = true ∧ has_player g n2 = true ∧
    valid_dimensions width height = true ∧ valid_sequence width sequence_size = true ∧
    valid_special_sequences sequence_size special_sequences = true ∧
    g1 = start_game g n1 n2 width height sequence_size special_sequences := by
  unfold cmd_IJ at h
  split at h
  · simp at h
  · rename_i h0
    split at h
    · simp at h
    · rename_i h1
      split at h
      · simp at h
      · rename_i h2
        split at h
        · simp at h
        · rename_i h3
          split at h
          · simp at h
          · rename_i h4
            simp only [Prod.mk.injEq, and_true] at h
            simp only [Bool.or_eq_true, Bool.not_eq_true', not_or, Bool.not_eq_false] at h1
            simp only [Bool.not_eq_true', Bool.not_eq_false] at h2 h3 h4
            exact ⟨by simpa using h0, h1.1, h1.2, h2, h3, h4, h.symm⟩

/-- C16: the answer to a start request is decided by the first failing check, in
the order: a match exists, a name is not registered, `height < width / 2` (C
division), `sequenceSize >= width`, some declared size `>= sequenceSize`;
otherwise the match starts.  Width 9 with height 4 passes the dimension check
and with height 3 does not; a declared size equal to the winning size 3 is
rejected and the size 2 is accepted. -/
theorem cmd_IJ_first_failing_check :
    (∀ (g : tGame) (n1 n2 : String) (width height sequence_size : Int)
      (special_sequences : List Int),
      (cmd_IJ g n1 n2 width height sequence_size special_sequences).2 =
        if in_game g = true then Output.AlreadyActive
        else if has_player g n1 = false ∨ has_player g n2 = false then Output.UnknownPlayer
        else if height < Int.tdiv width 2 then Output.InvalidDimensions
        else if sequence_size ≥ width then Output.InvalidSequenceSize
        else if ∃ x ∈ special_sequences, x ≥ sequence_size then Output.InvalidSpecialSequence
        else Output.Started) ∧
    (cmd_IJ two_players "a" "b" 9 4 3 [2]).2 = Output.Started ∧
    (cmd_IJ two_players "a" "b" 9 3 3 [2]).2 = Output.InvalidDimensions ∧
    (cmd_IJ two_players "a" "b" 9 4 3 [3]).2 = Output.InvalidSpecialSequence := by
  refine ⟨?_, by rfl, by rfl, by rfl⟩
  intro g n1 n2 width height sequence_size special_sequences
  unfold cmd_IJ
  by_cases h0 : in_game g = true
  · simp [h0]
  · simp only [h0, if_false, Bool.false_eq_true]
    by_cases h1 : has_player g n1 = false ∨ has_player g n2 = false
    · have : (!has_player g n1 || !has_player g n2) = true := by
        rcases h1 with h | h <;> simp [h]
      simp [this, h1]
    · have : ¬ (!has_player g n1 || !has_player g n2) = true := by
        intro hh
        apply h1
        simpa using hh
      simp only [this, if_false, h1]
      by_cases h2 : height < Int.tdiv width 2
      · have : (!valid_dimensions width height) = true := by
          simp [valid_dimensions, h2]
        simp [this, h2]
      · have : ¬ (!valid_dimensions width height) = true := by
          simp [valid_dimensions]; omega
        simp only [this, if_false, h2]
        by_cases h3 : sequence_size ≥ width
        · have : (!valid_sequence width sequence_size) = true := by
            simp [valid_sequence]; omega
          simp [this, h3]
        · have : ¬ (!valid_sequence width sequence_size) = true := by
            simp [valid_sequence]; omega
          simp only [this, if_false, h3]
          by_cases h4 : ∃ x ∈ special_sequences, x ≥ sequence_size
          · have : (!valid_special_sequences sequence_size special_sequences) = true := by
              rw [Bool.not_eq_true', ← Bool.not_eq_true, valid_special_sequences_iff]
              push_neg
              exact h4
            simp [this, h4]
          · have : ¬ (!valid_special_sequences sequence_size special_sequences) = true := by
              rw [Bool.not_eq_true', Bool.not_eq_false, valid_special_sequences_iff]
              push_neg at h4
              exact h4
            simp [this, h4]

theorem game_over_ended {g g1 : tGame} {first_name : String} {second_name : Option String}
    (h : game_over g first_name second_name = some g1) :
    NoActiveMatch g1 ∧ g1.width = g.width ∧ g1.height = g.height ∧
    g1.sequence_size = g.sequence_size := by
  unfold game_over at h
  split at h
  · simp only at h
    repeat' split at h
    all_goals first
      | (simp at h; done)
      | (injection h with h; subst h; exact ⟨⟨rfl, rfl, rfl, rfl⟩, rfl, rfl, rfl⟩)
  · cases h

theorem cmd_D_resigned {g g1 : tGame} {n1 : String} {n2 : Option String}
    (h : cmd_D g n1 n2 = some (g1, Output.Resigned)) :
    in_game g = true ∧ game_over g n1 n2 = some g1 := by
  unfold cmd_D at h
  split at h
  · simp at h
  · rename_i h0
    have hin : in_game g = true := by simpa using h0
    simp only at h
    repeat' split at h
    all_goals first
      | (simp at h; done)
      | (rename_i hover
         simp only [Option.some.injEq, Prod.mk.injEq, and_true] at h
         subst h
         exact ⟨hin, hover⟩)

theorem cp_win_loop_won {g g2 : tGame} {name : String} {ls cs : List Int} :
    ∀ (n : Nat) (i : Int), cp_win_loop g name ls cs n i = some (g2, true) →
      game_over g name none = some g2 := by
  intro n
  induction n with
  | zero =>
    intro i h
    simp [cp_win_loop] at h
  | succ n ih =>
    intro i h
    unfold cp_win_loop at h
    split at h
    · split at h
      · cases h
      · split at h
        · cases h
        · rename_i game1 hover
          simp only [Option.some.injEq, Prod.mk.injEq, and_true] at h
          subst h
          exact hover
      · exact ih _ h
    · cases h

theorem cmd_CP_won {g g1 : tGame} {name : String} {size column : Int}
    {direction : Option String} {cl cc : Nat → Int}
    (h : cmd_CP g name size column direction cl cc = some (g1, Output.Won)) :
    in_game g = true ∧ valid_size g name size = some true ∧
    valid_position g size column direction = some true ∧
    ∃ game1 ls cs, drop g name size column direction (malloc_ints cl size) (malloc_ints cc size) =
      some (game1, ls, cs) ∧ game_over game1 name none = some g1 := by
  unfold cmd_CP at h
  split at h
  · simp at h
  · rename_i h0
    split at h
    · cases h
    · simp at h
    · split at h
      · cases h
      · simp at h
      · split at h
        · cases h
        · simp at h
        · split at h
          · cases h
          · rename_i game1 lines columns hdrop
            split at h
            · cases h
            · rename_i game2 player_won hloop
              cases player_won with
              | false => simp at h
              | true =>
                simp only [Bool.not_true, Bool.false_eq_true, if_false, Option.some.injEq,
                  Prod.mk.injEq, and_true] at h
                subst h
                exact ⟨by simpa using h0, by assumption, by assumption, game1, lines, columns,
                  hdrop, cp_win_loop_won _ _ hloop⟩

theorem cmd_IJ_accepts {g : tGame} {n1 n2 : String} {width height sequence_size : Int}
    {special_sequences : List Int} (h0 : in_game g = false)
    (h1 : has_player g n1 = true) (h2 : has_player g n2 = true)
    (h3 : valid_dimensions width height = true)
    (h4 : valid_sequence width sequence_size = true)
    (h5 : valid_special_sequences sequence_size special_sequences = true) :
    cmd_IJ g n1 n2 width height sequence_size special_sequences =
      (start_game g n1 n2 width height sequence_size special_sequences, Output.Started) := by
  simp [cmd_IJ, h0, h1, h2, h3, h4, h5]

/-- C15: after a successful resignation and after a move that reports `Won` no
match is in progress (`in_game` is false, the board and both seats are gone)
and a start with registered names and valid parameters is accepted; in every
state with a match in progress a start is answered `AlreadyActive`. -/
theorem match_lifecycle (g g1 : tGame) :
    (∀ (n1 : String) (n2 : Option String), cmd_D g n1 n2 = some (g1, Output.Resigned) →
      in_game g = true ∧ NoActiveMatch g1) ∧
    (∀ (name : String) (size column : Int) (direction : Option String) (cl cc : Nat → Int),
      cmd_CP g name size column direction cl cc = some (g1, Output.Won) →
      in_game g = true ∧ NoActiveMatch g1) ∧
    (NoActiveMatch g1 →
      ∀ (n1 n2 : String) (width height sequence_size : Int) (special_sequences : List Int),
      has_player g1 n1 = true → has_player g1 n2 = true →
      valid_dimensions width height = true → valid_sequence width sequence_size = true →
      valid_special_sequences sequence_size special_sequences = true →
      cmd_IJ g1 n1 n2 width height sequence_size special_sequences =
        (start_game g1 n1 n2 width height sequence_size special_sequences, Output.Started)) ∧
    (in_game g = true →
      ∀ (n1 n2 : String) (width height sequence_size : Int) (special_sequences : List Int),
      cmd_IJ g n1 n2 width height sequence_size special_sequences = (g, Output.AlreadyActive)) := by
  refine ⟨?_, ?_, ?_, ?_⟩
  · intro n1 n2 h
    obtain ⟨hin, hover⟩ := cmd_D_resigned h
    exact ⟨hin, (game_over_ended hover).1⟩
  · intro name size column direction cl cc h
    obtain ⟨hin, _, _, game1, ls, cs, _, hover⟩ := cmd_CP_won h
    exact ⟨hin, (game_over_ended hover).1⟩
  · intro hno n1 n2 width height sequence_size special_sequences h1 h2 h3 h4 h5
    exact cmd_IJ_accepts hno.1 h1 h2 h3 h4 h5
  · intro hin n1 n2 width height sequence_size special_sequences
    simp [cmd_IJ, hin]

theorem cmd_IJ_refused {g g1 : tGame} {n1 n2 : String} {width height sequence_size : Int}
    {special_sequences : List Int} {out : Output}
    (h : cmd_IJ g n1 n2 width height sequence_size special_sequences = (g1, out))
    (hs : out ≠ Output.Started) : g1 = g := by
  unfold cmd_IJ at h
  repeat' split at h
  all_goals first
    | (exact (congrArg Prod.fst h).symm)
    | (exact absurd (congrArg Prod.snd h).symm hs)

theorem cmd_D_refused {g g1 : tGame} {n1 : String} {n2 : Option String} {out : Output}
    (h : cmd_D g n1 n2 = some (g1, out)) (hr : out ≠ Output.Resigned) : g1 = g := by
  unfold cmd_D at h
  split at h
  · injection h with h; exact (congrArg Prod.fst h).symm
  · simp only at h
    repeat' split at h
    all_goals first
      | (simp at h; done)
      | (injection h with h; exact (congrArg Prod.fst h).symm)
      | (injection h with h; exact absurd (congrArg Prod.snd h).symm hr)

theorem cmd_CP_refused {g g1 : tGame} {name : String} {size column : Int}
    {direction : Option String} {cl cc : Nat → Int} {out : Output}
    (h : cmd_CP g name size column direction cl cc = some (g1, out))
    (hp : out ≠ Output.Placed) (hw : out ≠ Output.Won) : g1 = g := by
  unfold cmd_CP at h
  repeat' split at h
  all_goals first
    | (simp at h; done)
    | (injection h with h; exact absurd (congrArg Prod.snd h).symm hp)
    | (injection h with h; exact absurd (congrArg Prod.snd h).symm hw)
    | (injection h with h; exact (congrArg Prod.fst h).symm)

/-- C19: when a start, a resignation or a move is answered with an error result,
the state returned is the state given: ledger, board, inventories and match
parameters are untouched (so a move refused as `InvalidPosition` has consumed
no inventory entry). -/
theorem error_leaves_state_unchanged (g g1 : tGame) (out : Output) (herr : ErrorResult out) :
    (∀ (n1 n2 : String) (width height sequence_size : Int) (special_sequences : List Int),
      cmd_IJ g n1 n2 width height sequence_size special_sequences = (g1, out) → g1 = g) ∧
    (∀ (n1 : String) (n2 : Option String), cmd_D g n1 n2 = some (g1, out) → g1 = g) ∧
    (∀ (name : String) (size column : Int) (direction : Option String) (cl cc : Nat → Int),
      cmd_CP g name size column direction cl cc = some (g1, out) → g1 = g) := by
  have hne : out ≠ Output.Started ∧ out ≠ Output.Resigned ∧ out ≠ Output.Placed ∧
      out ≠ Output.Won := by
    unfold ErrorResult at herr
    rcases herr with h | h | h | h | h | h | h | h | h <;> subst h <;> decide
  obtain ⟨hs, hr, hp, hw⟩ := hne
  exact ⟨fun _ _ _ _ _ _ h => cmd_IJ_refused h hs, fun _ _ h => cmd_D_refused h hr,
    fun _ _ _ _ _ _ h => cmd_CP_refused h hp hw⟩

/-! ### Match parameters -/

theorem drop_fields {g g1 : tGame} {name : String} {size column : Int}
    {direction : Option String} {lines columns ls cs : List Int}
    (h : drop g name size column direction lines columns = some (g1, ls, cs)) :
    g1.width = g.width ∧ g1.height = g.height ∧ g1.sequence_size = g.sequence_size ∧
    g1.players = g.players ∧ g1.special_sequences = g.special_sequences := by
  unfold drop at h
  split at h
  · simp only at h
    split at h
    · cases h
    · split at h
      · split at h
        · cases h
        · rename_i game2 hrem
          injection h with h
          have hg : game2 = g1 := congrArg Prod.fst h
          subst hg
          unfold remove_special_sequence at hrem
          split at hrem
          · cases hrem
          · injection hrem with hrem; subst hrem; exact ⟨rfl, rfl, rfl, rfl, rfl⟩
          · injection hrem with hrem; subst hrem; exact ⟨rfl, rfl, rfl, rfl, rfl⟩
      · injection h with h
        have hg := congrArg Prod.fst h
        simp only at hg
        subst hg
        exact ⟨rfl, rfl, rfl, rfl, rfl⟩
  · cases h

theorem cmd_CP_in_game {g g1 : tGame} {name : String} {size column : Int}
    {direction : Option String} {cl cc : Nat → Int} {out : Output}
    (h : cmd_CP g name size column direction cl cc = some (g1, out))
    (hn : out ≠ Output.NoMatch) : in_game g = true := by
  unfold cmd_CP at h
  split at h
  · injection h with h
    exact absurd (congrArg Prod.snd h).symm hn
  · rename_i h0
    simpa using h0

/-- The parameters checked by the start stay as they were accepted while the
match is in progress: every command keeps them or ends the match. -/
theorem exec_keeps_parameters {g g1 : tGame} {cmd : Command} {out : Output}
    (h : exec g cmd = some (g1, out))
    (hinv : in_game g = true → g.sequence_size < g.width ∧ g.height ≥ Int.tdiv g.width 2) :
    in_game g1 = true → g1.sequence_size < g1.width ∧ g1.height ≥ Int.tdiv g1.width 2 := by
  cases cmd with
  | RJ name =>
    simp only [exec, Option.some.injEq] at h
    unfold cmd_RJ at h
    split at h
    · have := (congrArg Prod.fst h); simp only at this; subst this; exact hinv
    · have := (congrArg Prod.fst h); simp only at this; subst this; exact hinv
  | EJ name =>
    simp only [exec] at h
    unfold cmd_EJ at h
    split at h
    · injection h with h
      have := (congrArg Prod.fst h); simp only at this; subst this; exact hinv
    · simp only at h
      repeat' split at h
      all_goals first
        | (simp at h; done)
        | (injection h with h
           have := (congrArg Prod.fst h); simp only at this; subst this; exact hinv)
        | (rename_i game1 hrem
           injection h with h
           have := (congrArg Prod.fst h); simp only at this; subst this
           unfold remove_player at hrem
           simp only at hrem
           split at hrem
           · cases hrem
           · injection hrem with hrem; subst hrem; exact hinv)
  | IJ n1 n2 width height sequence_size special_sequences =>
    simp only [exec, Option.some.injEq] at h
    by_cases hout : out = Output.Started
    · subst hout
      obtain ⟨_, _, _, h3, h4, _, hg1⟩ := cmd_IJ_started h
      subst hg1
      intro _
      simp only [valid_dimensions, valid_sequence, decide_eq_true_eq] at h3 h4
      exact ⟨h4, h3⟩
    · rw [cmd_IJ_refused h hout]; exact hinv
  | D n1 n2 =>
    simp only [exec] at h
    by_cases hout : out = Output.Resigned
    · subst hout
      obtain ⟨_, hover⟩ := cmd_D_resigned h
      intro hin
      rw [(game_over_ended hover).1.1] at hin
      cases hin
    · rw [cmd_D_refused h hout]; exact hinv
  | CP name size column direction cl cc =>
    simp only [exec] at h
    by_cases hp : out = Output.Placed
    · subst hp
      obtain ⟨_, _, ls, cs, hdrop⟩ := cmd_CP_placed h
      obtain ⟨hw, hh, hs, _, _⟩ := drop_fields hdrop
      have hin := cmd_CP_in_game h (by decide)
      intro _
      rw [hw, hh, hs]
      exact hinv hin
    · by_cases hw : out = Output.Won
      · subst hw
        obtain ⟨_, _, _, game1, ls, cs, _, hover⟩ := cmd_CP_won h
        intro hin
        rw [(game_over_ended hover).1.1] at hin
        cases hin
      · rw [cmd_CP_refused h hp hw]; exact hinv

theorem reachable_parameters {g : tGame} (hr : Reachable g) :
    in_game g = true → g.sequence_size < g.width ∧ g.height ≥ Int.tdiv g.width 2 := by
  induction hr with
  | init => intro h; cases h
  | step g g1 cmd out _ hexec ih => exact exec_keeps_parameters hexec ih

/-- C18 (as stated, refuted): the start with width 3, height 2 and winning size 0
is accepted, and the match in progress has `sequence_size = 0`. -/
theorem sequence_size_lower_bound_counterexample :
    run new_game zero_sequence_commands =
      some (zero_sequence_game, [Output.Created, Output.Created, Output.Started]) ∧
    in_game zero_sequence_game = true ∧
    ¬ (1 ≤ zero_sequence_game.sequence_size ∧
      zero_sequence_game.sequence_size < zero_sequence_game.width) := by
  refine ⟨by rfl, by rfl, by decide⟩

/-- C18 (amended): in every state the program reaches, while a match is in
progress its parameters satisfy `sequence_size < width` and
`height >= width / 2` (C division), the two bounds the start checks. -/
theorem accepted_parameters_invariant (g : tGame) (hr : Reachable g)
    (hin : in_game g = true) :
    g.sequence_size < g.width ∧ g.height ≥ Int.tdiv g.width 2 :=
  reachable_parameters hr hin

/-! ### Inventories -/

theorem remove_special_sequence_loop_eq_erase (size : Int) (xs : List Int) :
    remove_special_sequence_loop size xs = xs.erase size := by
  induction xs with
  | nil => rfl
  | cons x xs ih =>
    unfold remove_special_sequence_loop
    by_cases hx : x = size
    · subst hx; simp
    · rw [if_neg hx, ih, List.erase_cons_tail]
      simpa using hx

theorem remove_special_sequence_loop_count (size : Int) (xs : List Int) (hmem : size ∈ xs) :
    (remove_special_sequence_loop size xs).count size + 1 = xs.count size ∧
    ∀ v, v ≠ size → (remove_special_sequence_loop size xs).count v = xs.count v := by
  rw [remove_special_sequence_loop_eq_erase]
  refine ⟨?_, fun v hv => List.count_erase_of_ne hv xs⟩
  have hpos : 0 < xs.count size := List.count_pos_iff.2 hmem
  rw [List.count_erase_self]
  omega

theorem valid_size_true_mem {g : tGame} {name : String} {size : Int}
    (hv : valid_size g name size = some true) (hne : size ≠ 1) :
    ∃ s m, get_in_game_player g name = some s ∧ seat g s = some m ∧
      size ∈ m.special_sequences := by
  unfold valid_size at hv
  rw [if_neg hne] at hv
  split at hv
  · cases hv
  · split at hv
    · cases hv
    · rename_i s hs
      split at hv
      · cases hv
      · rename_i m hm
        refine ⟨s, m, hs, hm, ?_⟩
        injection hv with hv
        rw [valid_size_loop_eq] at hv
        simpa using hv

/-- The seats after `drop`, once its loop has produced `st1`: untouched for a
single piece; for a wider piece the mover's seat has lost the first entry
equal to `size`. -/
theorem drop_seats {g : tGame} {name : String} {size column : Int}
    {direction : Option String} {lines columns : List Int} {p1 p2 : tInGamePlayer}
    {b : Board} {mover : Seat} {st1 : DropState}
    (h1 : g.player1 = some p1) (h2 : g.player2 = some p2) (hb : g.board = some b)
    (hm : get_in_game_player g name = some mover)
    (hloop : drop_column_loop mover g.height 0 size.toNat
      (get_starting_column size column direction)
      { board := b, lines := lines, columns := columns } = some st1) :
    ∃ g1, drop g name size column direction lines columns =
        some (g1, st1.lines, st1.columns) ∧
      (¬ size > 1 → g1.player1 = some p1 ∧ g1.player2 = some p2) ∧
      (size > 1 → mover = Seat.player1 →
        g1.player1 = some { p1 with
          special_sequences := remove_special_sequence_loop size p1.special_sequences } ∧
        g1.player2 = some p2) ∧
      (size > 1 → mover = Seat.player2 →
        g1.player1 = some p1 ∧
        g1.player2 = some { p2 with
          special_sequences := remove_special_sequence_loop size p2.special_sequences }) := by
  unfold drop
  simp only [hm, hb, hloop]
  by_cases hsz : size > 1
  · rw [if_pos hsz]
    cases mover with
    | player1 =>
      refine ⟨{ g with
          board := some st1.board
          player1 := some { p1 with
            special_sequences := remove_special_sequence_loop size p1.special_sequences } },
        ?_, fun hn => absurd hsz hn, fun _ _ => ⟨rfl, h2⟩, fun _ hc => (by cases hc)⟩
      simp [remove_special_sequence, seat, h1]
    | player2 =>
      refine ⟨{ g with
          board := some st1.board
          player2 := some { p2 with
            special_sequences := remove_special_sequence_loop size p2.special_sequences } },
        ?_, fun hn => absurd hsz hn, fun _ hc => (by cases hc), fun _ _ => ⟨h1, rfl⟩⟩
      simp [remove_special_sequence, seat, h2]
  · rw [if_neg hsz]
    exact ⟨_, rfl, fun _ => ⟨h1, h2⟩, fun hc => absurd hc hsz, fun hc => absurd hc hsz⟩

/-- C11: for a drop that passes `valid_size` and `valid_position` in an active
match: with size 1 both seats keep their inventories; with size > 1 the
mover's inventory has one occurrence of `size` less and as many of every
other value, and the facing seat keeps its inventory. -/
theorem drop_inventory (g : tGame) (name : String) (size column : Int)
    (direction : Option String) (lines columns : List Int)
    (hact : ActiveMatch g) (hvs : valid_size g name size = some true)
    (hv : valid_position g size column direction = some true)
    (hl : lines.length = size.toNat) (hcl : columns.length = size.toNat) :
    ∃ mover g1 ls cs m o m1, get_in_game_player g name = some mover ∧
      drop g name size column direction lines columns = some (g1, ls, cs) ∧
      seat g mover = some m ∧ seat g (other_seat mover) = some o ∧
      seat g1 mover = some m1 ∧ seat g1 (other_seat mover) = some o ∧
      m1.player = m.player ∧
      (size = 1 → m1.special_sequences = m.special_sequences) ∧
      (size > 1 →
        m1.special_sequences.count size + 1 = m.special_sequences.count size ∧
        ∀ v, v ≠ size → m1.special_sequences.count v = m.special_sequences.count v) := by
  have hsize := valid_size_true_pos hvs
  obtain ⟨p1, p2, b, h1, h2, hb, hshape⟩ := hact
  obtain ⟨hc0, hcw, htop, hh⟩ := valid_position_true hb hshape hsize hv
  have hcast : ((size.toNat : Nat) : Int) = size := Int.toNat_of_nonneg (by omega)
  have hpos : 1 ≤ size.toNat := by omega
  have hm := get_in_game_player_active h1 name
  obtain ⟨st1, hloop, _⟩ :=
    drop_column_loop_spec (if p1.player = name then Seat.player1 else Seat.player2) hh
      size.toNat (get_starting_column size column direction)
      { board := b, lines := lines, columns := columns } hshape hc0 (by omega)
      (by rw [hcast]; exact htop) (by simp only; omega) (by simp only; omega)
  obtain ⟨g1, hdrop, hsame, hfirst, hsecond⟩ := drop_seats h1 h2 hb hm hloop
  by_cases hn : p1.player = name
  · have hmv : (if p1.player = name then Seat.player1 else Seat.player2) = Seat.player1 := by
      simp [hn]
    rw [hmv] at hm
    by_cases hsz : size > 1
    · obtain ⟨s, m, hs, hseat, hmem⟩ := valid_size_true_mem hvs (by omega)
      rw [hm] at hs
      injection hs with hs
      subst hs
      have hmp : p1 = m := by
        simp only [seat, h1, Option.some.injEq] at hseat
        exact hseat
      subst hmp
      obtain ⟨e1, e2⟩ := hfirst hsz hmv
      obtain ⟨c1, c2⟩ := remove_special_sequence_loop_count size _ hmem
      exact ⟨Seat.player1, g1, st1.lines, st1.columns, p1, p2,
        { p1 with
          special_sequences := remove_special_sequence_loop size p1.special_sequences },
        hm, hdrop, h1, h2, e1, e2, rfl, fun h => absurd hsz (by omega), fun _ => ⟨c1, c2⟩⟩
    · obtain ⟨e1, e2⟩ := hsame hsz
      exact ⟨Seat.player1, g1, st1.lines, st1.columns, p1, p2, p1, hm, hdrop, h1, h2, e1, e2,
        rfl, fun _ => rfl, fun h => absurd h hsz⟩
  · have hmv : (if p1.player = name then Seat.player1 else Seat.player2) = Seat.player2 := by
      simp [hn]
    rw [hmv] at hm
    by_cases hsz : size > 1
    · obtain ⟨s, m, hs, hseat, hmem⟩ := valid_size_true_mem hvs (by omega)
      rw [hm] at hs
      injection hs with hs
      subst hs
      have hmp : p2 = m := by
        simp only [seat, h2, Option.some.injEq] at hseat
        exact hseat
      subst hmp
      obtain ⟨e1, e2⟩ := hsecond hsz hmv
      obtain ⟨c1, c2⟩ := remove_special_sequence_loop_count size _ hmem
      exact ⟨Seat.player2, g1, st1.lines, st1.columns, p2, p1,
        { p2 with
          special_sequences := remove_special_sequence_loop size p2.special_sequences },
        hm, hdrop, h2, h1, e2, e1, rfl, fun h => absurd hsz (by omega), fun _ => ⟨c1, c2⟩⟩
    · obtain ⟨e1, e2⟩ := hsame hsz
      exact ⟨Seat.player2, g1, st1.lines, st1.columns, p2, p1, p2, hm, hdrop, h2, h1, e2, e1,
        rfl, fun _ => rfl, fun h => absurd h hsz⟩

/-! ### Ledger lookups and updates -/

theorem get_player_idx_loop_spec (name : String) :
    ∀ (ps : List tPlayer) (i : Int), 0 ≤ i →
      (ps.find? (fun p => decide (p.name = name)) = none ∧
        get_player_idx_loop name ps i = -1) ∨
      (∃ k : Nat, get_player_idx_loop name ps i = i + k ∧
        ps[k]? = ps.find? (fun p => decide (p.name = name)) ∧
        (ps.find? (fun p => decide (p.name = name))).isSome = true) := by
  intro ps
  induction ps with
  | nil =>
    intro i _
    left
    exact ⟨rfl, rfl⟩
  | cons p ps ih =>
    intro i hi
    unfold get_player_idx_loop
    by_cases hp : p.name = name
    · right
      refine ⟨0, by simp [hp], ?_, ?_⟩ <;> simp [List.find?_cons, hp]
    · rw [if_neg hp]
      have hfind : (p :: ps).find? (fun p => decide (p.name = name)) =
          ps.find? (fun p => decide (p.name = name)) := by
        simp [List.find?_cons, hp]
      rw [hfind]
      rcases ih (i + 1) (by omega) with ⟨h1, h2⟩ | ⟨k, h1, h2, h3⟩
      · left; exact ⟨h1, h2⟩
      · right
        refine ⟨k + 1, by rw [h1]; push_cast; ring, ?_, h3⟩
        simpa using h2

/-- Looking a name up in the ledger returns the first record with that name. -/
theorem get_player_eq_find (g : tGame) (name : String) :
    get_player g name = g.players.find? (fun p => decide (p.name = name)) := by
  unfold get_player get_player_idx
  rcases get_player_idx_loop_spec name g.players 0 (le_refl 0) with ⟨h1, h2⟩ | ⟨k, h1, h2, _⟩
  · simp [h1, h2]
  · have hk : (0 : Int) + (k : Int) ≠ -1 := by omega
    simp only [h1]
    rw [if_pos hk]
    simpa using h2

theorem get_player_name {g : tGame} {name : String} {p : tPlayer}
    (h : get_player g name = some p) : p.name = name := by
  rw [get_player_eq_find] at h
  simpa using List.find?_some h

theorem player_update_find {f : tPlayer → tPlayer} (hf : ∀ p, (f p).name = p.name)
    (n0 : String) :
    ∀ (ps ps1 : List tPlayer), player_update f n0 ps = some ps1 →
      ps1.map tPlayer.name = ps.map tPlayer.name ∧
      ∀ n, ps1.find? (fun p => decide (p.name = n)) =
        if n = n0 then (ps.find? (fun p => decide (p.name = n))).map f
        else ps.find? (fun p => decide (p.name = n)) := by
  intro ps
  induction ps with
  | nil =>
    intro ps1 h
    simp [player_update] at h
  | cons p ps ih =>
    intro ps1 h
    unfold player_update at h
    by_cases hp : p.name = n0
    · rw [if_pos hp] at h
      injection h with h
      subst h
      refine ⟨by simp [hf], ?_⟩
      intro n
      by_cases hn : n = n0
      · subst hn
        simp [List.find?_cons, hf, hp]
      · have hpn : ¬ p.name = n := fun e => hn (e.symm.trans hp)
        simp [List.find?_cons, hf, hpn, hn]
    · rw [if_neg hp] at h
      split at h
      · cases h
      · rename_i ps2 hrec
        injection h with h
        subst h
        obtain ⟨hnames, hfind⟩ := ih ps2 hrec
        refine ⟨by simp [hnames], ?_⟩
        intro n
        by_cases hpn : p.name = n
        · have hn : ¬ n = n0 := fun e => hp (hpn.trans e)
          simp [List.find?_cons, hpn, hn]
        · simp only [List.find?_cons, hpn, decide_False]
          exact hfind n

theorem player_update_some (f : tPlayer → tPlayer) (n0 : String) :
    ∀ (ps : List tPlayer), (ps.find? (fun p => decide (p.name = n0))).isSome = true →
      ∃ ps1, player_update f n0 ps = some ps1 := by
  intro ps
  induction ps with
  | nil => intro h; simp at h
  | cons p ps ih =>
    intro h
    unfold player_update
    by_cases hp : p.name = n0
    · exact ⟨_, by rw [if_pos hp]⟩
    · rw [if_neg hp]
      simp only [List.find?_cons, hp, decide_False] at h
      obtain ⟨ps1, h1⟩ := ih h
      exact ⟨p :: ps1, by rw [h1]⟩

theorem player_update_lookup {f : tPlayer → tPlayer} (hf : ∀ p, (f p).name = p.name)
    (n0 : String) (ps : List tPlayer)
    (hreg : (ps.find? (fun p => decide (p.name = n0))).isSome = true) :
    ∃ ps1, player_update f n0 ps = some ps1 ∧
      ps1.map tPlayer.name = ps.map tPlayer.name ∧
      (∀ n, ps1.find? (fun p => decide (p.name = n)) =
        (ps.find? (fun p => decide (p.name = n))).map (if n = n0 then f else id)) ∧
      ∀ n, (ps1.find? (fun p => decide (p.name = n))).isSome =
        (ps.find? (fun p => decide (p.name = n))).isSome := by
  obtain ⟨ps1, h1⟩ := player_update_some f n0 ps hreg
  obtain ⟨hnames, hfind⟩ := player_update_find hf n0 ps ps1 h1
  have hfind1 : ∀ n, ps1.find? (fun p => decide (p.name = n)) =
      (ps.find? (fun p => decide (p.name = n))).map (if n = n0 then f else id) := by
    intro n
    rw [hfind n]
    by_cases hn : n = n0
    · simp [hn]
    · simp [hn]
  refine ⟨ps1, h1, hnames, hfind1, ?_⟩
  intro n
  rw [hfind1 n]
  simp

theorem incr_wins_name (p : tPlayer) : (incr_wins p).name = p.name := rfl

theorem incr_games_played_name (p : tPlayer) : (incr_games_played p).name = p.name := rfl

/-- The ledger after `game_over`, when both seats point to registered players:
the record found under a name is the old one with a win added if the name is
that of the seat facing `first_name` and no second name was given, then a game
added if it is the name of seat 1, then a game added if it is the name of
seat 2. -/
theorem game_over_ledger {g : tGame} {p1 p2 : tInGamePlayer} (first_name : String)
    (second_name : Option String) (h1 : g.player1 = some p1) (h2 : g.player2 = some p2)
    (hr1 : has_player g p1.player = true) (hr2 : has_player g p2.player = true) :
    ∃ g1, game_over g first_name second_name = some g1 ∧
      g1.players.map tPlayer.name = g.players.map tPlayer.name ∧
      ∀ n, get_player g1 n =
        (((get_player g n).map
          (if n = (if p1.player = first_name then p2.player else p1.player) ∧
              second_name = none then incr_wins else id)).map
          (if n = p1.player then incr_games_played else id)).map
          (if n = p2.player then incr_games_played else id) := by
  have hf1 : (g.players.find? (fun p => decide (p.name = p1.player))).isSome = true := by
    rw [← get_player_eq_find]; exact hr1
  have hf2 : (g.players.find? (fun p => decide (p.name = p2.player))).isSome = true := by
    rw [← get_player_eq_find]; exact hr2
  have hfo : (g.players.find? (fun p => decide
      (p.name = (if p1.player = first_name then p2.player else p1.player)))).isSome = true := by
    split
    · exact hf2
    · exact hf1
  have hother : (match get_other_in_game_player g first_name with
      | none => none
      | some o =>
        match seat g o with
        | none => none
        | some other => player_update incr_wins other.player g.players) =
      player_update incr_wins (if p1.player = first_name then p2.player else p1.player)
        g.players := by
    by_cases hn : p1.player = first_name
    · simp [get_other_in_game_player, h1, hn, seat, h2]
    · simp [get_other_in_game_player, h1, hn, seat]
  have hmover : get_in_game_player g first_name =
      some (if p1.player = first_name then Seat.player1 else Seat.player2) :=
    get_in_game_player_active h1 first_name
  cases second_name with
  | none =>
    obtain ⟨ps0, e0, n0, f0, s0⟩ := player_update_lookup incr_wins_name _ g.players hfo
    obtain ⟨ps1, e1, n1, f1, s1⟩ := player_update_lookup incr_games_played_name p1.player ps0
      (by rw [s0]; exact hf1)
    obtain ⟨ps2, e2, n2, f2, _⟩ := player_update_lookup incr_games_played_name p2.player ps1
      (by rw [s1, s0]; exact hf2)
    refine ⟨{ g with
        players := ps2
        board := none
        special_sequences := []
        player1 := none
        player2 := none }, ?_, ?_, ?_⟩
    · unfold game_over
      simp only [hmover, h1, h2, if_true, hother, e0, e1, e2]
    · simp only [n2, n1, n0]
    · intro n
      simp only [get_player_eq_find, f2, f1, f0, and_true]
  | some s2 =>
    obtain ⟨ps1, e1, n1, f1, s1⟩ := player_update_lookup incr_games_played_name p1.player
      g.players hf1
    obtain ⟨ps2, e2, n2, f2, _⟩ := player_update_lookup incr_games_played_name p2.player ps1
      (by rw [s1]; exact hf2)
    refine ⟨{ g with
        players := ps2
        board := none
        special_sequences := []
        player1 := none
        player2 := none }, ?_, ?_, ?_⟩
    · unfold game_over
      simp only [hmover, h1, h2]
      simp [e1, e2]
    · simp only [n2, n1]
    · intro n
      simp only [get_player_eq_find, f2, f1]
      simp

/-! ### Resignation (command `D`) -/

theorem player_in_game_seated {g : tGame} {p1 p2 : tInGamePlayer} {n : String}
    (h1 : g.player1 = some p1) (h2 : g.player2 = some p2)
    (hreg : has_player g n = true) (hseat : n = p1.player ∨ n = p2.player) :
    player_in_game g n = some true := by
  unfold has_player at hreg
  cases hp : get_player g n with
  | none => simp [hp] at hreg
  | some p =>
    have hname := get_player_name hp
    unfold player_in_game
    simp only [h1, h2, hp, hname]
    rcases hseat with e | e
    · simp [e]
    · simp [e]

theorem cmd_D_accepts {g g1 : tGame} {n1 : String} {n2 : Option String}
    (hin : in_game g = true) (hs1 : player_in_game g n1 = some true)
    (hs2 : ∀ m, n2 = some m → player_in_game g m = some true)
    (hover : game_over g n1 n2 = some g1) :
    cmd_D g n1 n2 = some (g1, Output.Resigned) := by
  unfold cmd_D
  simp only [hin, Bool.not_true, Bool.false_eq_true, if_false, hs1]
  cases n2 with
  | none => simp [hover]
  | some m => simp [hs2 m rfl, hover]

/-- C13: in a match between two distinct registered players, a resignation that
names only the resigning seated player is accepted; the record of the other
seated player gains one win and one game, the record of the resigning player
gains one game and no win, and the ledger holds the same names in the same
order with every other name bound to the same record as before. -/
theorem resign_credits_other (g : tGame) (p1 p2 : tInGamePlayer) (n1 : String)
    (h1 : g.player1 = some p1) (h2 : g.player2 = some p2) (hin : in_game g = true)
    (hne : p1.player ≠ p2.player)
    (hr1 : has_player g p1.player = true) (hr2 : has_player g p2.player = true)
    (hseated : n1 = p1.player ∨ n1 = p2.player) :
    ∃ g1 r o, cmd_D g n1 none = some (g1, Output.Resigned) ∧
      get_player g n1 = some r ∧
      get_player g (if n1 = p1.player then p2.player else p1.player) = some o ∧
      get_player g1 n1 = some { r with games_played := r.games_played + 1 } ∧
      get_player g1 (if n1 = p1.player then p2.player else p1.player) =
        some { o with wins := o.wins + 1, games_played := o.games_played + 1 } ∧
      (∀ n, n ≠ p1.player → n ≠ p2.player → get_player g1 n = get_player g n) ∧
      g1.players.map tPlayer.name = g.players.map tPlayer.name := by
  obtain ⟨g1, hover, hnames, hget⟩ := game_over_ledger n1 none h1 h2 hr1 hr2
  have hreg : has_player g n1 = true := by
    rcases hseated with e | e <;> rw [e] <;> assumption
  have hcmd := cmd_D_accepts hin (player_in_game_seated h1 h2 hreg hseated)
    (fun m hm => by cases hm) hover
  have hne2 : p2.player ≠ p1.player := fun e => hne e.symm
  rcases hseated with e | e
  · subst e
    obtain ⟨r, hr⟩ := Option.isSome_iff_exists.1 hr1
    obtain ⟨o, ho⟩ := Option.isSome_iff_exists.1 hr2
    refine ⟨g1, r, o, hcmd, hr, by simpa using ho, ?_, ?_, ?_, hnames⟩
    · rw [hget, hr]
      simp [hne, incr_games_played]
    · rw [hget]
      simp [hne2, ho, incr_games_played, incr_wins]
    · intro n hn1 hn2
      rw [hget]
      simp [hn1, hn2]
  · subst e
    obtain ⟨r, hr⟩ := Option.isSome_iff_exists.1 hr2
    obtain ⟨o, ho⟩ := Option.isSome_iff_exists.1 hr1
    refine ⟨g1, r, o, hcmd, hr, by simpa [hne2] using ho, ?_, ?_, ?_, hnames⟩
    · rw [hget, hr]
      simp [hne, hne2, incr_games_played]
    · rw [hget]
      simp [hne, hne2, ho, incr_games_played, incr_wins]
    · intro n hn1 hn2
      rw [hget]
      simp [hn1, hn2, hne]

/-- C14 (as stated, refuted): "a" may be seated on both seats; the resignation
naming both seated players then adds two games, not one, to the record of
"a". -/
theorem self_match_draw_counterexample :
    (run new_game (self_match_commands.take 2)).map (fun r => (r.1.players, r.2)) =
      some ([{ name := "a", games_played := 0, wins := 0 }],
        [Output.Created, Output.Started]) ∧
    (run new_game self_match_commands).map (fun r => (r.1.players, r.2)) =
      some ([{ name := "a", games_played := 2, wins := 0 }],
        [Output.Created, Output.Started, Output.Resigned]) := by
  refine ⟨by rfl, by rfl⟩

/-- C14 (amended): in a match between two distinct registered players, a
resignation that names both seated players is accepted; both records gain one
game and no win, and the ledger holds the same names in the same order with
every other name bound to the same record as before. -/
theorem draw_adds_one_game_each (g : tGame) (p1 p2 : tInGamePlayer) (n1 n2 : String)
    (h1 : g.player1 = some p1) (h2 : g.player2 = some p2) (hin : in_game g = true)
    (hne : p1.player ≠ p2.player)
    (hr1 : has_player g p1.player = true) (hr2 : has_player g p2.player = true)
    (hboth : (n1 = p1.player ∧ n2 = p2.player) ∨ (n1 = p2.player ∧ n2 = p1.player)) :
    ∃ g1 a b, cmd_D g n1 (some n2) = some (g1, Output.Resigned) ∧
      get_player g p1.player = some a ∧ get_player g p2.player = some b ∧
      get_player g1 p1.player = some { a with games_played := a.games_played + 1 } ∧
      get_player g1 p2.player = some { b with games_played := b.games_played + 1 } ∧
      (∀ n, n ≠ p1.player → n ≠ p2.player → get_player g1 n = get_player g n) ∧
      g1.players.map tPlayer.name = g.players.map tPlayer.name := by
  obtain ⟨g1, hover, hnames, hget⟩ := game_over_ledger n1 (some n2) h1 h2 hr1 hr2
  have hs1 : player_in_game g n1 = some true := by
    rcases hboth with ⟨e, _⟩ | ⟨e, _⟩
    · exact player_in_game_seated h1 h2 (by rw [e]; exact hr1) (Or.inl e)
    · exact player_in_game_seated h1 h2 (by rw [e]; exact hr2) (Or.inr e)
  have hs2 : player_in_game g n2 = some true := by
    rcases hboth with ⟨_, e⟩ | ⟨_, e⟩
    · exact player_in_game_seated h1 h2 (by rw [e]; exact hr2) (Or.inr e)
    · exact player_in_game_seated h1 h2 (by rw [e]; exact hr1) (Or.inl e)
  have hcmd := cmd_D_accepts hin hs1
    (fun m hm => by injection hm with hm; subst hm; exact hs2) hover
  have hne2 : p2.player ≠ p1.player := fun e => hne e.symm
  obtain ⟨a, ha⟩ := Option.isSome_iff_exists.1 hr1
  obtain ⟨b, hb⟩ := Option.isSome_iff_exists.1 hr2
  refine ⟨g1, a, b, hcmd, ha, hb, ?_, ?_, ?_, hnames⟩
  · rw [hget, ha]
    simp [hne, incr_games_played]
  · rw [hget, hb]
    simp [hne2, incr_games_played]
  · intro n hn1 hn2
    rw [hget]
    simp [hn1, hn2]

/-! ### Use of the special sizes over a match -/

/-- The seats after a `drop` that returned: untouched for a single piece; for a
wider piece the seat of the mover has lost the first entry equal to `size`. -/
theorem drop_seats_of_eq {g g1 : tGame} {name : String} {size column : Int}
    {direction : Option String} {lines columns ls cs : List Int} {p1 p2 : tInGamePlayer}
    (h : drop g name size column direction lines columns = some (g1, ls, cs))
    (h1 : g.player1 = some p1) (h2 : g.player2 = some p2) :
    g1.board.isSome = true ∧
    (¬ size > 1 → g1.player1 = some p1 ∧ g1.player2 = some p2) ∧
    (size > 1 → p1.player = name →
      g1.player1 = some { p1 with
        special_sequences := remove_special_sequence_loop size p1.special_sequences } ∧
      g1.player2 = some p2) ∧
    (size > 1 → p1.player ≠ name →
      g1.player1 = some p1 ∧
      g1.player2 = some { p2 with
        special_sequences := remove_special_sequence_loop size p2.special_sequences }) := by
  unfold drop at h
  rw [get_in_game_player_active h1 name] at h
  cases hb : g.board with
  | none => simp [hb] at h
  | some b =>
    simp only [hb] at h
    split at h
    · cases h
    · rename_i st hloop
      by_cases hsz : size > 1
      · rw [if_pos hsz] at h
        by_cases hn : p1.player = name
        · have hmv : (if p1.player = name then Seat.player1 else Seat.player2) =
              Seat.player1 := by simp [hn]
          rw [hmv] at h
          simp only [remove_special_sequence, seat, h1, Option.some.injEq, Prod.mk.injEq] at h
          obtain ⟨hg, _, _⟩ := h
          subst hg
          exact ⟨rfl, fun hc => absurd hsz hc, fun _ _ => ⟨rfl, h2⟩, fun _ hc => absurd hn hc⟩
        · have hmv : (if p1.player = name then Seat.player1 else Seat.player2) =
              Seat.player2 := by simp [hn]
          rw [hmv] at h
          simp only [remove_special_sequence, seat, h2, Option.some.injEq, Prod.mk.injEq] at h
          obtain ⟨hg, _, _⟩ := h
          subst hg
          exact ⟨rfl, fun hc => absurd hsz hc, fun _ hc => absurd hc hn, fun _ _ => ⟨h1, rfl⟩⟩
      · rw [if_neg hsz] at h
        simp only [Option.some.injEq, Prod.mk.injEq] at h
        obtain ⟨hg, _, _⟩ := h
        subst hg
        exact ⟨rfl, fun _ => ⟨h1, h2⟩, fun hc => absurd hc hsz, fun hc => absurd hc hsz⟩

theorem has_player_congr {g g1 : tGame} (h : g1.players = g.players) (n : String) :
    has_player g1 n = has_player g n := by
  unfold has_player get_player get_player_idx
  rw [h]

/-- C20: `wide_game` is reached by `wide_commands`; "a" has used its piece of
size 2 and "b" still holds one.  `save_game` writes the two seat lines as
"a " and "b 2 " followed by a newline; `load_game` reads seat "a" with
inventory `[0]` and seat "b" with inventory `[2, 0]`: each seat comes back with
one entry 0 more than was saved. -/
theorem load_appends_zero_to_inventories :
    run new_game (wide_commands zeros) =
      some (wide_game,
        [Output.Created, Output.Created, Output.Started, Output.Placed, Output.Placed,
          Output.Placed]) ∧
    wide_game.player1 = some { player := "a", special_sequences := [] } ∧
    wide_game.player2 = some { player := "b", special_sequences := [2] } ∧
    (save_game wide_game).map String.mk =
      some "2\na 0 0\nb 0 0\n3 5 3\n1 2 \na \nb 2 \n0 0 1 0 0 \n0 0 1 0 0 \n0 0 1 1 0 \n" ∧
    (save_game wide_game).bind load_game =
      some { wide_game with
        player1 := some { player := "a", special_sequences := [0] }
        player2 := some { player := "b", special_sequences := [2, 0] } } := by
  refine ⟨by rfl, by rfl, by rfl, by rfl, by rfl⟩

/-! ### Further instances of the general theorems -/

/-- Instance of `drop_inventory` (C11): "a" drops the piece of size 2 on the
fresh 5 x 3 board. -/
theorem drop_inventory_witness :
    ActiveMatch game_5x3 ∧ valid_size game_5x3 "a" 2 = some true ∧
    valid_position game_5x3 2 3 (some "D") = some true ∧
    ∃ mover g1 ls cs m o m1, get_in_game_player game_5x3 "a" = some mover ∧
      drop game_5x3 "a" 2 3 (some "D") [0, 0] [0, 0] = some (g1, ls, cs) ∧
      seat game_5x3 mover = some m ∧ seat game_5x3 (other_seat mover) = some o ∧
      seat g1 mover = some m1 ∧ seat g1 (other_seat mover) = some o ∧
      m1.player = m.player ∧
      ((2 : Int) = 1 → m1.special_sequences = m.special_sequences) ∧
      ((2 : Int) > 1 →
        m1.special_sequences.count 2 + 1 = m.special_sequences.count 2 ∧
        ∀ v, v ≠ 2 → m1.special_sequences.count v = m.special_sequences.count v) :=
  ⟨game_5x3_active, by rfl, by rfl,
    drop_inventory game_5x3 "a" 2 3 (some "D") [0, 0] [0, 0] game_5x3_active (by rfl) (by rfl)
      rfl rfl⟩

/-- Instance of `resign_credits_other` (C13): "a" resigns the 7 x 4 match. -/
theorem resign_credits_other_witness :
    in_game game_7x4 = true ∧ ("a" : String) ≠ "b" ∧
    has_player game_7x4 "a" = true ∧ has_player game_7x4 "b" = true ∧
    ∃ g1 r o, cmd_D game_7x4 "a" none = some (g1, Output.Resigned) ∧
      get_player game_7x4 "a" = some r ∧
      get_player game_7x4 (if "a" = "a" then "b" else "a") = some o ∧
      get_player g1 "a" = some { r with games_played := r.games_played + 1 } ∧
      get_player g1 (if "a" = "a" then "b" else "a") =
        some { o with wins := o.wins + 1, games_played := o.games_played + 1 } ∧
      (∀ n, n ≠ "a" → n ≠ "b" → get_player g1 n = get_player game_7x4 n) ∧
      g1.players.map tPlayer.name = game_7x4.players.map tPlayer.name :=
  ⟨by rfl, by decide, by rfl, by rfl,
    resign_credits_other game_7x4 { player := "a", special_sequences := [] }
      { player := "b", special_sequences := [] } "a" rfl rfl (by rfl) (by decide) (by rfl)
      (by rfl) (Or.inl rfl)⟩

/-- Instance of `draw_adds_one_game_each` (C14): "a" and "b" end the 7 x 4 match
by naming both. -/
theorem draw_adds_one_game_each_witness :
    in_game game_7x4 = true ∧ ("a" : String) ≠ "b" ∧
    has_player game_7x4 "a" = true ∧ has_player game_7x4 "b" = true ∧
    ∃ g1 a b, cmd_D game_7x4 "a" (some "b") = some (g1, Output.Resigned) ∧
      get_player game_7x4 "a" = some a ∧ get_player game_7x4 "b" = some b ∧
      get_player g1 "a" = some { a with games_played := a.games_played + 1 } ∧
      get_player g1 "b" = some { b with games_played := b.games_played + 1 } ∧
      (∀ n, n ≠ "a" → n ≠ "b" → get_player g1 n = get_player game_7x4 n) ∧
      g1.players.map tPlayer.name = game_7x4.players.map tPlayer.name :=
  ⟨by rfl, by decide, by rfl, by rfl,
    draw_adds_one_game_each game_7x4 { player := "a", special_sequences := [] }
      { player := "b", special_sequences := [] } "a" "b" rfl rfl (by rfl) (by decide) (by rfl)
      (by rfl) (Or.inl ⟨rfl, rfl⟩)⟩

/-- Instance of `match_lifecycle` (C15): the 7 x 4 match ended by a resignation
of "a" and by the fourth piece of "a" in column 4; a new start is then
accepted, and is refused while the match is in progress. -/
theorem match_lifecycle_witness :
    cmd_D game_7x4 "a" none = some (game_7x4_ended, Output.Resigned) ∧
    cmd_CP game_7x4_three "a" 1 4 none zeros zeros = some (game_7x4_ended, Output.Won) ∧
    (in_game game_7x4 = true ∧ NoActiveMatch game_7x4_ended) ∧
    (in_game game_7x4_three = true ∧ NoActiveMatch game_7x4_ended) ∧
    cmd_IJ game_7x4_ended "a" "b" 5 3 3 [2] =
      (start_game game_7x4_ended "a" "b" 5 3 3 [2], Output.Started) ∧
    cmd_IJ game_7x4 "a" "b" 5 3 3 [2] = (game_7x4, Output.AlreadyActive) :=
  ⟨by rfl, by rfl,
    (match_lifecycle game_7x4 game_7x4_ended).1 "a" none (by rfl),
    (match_lifecycle game_7x4_three game_7x4_ended).2.1 "a" 1 4 none zeros zeros (by rfl),
    (match_lifecycle game_7x4 game_7x4_ended).2.2.1 ⟨rfl, rfl, rfl, rfl⟩ "a" "b" 5 3 3 [2]
      (by rfl) (by rfl) (by rfl) (by rfl) (by rfl),
    (match_lifecycle game_7x4 game_7x4_ended).2.2.2 (by rfl) "a" "b" 5 3 3 [2]⟩

theorem game_5x3_reachable : Reachable game_5x3 :=
  Reachable.step two_players game_5x3 (Command.IJ "a" "b" 5 3 3 [2]) Output.Started
    (Reachable.step (add_player new_game "a") two_players (Command.RJ "b") Output.Created
      (Reachable.step new_game (add_player new_game "a") (Command.RJ "a") Output.Created
        Reachable.init (by rfl))
      (by rfl))
    (by rfl)

/-- Instance of `accepted_parameters_invariant` (C18): the 5 x 3 match. -/
theorem accepted_parameters_invariant_witness :
    Reachable game_5x3 ∧ in_game game_5x3 = true ∧
    game_5x3.sequence_size < game_5x3.width ∧
    game_5x3.height ≥ Int.tdiv game_5x3.width 2 :=
  ⟨game_5x3_reachable, by rfl,
    accepted_parameters_invariant game_5x3 game_5x3_reachable (by rfl)⟩

/-- Instance of `error_leaves_state_unchanged` (C19): a single piece aimed at
column 9 of the 5 x 3 board is refused as `InvalidPosition`. -/
theorem error_leaves_state_unchanged_witness :
    ErrorResult Output.InvalidPosition ∧
    cmd_CP game_5x3 "a" 1 9 none zeros zeros = some (game_5x3, Output.InvalidPosition) ∧
    game_5x3 = game_5x3 :=
  ⟨by simp [ErrorResult], by rfl,
    (error_leaves_state_unchanged game_5x3 game_5x3 Output.InvalidPosition
      (by simp [ErrorResult])).2.2 "a" 1 9 none zeros zeros (by rfl)⟩

/-! ### Counting pieces (`count_pieces`) -/

theorem count_pieces_loop_stop {g : tGame} {b : Board} {player : Seat}
    {line column l_shift c_shift : Int} (hshape : BoardShape b g.height g.width)
    (fuel : Nat) {l c : Int} (count : Int) (hnot : ¬ Owned b player l c) :
    count_pieces_loop g b player line column l_shift c_shift (fuel + 1) l c count =
      some count := by
  unfold count_pieces_loop
  by_cases hin : l ≥ 0 ∧ l < g.height ∧ c ≥ 0 ∧ c < g.width
  · rw [if_pos hin]
    obtain ⟨cell, hcell⟩ := board_get_in_bounds hshape hin.1 hin.2.1 hin.2.2.1 hin.2.2.2
    simp only [hcell]
    rw [if_neg]
    intro hc
    apply hnot
    unfold Owned
    rw [hcell, hc]
  · rw [if_neg hin]

theorem count_pieces_loop_step {g : tGame} {b : Board} {player : Seat}
    {line column l_shift c_shift : Int} (hshape : BoardShape b g.height g.width)
    (fuel : Nat) {l c : Int} (count : Int) (hown : Owned b player l c) :
    count_pieces_loop g b player line column l_shift c_shift (fuel + 1) l c count =
      count_pieces_loop g b player line column l_shift c_shift fuel (l + l_shift)
        (c + c_shift) (if ¬(l = line ∧ c = column) then count + 1 else count) := by
  have hb := board_get_bounds hshape hown
  have hin : l ≥ 0 ∧ l < g.height ∧ c ≥ 0 ∧ c < g.width := ⟨hb.1, hb.2.1, hb.2.2.1, hb.2.2.2⟩
  unfold Owned at hown
  conv_lhs => unfold count_pieces_loop
  rw [if_pos hin]
  simp only [hown, if_true]

theorem shift_leaves_origin {l_shift c_shift : Int} (hshift : ¬(l_shift = 0 ∧ c_shift = 0))
    (line column : Int) {k : Nat} (hk : 1 ≤ k) :
    ¬(line + k * l_shift = line ∧ column + k * c_shift = column) := by
  rintro ⟨h1, h2⟩
  apply hshift
  have hk0 : (k : Int) ≠ 0 := by omega
  constructor
  · have : (k : Int) * l_shift = 0 := by omega
    rcases mul_eq_zero.1 this with h | h
    · exact absurd h hk0
    · exact h
  · have : (k : Int) * c_shift = 0 := by omega
    rcases mul_eq_zero.1 this with h | h
    · exact absurd h hk0
    · exact h

/-- The loop of `count_pieces` started on the cell number `k >= 1` of the walk,
when the cells `k .. m - 1` are the player's and the cell `m` is not: it adds
`m - k` to the count, given more than `m - k` iterations. -/
theorem count_pieces_loop_run {g : tGame} {b : Board} {player : Seat}
    {line column l_shift c_shift : Int} (hshape : BoardShape b g.height g.width)
    (hshift : ¬(l_shift = 0 ∧ c_shift = 0)) (m : Nat)
    (hstop : ¬ Owned b player (line + m * l_shift) (column + m * c_shift)) :
    ∀ (d k fuel : Nat) (count : Int), 1 ≤ k → k + d = m → d < fuel →
      (∀ i : Nat, k ≤ i → i < m → Owned b player (line + i * l_shift) (column + i * c_shift)) →
      count_pieces_loop g b player line column l_shift c_shift fuel
        (line + k * l_shift) (column + k * c_shift) count = some (count + d) := by
  intro d
  induction d with
  | zero =>
    intro k fuel count _ hkm hfuel _
    obtain ⟨f, rfl⟩ : ∃ f, fuel = f + 1 := ⟨fuel - 1, by omega⟩
    have hk : k = m := by omega
    subst hk
    rw [count_pieces_loop_stop hshape f count hstop]
    simp
  | succ d ih =>
    intro k fuel count hk hkm hfuel hown
    obtain ⟨f, rfl⟩ : ∃ f, fuel = f + 1 := ⟨fuel - 1, by omega⟩
    rw [count_pieces_loop_step hshape f count (hown k (le_refl k) (by omega))]
    rw [if_pos (shift_leaves_origin hshift line column hk)]
    have hl : line + (k : Int) * l_shift + l_shift = line + ((k + 1 : Nat) : Int) * l_shift := by
      push_cast; ring
    have hc : column + (k : Int) * c_shift + c_shift =
        column + ((k + 1 : Nat) : Int) * c_shift := by
      push_cast; ring
    rw [hl, hc, ih (k + 1) f (count + 1) (by omega) (by omega) (by omega)
      (fun i h1 h2 => hown i (by omega) h2)]
    push_cast
    congr 1
    ring

/-- A walk along a shift other than `(0, 0)` leaves the board: the first cell that
is not the player's comes within `height + width` steps. -/
theorem owned_run_ends {g : tGame} {b : Board} {player : Seat}
    {line column l_shift c_shift : Int} (hshape : BoardShape b g.height g.width)
    (hshift : ¬(l_shift = 0 ∧ c_shift = 0)) (horigin : Owned b player line column) :
    ∃ m : Nat, 1 ≤ m ∧ m ≤ g.height.toNat + g.width.toNat ∧
      (∀ i : Nat, i < m → Owned b player (line + i * l_shift) (column + i * c_shift)) ∧
      ¬ Owned b player (line + m * l_shift) (column + m * c_shift) := by
  classical
  have hob := board_get_bounds hshape horigin
  have hex : ∃ i : Nat, ¬ Owned b player (line + i * l_shift) (column + i * c_shift) := by
    refine ⟨g.height.toNat + g.width.toNat, ?_⟩
    intro hown
    have hb := board_get_bounds hshape hown
    have hcast : ((g.height.toNat + g.width.toNat : Nat) : Int) = g.height + g.width := by
      push_cast
      rw [Int.toNat_of_nonneg (by omega), Int.toNat_of_nonneg (by omega)]
    rw [hcast] at hb
    have hpos : 0 ≤ g.height + g.width := by omega
    by_cases hl : l_shift = 0
    · have hc : c_shift ≠ 0 := fun e => hshift ⟨hl, e⟩
      rcases lt_or_gt_of_ne hc with h | h
      · have : (g.height + g.width) * c_shift ≤ (g.height + g.width) * (-1) :=
          mul_le_mul_of_nonneg_left (by omega) hpos
        omega
      · have : (g.height + g.width) * 1 ≤ (g.height + g.width) * c_shift :=
          mul_le_mul_of_nonneg_left (by omega) hpos
        omega
    · rcases lt_or_gt_of_ne hl with h | h
      · have : (g.height + g.width) * l_shift ≤ (g.height + g.width) * (-1) :=
          mul_le_mul_of_nonneg_left (by omega) hpos
        omega
      · have : (g.height + g.width) * 1 ≤ (g.height + g.width) * l_shift :=
          mul_le_mul_of_nonneg_left (by omega) hpos
        omega
  have hfind := Nat.find_spec hex
  have hmin := fun i (hi : i < Nat.find hex) => Nat.find_min hex hi
  have hle : Nat.find hex ≤ g.height.toNat + g.width.toNat := by
    apply Nat.find_min'
    intro hown
    have hb := board_get_bounds hshape hown
    have hcast : ((g.height.toNat + g.width.toNat : Nat) : Int) = g.height + g.width := by
      push_cast
      rw [Int.toNat_of_nonneg (by omega), Int.toNat_of_nonneg (by omega)]
    rw [hcast] at hb
    have hpos : 0 ≤ g.height + g.width := by omega
    by_cases hl : l_shift = 0
    · have hc : c_shift ≠ 0 := fun e => hshift ⟨hl, e⟩
      rcases lt_or_gt_of_ne hc with h | h
      · have : (g.height + g.width) * c_shift ≤ (g.height + g.width) * (-1) :=
          mul_le_mul_of_nonneg_left (by omega) hpos
        omega
      · have : (g.height + g.width) * 1 ≤ (g.height + g.width) * c_shift :=
          mul_le_mul_of_nonneg_left (by omega) hpos
        omega
    · rcases lt_or_gt_of_ne hl with h | h
      · have : (g.height + g.width) * l_shift ≤ (g.height + g.width) * (-1) :=
          mul_le_mul_of_nonneg_left (by omega) hpos
        omega
      · have : (g.height + g.width) * 1 ≤ (g.height + g.width) * l_shift :=
          mul_le_mul_of_nonneg_left (by omega) hpos
        omega
  refine ⟨Nat.find hex, ?_, hle, ?_, hfind⟩
  · by_contra h0
    have hz : Nat.find hex = 0 := by omega
    rw [hz] at hfind
    apply hfind
    simpa using horigin
  · intro i hi
    have := hmin i hi
    simpa using this

/-- The value of `count_pieces` in both cases: 0 when the origin is not the
player's, and otherwise `m - 1` where the cells `0 .. m - 1` of the walk are
the player's and the cell `m` is not. -/
theorem count_pieces_value {g : tGame} {b : Board} (player : Seat)
    (line column l_shift c_shift : Int) (hb : g.board = some b)
    (hshape : BoardShape b g.height g.width) (hshift : ¬(l_shift = 0 ∧ c_shift = 0)) :
    (¬ Owned b player line column →
      count_pieces g player line column l_shift c_shift = some 0) ∧
    (Owned b player line column →
      ∃ n : Nat, count_pieces g player line column l_shift c_shift = some (n : Int) ∧
        (∀ i : Nat, i ≤ n → Owned b player (line + i * l_shift) (column + i * c_shift)) ∧
        ¬ Owned b player (line + ((n + 1 : Nat) : Int) * l_shift)
          (column + ((n + 1 : Nat) : Int) * c_shift)) := by
  refine ⟨?_, ?_⟩
  · intro hnot
    unfold count_pieces count_pieces_fuel
    simp only [hb]
    exact count_pieces_loop_stop hshape _ 0 hnot
  · intro hown
    obtain ⟨m, hm1, hmle, hall, hstop⟩ := owned_run_ends hshape hshift hown
    obtain ⟨n, rfl⟩ : ∃ n, m = n + 1 := ⟨m - 1, by omega⟩
    refine ⟨n, ?_, fun i hi => hall i (by omega), hstop⟩
    unfold count_pieces count_pieces_fuel
    simp only [hb]
    rw [count_pieces_loop_step hshape _ 0 hown]
    rw [if_neg (by simp)]
    have h1 : line + l_shift = line + ((1 : Nat) : Int) * l_shift := by simp
    have h2 : column + c_shift = column + ((1 : Nat) : Int) * c_shift := by simp
    rw [h1, h2, count_pieces_loop_run hshape hshift (n + 1) hstop n 1
      (g.height.toNat + g.width.toNat) 0 (le_refl 1) (by omega) (by omega)
      (fun i _ h => hall i h)]
    simp

/-- C27: on a board of the recorded dimensions, for every origin cell (inside
the board or not) and every shift other than `(0, 0)`, `count_pieces` returns:
0 when the origin cell is not the player's;
otherwise the number `n` such that the cells `1 .. n` of the walk are inside
the board and the player's and the cell `n + 1` is outside the board or not
the player's.  The origin is not counted. -/
theorem count_pieces_spec (g : tGame) (b : Board) (player : Seat)
    (line column l_shift c_shift : Int) (hb : g.board = some b)
    (hshape : BoardShape b g.height g.width)
    (hshift : ¬(l_shift = 0 ∧ c_shift = 0)) :
    (board_get b line column ≠ some (some player) →
      count_pieces g player line column l_shift c_shift = some 0) ∧
    (board_get b line column = some (some player) →
      ∃ n : Nat, count_pieces g player line column l_shift c_shift = some (n : Int) ∧
        (∀ i : Nat, 1 ≤ i → i ≤ n →
          board_get b (line + i * l_shift) (column + i * c_shift) = some (some player)) ∧
        board_get b (line + ((n + 1 : Nat) : Int) * l_shift)
          (column + ((n + 1 : Nat) : Int) * c_shift) ≠ some (some player)) := by
  obtain ⟨h1, h2⟩ := count_pieces_value player line column l_shift c_shift hb hshape hshift
  refine ⟨fun hnot => h1 hnot, ?_⟩
  intro hown
  obtain ⟨n, hn, hall, hstop⟩ := h2 hown
  exact ⟨n, hn, fun i _ hi => hall i hi, hstop⟩

/-! ### Win detection (`player_wins`) -/

/-- `player_wins` makes the axis tests of `axis_checks`, in that order. -/
theorem player_wins_eq_wins_over (g : tGame) (name : String) (line column : Int) :
    player_wins g name line column =
      (get_in_game_player g name).bind
        (fun player => wins_over g player line column axis_checks) := by
  unfold player_wins
  cases get_in_game_player g name with
  | none => rfl
  | some player =>
    simp only [Option.some_bind, player_wins_l_loop, player_wins_c_loop, wins_over,
      axis_checks]
    cases axis_wins g player line column 0 1 with
    | none => simp
    | some r1 =>
      cases r1 with
      | true => simp
      | false =>
        cases axis_wins g player line column 1 0 with
        | none => simp
        | some r2 =>
          cases r2 with
          | true => simp
          | false =>
            cases axis_wins g player line column 1 1 with
            | none => simp
            | some r3 => cases r3 <;> simp

/-- On a board of the recorded dimensions an axis test for a shift other than
`(0, 0)` returns, and succeeds exactly when the player owns the origin and the
two runs found around it, with the origin, reach the winning size. -/
theorem axis_wins_value {g : tGame} {b : Board} (player : Seat)
    (line column l_shift c_shift : Int) (hb : g.board = some b)
    (hshape : BoardShape b g.height g.width) (hshift : ¬(l_shift = 0 ∧ c_shift = 0)) :
    (¬ Owned b player line column →
      axis_wins g player line column l_shift c_shift =
        some (decide ((1 : Int) ≥ g.sequence_size))) ∧
    (Owned b player line column →
      ∃ n1 n2 : Nat, axis_wins g player line column l_shift c_shift =
          some (decide ((n1 : Int) + 1 + n2 ≥ g.sequence_size)) ∧
        ∀ i : Int, -(n2 : Int) ≤ i → i ≤ n1 →
          Owned b player (line + i * l_shift) (column + i * c_shift)) := by
  have hshift2 : ¬(-l_shift = 0 ∧ -c_shift = 0) := by
    intro h
    exact hshift ⟨by omega, by omega⟩
  obtain ⟨a1, a2⟩ := count_pieces_value player line column l_shift c_shift hb hshape hshift
  obtain ⟨b1, b2⟩ := count_pieces_value player line column (-l_shift) (-c_shift) hb hshape
    hshift2
  refine ⟨?_, ?_⟩
  · intro hnot
    unfold axis_wins
    rw [a1 hnot, b1 hnot]
    simp
  · intro hown
    obtain ⟨n1, e1, f1, _⟩ := a2 hown
    obtain ⟨n2, e2, f2, _⟩ := b2 hown
    refine ⟨n1, n2, ?_, ?_⟩
    · unfold axis_wins
      rw [e1, e2]
    · intro i hi1 hi2
      by_cases hpos : 0 ≤ i
      · have := f1 i.toNat (by omega)
        rw [Int.toNat_of_nonneg hpos] at this
        exact this
      · have := f2 (-i).toNat (by omega)
        rw [Int.toNat_of_nonneg (by omega)] at this
        have e3 : line + -i * -l_shift = line + i * l_shift := by ring
        have e4 : column + -i * -c_shift = column + i * c_shift := by ring
        rw [e3, e4] at this
        exact this

theorem wins_over_some_true {g : tGame} {player : Seat} {line column : Int} :
    ∀ (axes : List (Int × Int)), wins_over g player line column axes = some true →
      ∃ a ∈ axes, axis_wins g player line column a.1 a.2 = some true := by
  intro axes
  induction axes with
  | nil => intro h; simp [wins_over] at h
  | cons a rest ih =>
    intro h
    obtain ⟨l_shift, c_shift⟩ := a
    unfold wins_over at h
    cases hax : axis_wins g player line column l_shift c_shift with
    | none => simp [hax] at h
    | some r =>
      cases r with
      | true => exact ⟨(l_shift, c_shift), by simp, hax⟩
      | false =>
        simp only [hax] at h
        obtain ⟨a, ha, hw⟩ := ih h
        exact ⟨a, by simp [ha], hw⟩

/-- C28: in an active match with winning size >= 2, when `player_wins` returns
true the cell given is the player's and lies on a horizontal, vertical or
diagonal line of at least `sequence_size` adjacent cells that are all the
player's: the cells `-n2 .. n1` of the walk along one of the three shifts. -/
theorem player_wins_sound (g : tGame) (b : Board) (name : String) (line column : Int)
    (hb : g.board = some b) (hshape : BoardShape b g.height g.width)
    (hseq : 2 ≤ g.sequence_size) (hwin : player_wins g name line column = some true) :
    ∃ (player : Seat) (l_shift c_shift : Int) (n1 n2 : Nat),
      get_in_game_player g name = some player ∧
      ((l_shift = 0 ∧ c_shift = 1) ∨ (l_shift = 1 ∧ c_shift = 0) ∨
        (l_shift = 1 ∧ c_shift = 1)) ∧
      board_get b line column = some (some player) ∧
      (n1 : Int) + 1 + n2 ≥ g.sequence_size ∧
      ∀ i : Int, -(n2 : Int) ≤ i → i ≤ n1 →
        board_get b (line + i * l_shift) (column + i * c_shift) = some (some player) := by
  rw [player_wins_eq_wins_over] at hwin
  cases hp : get_in_game_player g name with
  | none => simp [hp] at hwin
  | some player =>
    simp only [hp, Option.some_bind] at hwin
    obtain ⟨a, ha, hax⟩ := wins_over_some_true _ hwin
    obtain ⟨l_shift, c_shift⟩ := a
    have haxis : (l_shift = 0 ∧ c_shift = 1) ∨ (l_shift = 1 ∧ c_shift = 0) ∨
        (l_shift = 1 ∧ c_shift = 1) := by
      simp only [axis_checks, List.mem_cons, Prod.mk.injEq, List.mem_singleton,
        List.mem_nil_iff, or_false] at ha
      exact ha
    have hshift : ¬(l_shift = 0 ∧ c_shift = 0) := by
      rcases haxis with h | h | h <;> omega
    obtain ⟨v1, v2⟩ := axis_wins_value player line column l_shift c_shift hb hshape hshift
    by_cases hown : Owned b player line column
    · obtain ⟨n1, n2, e, hcells⟩ := v2 hown
      simp only at hax
      rw [e] at hax
      have hge : (n1 : Int) + 1 + n2 ≥ g.sequence_size := by simpa using hax
      exact ⟨player, l_shift, c_shift, n1, n2, rfl, haxis, hown, hge, hcells⟩
    · simp only at hax
      rw [v1 hown] at hax
      have : (1 : Int) ≥ g.sequence_size := by simpa using hax
      omega

theorem wins_over_eq_any {g : tGame} {b : Board} (player : Seat) (line column : Int)
    (hb : g.board = some b) (hshape : BoardShape b g.height g.width) :
    ∀ (axes : List (Int × Int)), (∀ a ∈ axes, ¬(a.1 = 0 ∧ a.2 = 0)) →
      wins_over g player line column axes =
        some (axes.any (fun a => decide (axis_wins g player line column a.1 a.2 = some true)))
      := by
  intro axes
  induction axes with
  | nil => intro _; rfl
  | cons a rest ih =>
    intro hall
    obtain ⟨l_shift, c_shift⟩ := a
    have hshift : ¬(l_shift = 0 ∧ c_shift = 0) := hall (l_shift, c_shift) (by simp)
    have hrest := ih (fun a ha => hall a (by simp [ha]))
    obtain ⟨v1, v2⟩ := axis_wins_value player line column l_shift c_shift hb hshape hshift
    have hsome : ∃ r, axis_wins g player line column l_shift c_shift = some r := by
      by_cases hown : Owned b player line column
      · obtain ⟨n1, n2, e, _⟩ := v2 hown
        exact ⟨_, e⟩
      · exact ⟨_, v1 hown⟩
    obtain ⟨r, hr⟩ := hsome
    unfold wins_over
    simp only [hr, List.any_cons]
    cases r with
    | true => simp
    | false => simp [hrest]

/-- C25: in an active match, making the axis tests of `player_wins` in any other
order gives the result of `player_wins`. -/
theorem player_wins_order_independent (g : tGame) (b : Board) (name : String)
    (line column : Int) (axes : List (Int × Int)) (hb : g.board = some b)
    (hshape : BoardShape b g.height g.width) (hperm : axes.Perm axis_checks) :
    (get_in_game_player g name).bind (fun player => wins_over g player line column axes) =
      player_wins g name line column := by
  rw [player_wins_eq_wins_over]
  cases get_in_game_player g name with
  | none => rfl
  | some player =>
    simp only [Option.some_bind]
    have hnz : ∀ a ∈ axis_checks, ¬(a.1 = 0 ∧ a.2 = 0) := by
      intro a ha
      simp only [axis_checks, List.mem_cons, List.mem_singleton, List.mem_nil_iff,
        or_false] at ha
      rcases ha with h | h | h <;> subst h <;> decide
    rw [wins_over_eq_any player line column hb hshape axes
        (fun a ha => hnz a (hperm.mem_iff.1 ha)),
      wins_over_eq_any player line column hb hshape axis_checks hnz]
    congr 1
    rw [Bool.eq_iff_iff, List.any_eq_true, List.any_eq_true]
    constructor
    · rintro ⟨x, hx, hp⟩
      exact ⟨x, hperm.mem_iff.1 hx, hp⟩
    · rintro ⟨x, hx, hp⟩
      exact ⟨x, hperm.mem_iff.2 hx, hp⟩

/-! ### Writes of `drop` -/

theorem countP_set_empty (p : Seat) :
    ∀ (row : List Cell) (c : Nat), row[c]? = some none →
      (row.set c (some p)).countP (fun cell => cell.isSome) =
        row.countP (fun cell => cell.isSome) + 1 := by
  intro row
  induction row with
  | nil => intro c h; simp at h
  | cons x xs ih =>
    intro c h
    cases c with
    | zero =>
      simp only [List.getElem?_cons_zero, Option.some.injEq] at h
      subst h
      simp [List.countP_cons]
    | succ c =>
      simp only [List.getElem?_cons_succ] at h
      simp only [List.set_cons_succ, List.countP_cons, ih c h]
      omega

theorem sum_map_set_succ (f : List Cell → Nat) :
    ∀ (b : Board) (l : Nat) (row row1 : List Cell), b[l]? = some row → f row1 = f row + 1 →
      ((b.set l row1).map f).sum = (b.map f).sum + 1 := by
  intro b
  induction b with
  | nil => intro l row row1 h; simp at h
  | cons x xs ih =>
    intro l row row1 h hf
    cases l with
    | zero =>
      simp only [List.getElem?_cons_zero, Option.some.injEq] at h
      subst h
      simp only [List.set_cons_zero, List.map_cons, List.sum_cons, hf]
      omega
    | succ l =>
      simp only [List.getElem?_cons_succ] at h
      simp only [List.set_cons_succ, List.map_cons, List.sum_cons, ih l row row1 h hf]
      omega

/-- Writing a piece into an empty cell adds one to the number of pieces. -/
theorem occupied_count_set {b b1 : Board} {l c : Int} {p : Seat}
    (hset : board_set b l c (some p) = some b1) (hempty : board_get b l c = some none) :
    occupied_count b1 = occupied_count b + 1 := by
  unfold board_set at hset
  unfold board_get at hempty
  split at hset
  · cases hset
  · rename_i hneg
    rw [if_neg hneg] at hempty
    cases hrow : b[l.toNat]? with
    | none => simp [hrow] at hset
    | some row =>
      simp only [hrow] at hset hempty
      split at hset
      · injection hset with hset
        subst hset
        unfold occupied_count
        exact sum_map_set_succ _ b l.toNat row _ hrow (countP_set_empty p row c.toNat hempty)
      · cases hset

/-- The outer loop of `drop` over `n` valid columns adds `n` pieces. -/
theorem drop_column_loop_count {h w : Int} (player : Seat) (hh : 1 ≤ h) :
    ∀ (n : Nat) (c0 : Int) (st : DropState), BoardShape st.board h w → 0 ≤ c0 → c0 + n ≤ w →
      (∀ c, c0 ≤ c → c < c0 + n → Empty st.board 0 c) →
      1 ≤ st.lines.length → 1 ≤ st.columns.length →
      ∀ st1, drop_column_loop player h 0 n c0 st = some st1 →
        occupied_count st1.board = occupied_count st.board + n := by
  intro n
  induction n with
  | zero =>
    intro c0 st _ _ _ _ _ _ st1 hloop
    simp only [drop_column_loop, Option.some.injEq] at hloop
    subst hloop
    rfl
  | succ n ih =>
    intro c0 st hs hc0 hcw htop hl hcl st1 hloop
    push_cast at hcw
    obtain ⟨r, b1, hland, hset, hcol⟩ := drop_column_spec player c0 st hs hh hc0 (by omega)
      (htop c0 (le_refl _) (by push_cast; omega)) hl hcl
    have hget := board_get_set hset
    simp only [drop_column_loop, hcol] at hloop
    have hrec := ih (c0 + 1)
      { board := b1, lines := st.lines.set 0 r, columns := st.columns.set 0 c0 }
      (board_set_shape hset hs) (by omega) (by omega)
      (by
        intro c h1 h2
        unfold Empty
        rw [hget, if_neg (by intro hh; omega)]
        exact htop c (by omega) (by push_cast; omega))
      (by simpa using hl) (by simpa using hcl) st1 hloop
    have hone := occupied_count_set hset (hland.2.2.1 r hland.1 (le_refl r))
    simp only at hrec
    rw [hrec, hone]
    omega

/-- C29: in an active match, for size >= 1 and an accepted position (so the
board has at least one row), `drop` returns, which in this model means that
no write left the board; every cell it changed lies inside the board and was
empty, and the number of pieces on the board grows by `size`. -/
theorem drop_writes_in_bounds (g : tGame) (name : String) (size column : Int)
    (direction : Option String) (lines columns : List Int)
    (hact : ActiveMatch g) (hsize : 1 ≤ size)
    (hv : valid_position g size column direction = some true)
    (hl : lines.length = size.toNat) (hcl : columns.length = size.toNat) :
    ∃ b g1 ls cs b1, g.board = some b ∧
      drop g name size column direction lines columns = some (g1, ls, cs) ∧
      g1.board = some b1 ∧ 1 ≤ g.height ∧
      (∀ l c, board_get b1 l c ≠ board_get b l c →
        0 ≤ l ∧ l < g.height ∧ 0 ≤ c ∧ c < g.width ∧ board_get b l c = some none) ∧
      occupied_count b1 = occupied_count b + size.toNat := by
  obtain ⟨p1, p2, b, h1, h2, hb, hshape⟩ := hact
  obtain ⟨hc0, hcw, htop, hh⟩ := valid_position_true hb hshape hsize hv
  have hcast : ((size.toNat : Nat) : Int) = size := Int.toNat_of_nonneg (by omega)
  have hpos : 1 ≤ size.toNat := by omega
  obtain ⟨st1, hloop, hs1, hnew, hold, hex, _, _, _, _⟩ :=
    drop_column_loop_spec (if p1.player = name then Seat.player1 else Seat.player2) hh
      size.toNat (get_starting_column size column direction)
      { board := b, lines := lines, columns := columns } hshape hc0 (by omega)
      (by rw [hcast]; exact htop) (by simp only; omega) (by simp only; omega)
  have hcount := drop_column_loop_count
    (if p1.player = name then Seat.player1 else Seat.player2) hh
    size.toNat (get_starting_column size column direction)
    { board := b, lines := lines, columns := columns } hshape hc0 (by omega)
    (by rw [hcast]; exact htop) (by simp only; omega) (by simp only; omega) st1 hloop
  rw [hcast] at hnew hold
  simp only at hnew hold hcount
  obtain ⟨g1, q1, q2, hdrop, hb1, _⟩ :=
    drop_result h1 h2 hb (get_in_game_player_active h1 name) hloop
  refine ⟨b, g1, st1.lines, st1.columns, st1.board, hb, hdrop, hb1, hh, ?_, hcount⟩
  intro l c hne
  by_cases hin : get_starting_column size column direction ≤ c ∧
      c < get_starting_column size column direction + size ∧ Landing b g.height l c
  · obtain ⟨a1, a2, a3, a4, a5, _⟩ := hin
    exact ⟨a3, a4, by omega, by omega, a5 l a3 (le_refl l)⟩
  · exact absurd (hold l c hin) hne

/-! ### The ledger over a run of the program -/

theorem has_player_iff_mem (g : tGame) (n : String) :
    has_player g n = true ↔ ∃ p ∈ g.players, p.name = n := by
  unfold has_player
  rw [get_player_eq_find, List.find?_isSome]
  simp

theorem find_of_nodup :
    ∀ (ps : List tPlayer), (ps.map tPlayer.name).Nodup → ∀ p ∈ ps,
      ps.find? (fun q => decide (q.name = p.name)) = some p := by
  intro ps
  induction ps with
  | nil => intro _ p hp; simp at hp
  | cons x xs ih =>
    intro hnd p hp
    simp only [List.map_cons, List.nodup_cons, List.mem_map, not_exists, not_and] at hnd
    rcases List.mem_cons.1 hp with e | hmem
    · subst e
      simp [List.find?_cons]
    · have hne : ¬ x.name = p.name := fun e => hnd.1 p hmem e.symm
      simp only [List.find?_cons, hne, decide_False]
      exact ih hnd.2 p hmem

theorem get_player_idx_found {g : tGame} {name : String} (h : has_player g name = true) :
    ∃ (k : Nat) (p : tPlayer), get_player_idx g name = (k : Int) ∧ g.players[k]? = some p ∧
      p.name = name := by
  unfold get_player_idx
  rcases get_player_idx_loop_spec name g.players 0 (le_refl 0) with ⟨h1, _⟩ | ⟨k, h1, h2, h3⟩
  · unfold has_player at h
    rw [get_player_eq_find, h1] at h
    simp at h
  · obtain ⟨p, hp⟩ := Option.isSome_iff_exists.1 h3
    refine ⟨k, p, by rw [h1]; simp, by rw [h2, hp], ?_⟩
    simpa using List.find?_some hp

/-- The state after `remove_player`: the record found under the name is taken
out of the ledger, nothing else changes. -/
theorem remove_player_spec {g g1 : tGame} {name : String} (hreg : has_player g name = true)
    (h : remove_player g name = some g1) :
    ∃ (k : Nat) (p : tPlayer), g.players[k]? = some p ∧ p.name = name ∧
      g1 = { g with players := g.players.eraseIdx k } := by
  obtain ⟨k, p, hk, hp, hname⟩ := get_player_idx_found hreg
  unfold remove_player at h
  simp only [hk] at h
  rw [if_neg (by omega)] at h
  injection h with h
  exact ⟨k, p, hp, hname, by rw [← h]; simp⟩

theorem cmd_EJ_cases {g g1 : tGame} {name : String} {out : Output}
    (h : cmd_EJ g name = some (g1, out)) :
    g1 = g ∨ (has_player g name = true ∧
      (in_game g = true → player_in_game g name = some false) ∧
      remove_player g name = some g1) := by
  unfold cmd_EJ at h
  split at h
  · left
    injection h with h
    exact (congrArg Prod.fst h).symm
  · rename_i hreg
    have hreg1 : has_player g name = true := by simpa using hreg
    simp only at h
    split at h
    · cases h
    · left
      injection h with h
      exact (congrArg Prod.fst h).symm
    · rename_i hseated
      split at h
      · cases h
      · rename_i game1 hrem
        right
        injection h with h
        have hg : game1 = g1 := congrArg Prod.fst h
        subst hg
        refine ⟨hreg1, ?_, hrem⟩
        intro hin
        simpa [hin] using hseated

theorem player_in_game_false {g : tGame} {p1 p2 : tInGamePlayer} {name : String}
    (h1 : g.player1 = some p1) (h2 : g.player2 = some p2)
    (hreg : has_player g name = true) (h : player_in_game g name = some false) :
    name ≠ p1.player ∧ name ≠ p2.player := by
  unfold has_player at hreg
  obtain ⟨p, hp⟩ := Option.isSome_iff_exists.1 hreg
  have hname := get_player_name hp
  unfold player_in_game at h
  simp only [h1, h2, hp, hname, Option.some.injEq, Bool.or_eq_false_iff,
    decide_eq_false_iff_not] at h
  exact ⟨fun e => h.1 e.symm, fun e => h.2 e.symm⟩

theorem drop_keeps_seats {g g1 : tGame} {name : String} {size column : Int}
    {direction : Option String} {lines columns ls cs : List Int} {p1 p2 : tInGamePlayer}
    (h : drop g name size column direction lines columns = some (g1, ls, cs))
    (h1 : g.player1 = some p1) (h2 : g.player2 = some p2) :
    ∃ q1 q2, g1.player1 = some q1 ∧ g1.player2 = some q2 ∧
      q1.player = p1.player ∧ q2.player = p2.player ∧ g1.players = g.players ∧
      in_game g1 = true := by
  obtain ⟨hboard, hsame, hfirst, hsecond⟩ := drop_seats_of_eq h h1 h2
  obtain ⟨_, _, _, hplayers, _⟩ := drop_fields h
  by_cases hsz : size > 1
  · by_cases hn : p1.player = name
    · obtain ⟨e1, e2⟩ := hfirst hsz hn
      exact ⟨_, _, e1, e2, rfl, rfl, hplayers, hboard⟩
    · obtain ⟨e1, e2⟩ := hsecond hsz hn
      exact ⟨_, _, e1, e2, rfl, rfl, hplayers, hboard⟩
  · obtain ⟨e1, e2⟩ := hsame hsz
    exact ⟨_, _, e1, e2, rfl, rfl, hplayers, hboard⟩

/-- The end of a match keeps the invariant of the ledger: the record that gains a
win also gains a game. -/
theorem game_over_keeps_invariant {g g1 : tGame} {first_name : String}
    {second_name : Option String} (hin : in_game g = true) (hinv : LedgerInvariant g)
    (h : game_over g first_name second_name = some g1) : LedgerInvariant g1 := by
  obtain ⟨hnd, hwins, hseats⟩ := hinv
  obtain ⟨p1, p2, h1, h2, hr1, hr2⟩ := hseats hin
  obtain ⟨g2, hover, hnames, hget⟩ := game_over_ledger first_name second_name h1 h2 hr1 hr2
  rw [h] at hover
  injection hover with hover
  subst hover
  have hnd1 : (g1.players.map tPlayer.name).Nodup := by rw [hnames]; exact hnd
  refine ⟨hnd1, ?_, ?_⟩
  · intro q hq
    have hfind := find_of_nodup g1.players hnd1 q hq
    rw [← get_player_eq_find, hget] at hfind
    cases hp : get_player g q.name with
    | none => simp [hp] at hfind
    | some p =>
      rw [get_player_eq_find] at hp
      have hmem := List.mem_of_find?_eq_some hp
      obtain ⟨w0, w1⟩ := hwins p hmem
      rw [← get_player_eq_find] at hp
      simp only [hp, Option.map_some', Option.some.injEq] at hfind
      clear hq hp
      generalize q.name = n at hfind
      subst hfind
      by_cases hw : n = (if p1.player = first_name then p2.player else p1.player) ∧
          second_name = none
      · have hgame : n = p1.player ∨ n = p2.player := by
          obtain ⟨e, _⟩ := hw
          split at e
          · exact Or.inr e
          · exact Or.inl e
        rw [if_pos hw]
        by_cases ha : n = p1.player
        · rw [if_pos ha]
          by_cases hb : n = p2.player
          · rw [if_pos hb]; simp only [incr_wins, incr_games_played]; omega
          · rw [if_neg hb]; simp only [incr_wins, incr_games_played, id]; omega
        · have hb : n = p2.player := hgame.resolve_left ha
          rw [if_neg ha, if_pos hb]
          simp only [incr_wins, incr_games_played, id]; omega
      · rw [if_neg hw]
        by_cases ha : n = p1.player
        · rw [if_pos ha]
          by_cases hb : n = p2.player
          · rw [if_pos hb]; simp only [incr_games_played, id]; omega
          · rw [if_neg hb]; simp only [incr_games_played, id]; omega
        · rw [if_neg ha]
          by_cases hb : n = p2.player
          · rw [if_pos hb]; simp only [incr_games_played, id]; omega
          · rw [if_neg hb]; simp only [id]; omega
  · intro hin1
    rw [(game_over_ended h).1.1] at hin1
    cases hin1

/-- Every command keeps the invariant of the ledger. -/
theorem exec_keeps_invariant {g g1 : tGame} {cmd : Command} {out : Output}
    (h : exec g cmd = some (g1, out)) (hinv : LedgerInvariant g) : LedgerInvariant g1 := by
  cases cmd with
  | RJ name =>
    simp only [exec, Option.some.injEq] at h
    unfold cmd_RJ at h
    split at h
    · have := congrArg Prod.fst h; simp only at this; subst this; exact hinv
    · rename_i hreg
      have hg := congrArg Prod.fst h
      simp only at hg
      subst hg
      obtain ⟨hnd, hwins, hseats⟩ := hinv
      have hnot : ∀ p ∈ g.players, p.name ≠ name := by
        intro p hp e
        apply hreg
        exact (has_player_iff_mem g name).2 ⟨p, hp, e⟩
      refine ⟨?_, ?_, ?_⟩
      · simp only [add_player, List.map_append, List.map_cons, List.map_nil]
        rw [List.nodup_append]
        refine ⟨hnd, by simp, ?_⟩
        intro a ha hb
        simp only [List.mem_singleton] at hb
        subst hb
        obtain ⟨p, hp, e⟩ := List.mem_map.1 ha
        exact hnot p hp e
      · intro p hp
        simp only [add_player, List.mem_append, List.mem_singleton] at hp
        rcases hp with hp | hp
        · exact hwins p hp
        · subst hp; simp
      · intro hin
        obtain ⟨p1, p2, h1, h2, hr1, hr2⟩ := hseats hin
        refine ⟨p1, p2, h1, h2, ?_, ?_⟩
        · obtain ⟨p, hp, e⟩ := (has_player_iff_mem g _).1 hr1
          exact (has_player_iff_mem _ _).2 ⟨p, by simp [add_player, hp], e⟩
        · obtain ⟨p, hp, e⟩ := (has_player_iff_mem g _).1 hr2
          exact (has_player_iff_mem _ _).2 ⟨p, by simp [add_player, hp], e⟩
  | EJ name =>
    simp only [exec] at h
    rcases cmd_EJ_cases h with e | ⟨hreg, hnotseated, hrem⟩
    · subst e; exact hinv
    · obtain ⟨k, p0, hk, hname, hg1⟩ := remove_player_spec hreg hrem
      subst hg1
      obtain ⟨hnd, hwins, hseats⟩ := hinv
      refine ⟨?_, ?_, ?_⟩
      · exact hnd.sublist ((List.eraseIdx_sublist g.players k).map tPlayer.name)
      · intro p hp
        exact hwins p (List.mem_of_mem_eraseIdx hp)
      · intro hin
        have hin0 : in_game g = true := hin
        obtain ⟨p1, p2, h1, h2, hr1, hr2⟩ := hseats hin0
        obtain ⟨n1, n2⟩ := player_in_game_false h1 h2 hreg (hnotseated hin0)
        have keep : ∀ n, n ≠ name → has_player g n = true →
            has_player { g with players := g.players.eraseIdx k } n = true := by
          intro n hn hr
          obtain ⟨p, hp, e⟩ := (has_player_iff_mem g n).1 hr
          obtain ⟨i, hi⟩ := List.mem_iff_getElem?.1 hp
          refine (has_player_iff_mem _ n).2 ⟨p, ?_, e⟩
          refine List.mem_eraseIdx_iff_getElem?.2 ⟨i, ?_, hi⟩
          rintro rfl
          rw [hk] at hi
          injection hi with hi
          subst hi
          exact hn (e.symm.trans hname)
        exact ⟨p1, p2, h1, h2, keep _ (fun e => n1 e.symm) hr1, keep _ (fun e => n2 e.symm) hr2⟩
  | IJ n1 n2 width height sequence_size special_sequences =>
    simp only [exec, Option.some.injEq] at h
    by_cases hout : out = Output.Started
    · subst hout
      obtain ⟨_, hr1, hr2, _, _, _, hg1⟩ := cmd_IJ_started h
      subst hg1
      obtain ⟨hnd, hwins, _⟩ := hinv
      exact ⟨hnd, hwins, fun _ => ⟨_, _, rfl, rfl, hr1, hr2⟩⟩
    · rw [cmd_IJ_refused h hout]; exact hinv
  | D n1 n2 =>
    simp only [exec] at h
    by_cases hout : out = Output.Resigned
    · subst hout
      obtain ⟨hin, hover⟩ := cmd_D_resigned h
      exact game_over_keeps_invariant hin hinv hover
    · rw [cmd_D_refused h hout]; exact hinv
  | CP name size column direction cl cc =>
    simp only [exec] at h
    have keep_drop : ∀ {game1 : tGame} {ls cs : List Int}, in_game g = true →
        drop g name size column direction (malloc_ints cl size) (malloc_ints cc size) =
          some (game1, ls, cs) → in_game game1 = true ∧ LedgerInvariant game1 := by
      intro game1 ls cs hin hdrop
      obtain ⟨hnd, hwins, hseats⟩ := hinv
      obtain ⟨p1, p2, h1, h2, hr1, hr2⟩ := hseats hin
      obtain ⟨q1, q2, e1, e2, hq1, hq2, hpl, hin1⟩ := drop_keeps_seats hdrop h1 h2
      refine ⟨hin1, by rw [hpl]; exact hnd, by rw [hpl]; exact hwins, fun _ => ?_⟩
      refine ⟨q1, q2, e1, e2, ?_, ?_⟩
      · rw [has_player_congr hpl, hq1]; exact hr1
      · rw [has_player_congr hpl, hq2]; exact hr2
    by_cases hp : out = Output.Placed
    · subst hp
      obtain ⟨_, _, ls, cs, hdrop⟩ := cmd_CP_placed h
      exact (keep_drop (cmd_CP_in_game h (by decide)) hdrop).2
    · by_cases hw : out = Output.Won
      · subst hw
        obtain ⟨hin, _, _, game1, ls, cs, hdrop, hover⟩ := cmd_CP_won h
        obtain ⟨hin1, hinv1⟩ := keep_drop hin hdrop
        exact game_over_keeps_invariant hin1 hinv1 hover
      · rw [cmd_CP_refused h hp hw]; exact hinv

theorem reachable_invariant {g : tGame} (hr : Reachable g) : LedgerInvariant g := by
  induction hr with
  | init =>
    refine ⟨by simp [new_game], ?_, ?_⟩
    · intro p hp; simp [new_game] at hp
    · intro h; cases h
  | step g g1 cmd out _ hexec ih => exact exec_keeps_invariant hexec ih

/-- C26: in every state reached from `new_game` by the commands RJ, EJ, IJ, CP
and D, while a match is in progress both seats exist, their players are
registered, and removing a seated name is answered `SeatedInActiveMatch` with
the state (so the ledger) unchanged. -/
theorem seated_players_stay_registered (g : tGame) (hr : Reachable g)
    (hin : in_game g = true) :
    ∃ p1 p2, g.player1 = some p1 ∧ g.player2 = some p2 ∧
      has_player g p1.player = true ∧ has_player g p2.player = true ∧
      ∀ name, name = p1.player ∨ name = p2.player →
        cmd_EJ g name = some (g, Output.SeatedInActiveMatch) := by
  obtain ⟨p1, p2, h1, h2, hr1, hr2⟩ := (reachable_invariant hr).2.2 hin
  refine ⟨p1, p2, h1, h2, hr1, hr2, ?_⟩
  intro name hname
  have hreg : has_player g name = true := by
    rcases hname with e | e <;> rw [e] <;> assumption
  have hpig := player_in_game_seated h1 h2 hreg hname
  unfold cmd_EJ
  simp [hreg, hin, hpig]

/-- C30: in every state reached from `new_game` by the commands RJ, EJ, IJ, CP
and D, every registered player has `0 <= wins <= games_played`. -/
theorem wins_at_most_games (g : tGame) (hr : Reachable g) :
    ∀ p ∈ g.players, 0 ≤ p.wins ∧ p.wins ≤ p.games_played :=
  (reachable_invariant hr).2.1

/-! ### Loading (command `L`) -/

/-- C22: `two_players` has no match in progress and `save_game` writes only the
count and the two records.  Reading that text back, the ledger is read, the
header conversion finds nothing and leaves `height` at the value -1 given by
`new_game`, the test `height != 0` succeeds, and the loader goes on to read a
line that is not there: `load_game` has no result. -/
theorem load_without_match_has_no_result :
    in_game two_players = false ∧
    (save_game two_players).map String.mk = some "2\na 0 0\nb 0 0\n" ∧
    load_players_loop 2 "a 0 0\nb 0 0\n".toList = some (two_players.players, []) ∧
    fscanf_header [] new_game.height new_game.width new_game.sequence_size =
      ((-1, -1, -1), []) ∧
    getline [] = none ∧
    (save_game two_players).bind load_game = none := by
  refine ⟨by rfl, by rfl, by rfl, by rfl, by rfl, by rfl⟩

/-- The value of `count_pieces` when the run is known: the origin and the next
`n` cells are owned by the player and cell `n + 1` is not. -/
theorem count_pieces_exact {g : tGame} {b : Board} (player : Seat)
    (line column l_shift c_shift : Int) (hb : g.board = some b)
    (hshape : BoardShape b g.height g.width) (hshift : ¬(l_shift = 0 ∧ c_shift = 0)) (n : Nat)
    (hall : ∀ i : Nat, i ≤ n → Owned b player (line + i * l_shift) (column + i * c_shift))
    (hstop : ¬ Owned b player (line + ((n + 1 : Nat) : Int) * l_shift)
      (column + ((n + 1 : Nat) : Int) * c_shift)) :
    count_pieces g player line column l_shift c_shift = some (n : Int) := by
  have h0 : Owned b player line column := by simpa using hall 0 (Nat.zero_le _)
  obtain ⟨m, hm, hmall, hmstop⟩ :=
    (count_pieces_value player line column l_shift c_shift hb hshape hshift).2 h0
  rcases Nat.lt_trichotomy m n with hlt | heq | hgt
  · exact absurd (hall (m + 1) hlt) hmstop
  · rw [hm, heq]
  · exact absurd (hmall (n + 1) hgt) hstop

theorem get_starting_column_one (column : Int) (direction : Option String) :
    get_starting_column 1 column direction = column - 1 := by
  simp [get_starting_column]

/-- On a board holding only a stack of `k` pieces in column `c`, the player owns
exactly the cells of the stack. -/
theorem stacked_owned {b : Board} {h w c : Int} {k : Nat} {player : Seat}
    (hshape : BoardShape b h w) (hc0 : 0 ≤ c) (hcw : c < w) (hk : (k : Int) ≤ h)
    (hcells : ∀ l c1, 0 ≤ l → l < h → 0 ≤ c1 → c1 < w →
      board_get b l c1 = some (if c1 = c ∧ h - k ≤ l then some player else none))
    (l c1 : Int) : Owned b player l c1 ↔ c1 = c ∧ h - k ≤ l ∧ l < h := by
  constructor
  · intro ho
    obtain ⟨a0, a1, a2, a3⟩ := board_get_bounds hshape ho
    have := hcells l c1 a0 a1 a2 a3
    unfold Owned at ho
    rw [this] at ho
    by_cases hcond : c1 = c ∧ h - k ≤ l
    · exact ⟨hcond.1, hcond.2, a1⟩
    · rw [if_neg hcond] at ho
      cases ho
  · rintro ⟨rfl, h1, h2⟩
    unfold Owned
    rw [hcells l c1 (by omega) h2 hc0 hcw, if_pos ⟨rfl, h1⟩]
/-- Win detection at the top of a stack of `m` pieces that is alone on the
board: only the vertical test can succeed, and it does when `m` reaches the
winning size. -/
theorem stacked_player_wins {g : tGame} {b : Board} {c : Int} {m : Nat} {player : Seat}
    (name : String) (hb : g.board = some b) (hshape : BoardShape b g.height g.width)
    (hc0 : 0 ≤ c) (hcw : c < g.width) (hm1 : 1 ≤ m) (hm : (m : Int) ≤ g.height)
    (hseq : 2 ≤ g.sequence_size) (hp : get_in_game_player g name = some player)
    (hcells : ∀ l c1, 0 ≤ l → l < g.height → 0 ≤ c1 → c1 < g.width →
      board_get b l c1 = some (if c1 = c ∧ g.height - m ≤ l then some player else none)) :
    player_wins g name (g.height - m) c = some (decide ((m : Int) ≥ g.sequence_size)) := by
  have hown := stacked_owned hshape hc0 hcw hm hcells
  have e1 : count_pieces g player (g.height - m) c 0 1 = some ((0 : Nat) : Int) :=
    count_pieces_exact player _ _ 0 1 hb hshape (by omega) 0
      (by intro i hi; rw [hown]; omega) (by rw [hown]; omega)
  have e2 : count_pieces g player (g.height - m) c (-0) (-1) = some ((0 : Nat) : Int) :=
    count_pieces_exact player _ _ (-0) (-1) hb hshape (by omega) 0
      (by intro i hi; rw [hown]; omega) (by rw [hown]; omega)
  have e3 : count_pieces g player (g.height - m) c 1 0 = some ((m - 1 : Nat) : Int) :=
    count_pieces_exact player _ _ 1 0 hb hshape (by omega) (m - 1)
      (by intro i hi; rw [hown]; omega) (by rw [hown]; omega)
  have e4 : count_pieces g player (g.height - m) c (-1) (-0) = some ((0 : Nat) : Int) :=
    count_pieces_exact player _ _ (-1) (-0) hb hshape (by omega) 0
      (by intro i hi; rw [hown]; omega) (by rw [hown]; omega)
  have e5 : count_pieces g player (g.height - m) c 1 1 = some ((0 : Nat) : Int) :=
    count_pieces_exact player _ _ 1 1 hb hshape (by omega) 0
      (by intro i hi; rw [hown]; omega) (by rw [hown]; omega)
  have e6 : count_pieces g player (g.height - m) c (-1) (-1) = some ((0 : Nat) : Int) :=
    count_pieces_exact player _ _ (-1) (-1) hb hshape (by omega) 0
      (by intro i hi; rw [hown]; omega) (by rw [hown]; omega)
  have a1 : axis_wins g player (g.height - m) c 0 1 = some false := by
    unfold axis_wins
    rw [e1, e2]
    simp only [Option.some.injEq, decide_eq_false_iff_not]
    omega
  have a2 : axis_wins g player (g.height - m) c 1 0 =
      some (decide ((m : Int) ≥ g.sequence_size)) := by
    unfold axis_wins
    rw [e3, e4]
    simp only [Option.some.injEq, decide_eq_decide]
    omega
  have a3 : axis_wins g player (g.height - m) c 1 1 = some false := by
    unfold axis_wins
    rw [e5, e6]
    simp only [Option.some.injEq, decide_eq_false_iff_not]
    omega
  rw [player_wins_eq_wins_over, hp]
  simp only [Option.some_bind, axis_checks, wins_over, a1, a2, a3]
  by_cases hwin : (m : Int) ≥ g.sequence_size
  · simp [hwin]
  · simp [hwin]
/-- One more drop on a stack of `k` pieces below the winning size: the line is
answered `Placed` and leaves a stack of `k + 1` pieces, or, when `k + 1`
reaches the winning size, it is answered `Won`. -/
theorem stacked_drop {g : tGame} {name : String} {column : Int} {k : Nat}
    (direction : Option String) (cl cc : Nat → Int)
    (hst : Stacked g name (column - 1) k) (hseq : 2 ≤ g.sequence_size)
    (hk : (k : Int) < g.sequence_size) (hh : g.sequence_size ≤ g.height)
    (hc1 : 1 ≤ column) (hcw : column ≤ g.width) :
    ∃ g1, cmd_CP g name 1 column direction cl cc =
        some (g1, if (k : Int) + 1 < g.sequence_size then Output.Placed else Output.Won) ∧
      ((k : Int) + 1 < g.sequence_size →
        Stacked g1 name (column - 1) (k + 1) ∧ g1.sequence_size = g.sequence_size ∧
        g1.height = g.height ∧ g1.width = g.width) := by
  obtain ⟨p1, p2, b, player, h1, h2, hb, hshape, hr1, hr2, hseat, hp, hcells⟩ := hst
  have hin : in_game g = true := by simp [in_game, hb]
  have hreg : has_player g name = true := by
    rcases hseat with e | e <;> rw [e] <;> assumption
  have hpig := player_in_game_seated h1 h2 hreg hseat
  have hvs : valid_size g name 1 = some true := by simp [valid_size]
  have htop : board_get b 0 (column - 1) = some none := by
    rw [hcells 0 (column - 1) (le_refl _) (by omega) (by omega) (by omega), if_neg (by omega)]
  have hvp : valid_position g 1 column direction = some true := by
    unfold valid_position
    simp only [get_starting_column_one, hb]
    rw [if_neg (by omega)]
    simp [valid_position_loop, htop]
  obtain ⟨st1, hloop, hshape1, hset, hkeep, _, _, _, _, hlast⟩ :=
    drop_column_loop_spec (w := g.width) player (by omega : 1 ≤ g.height) 1 (column - 1)
      ⟨b, malloc_ints cl 1, malloc_ints cc 1⟩ hshape (by omega) (by push_cast; omega)
      (by
        intro c ha hc
        have : c = column - 1 := by push_cast at hc; omega
        subst this
        exact htop)
      (by simp [malloc_ints]) (by simp [malloc_ints])
  obtain ⟨hcol, r, hland, hline⟩ := hlast (le_refl _)
  have hland0 : Landing b g.height (g.height - k - 1) (column - 1) := by
    refine ⟨by omega, by omega, ?_, ?_⟩
    · intro l1 a0 a1
      unfold Empty
      rw [hcells l1 _ a0 (by omega) (by omega) (by omega), if_neg (by omega)]
    · by_cases hk0 : k = 0
      · left
        subst hk0
        push_cast
        omega
      · right
        refine ⟨player, ?_⟩
        rw [hcells _ _ (by omega) (by omega) (by omega) (by omega), if_pos ⟨rfl, by omega⟩]
  have hr : r = g.height - k - 1 := landing_unique (by simpa using hland) hland0
  have hcol1 : st1.columns[0]? = some (column - 1) := by simpa using hcol
  have hloop2 : drop_column_loop player g.height 0 (1 : Int).toNat
      (get_starting_column 1 column direction)
      { board := b, lines := malloc_ints cl 1, columns := malloc_ints cc 1 } = some st1 := by
    rw [get_starting_column_one]
    exact hloop
  obtain ⟨g1, q1, q2, hdrop, hb1, hh1, hw1, hs1, hpl1, hq1, hq2, hn1, hn2⟩ :=
    drop_result h1 h2 hb hp hloop2
  have hp1 : get_in_game_player g1 name = some player := by
    rw [get_in_game_player_active hq1, hn1, ← get_in_game_player_active h1]
    exact hp
  have hcells1 : ∀ l c1, 0 ≤ l → l < g1.height → 0 ≤ c1 → c1 < g1.width →
      board_get st1.board l c1 =
        some (if c1 = column - 1 ∧ g1.height - ((k + 1 : Nat) : Int) ≤ l then some player
          else none) := by
    intro l c1 a0 a1 a2 a3
    rw [hh1] at a1 ⊢
    rw [hw1] at a3
    by_cases hL : c1 = column - 1 ∧ l = g.height - k - 1
    · obtain ⟨e1, e2⟩ := hL
      subst e1 e2
      rw [hset _ _ (le_refl _) (by push_cast; omega) hland0, if_pos ⟨rfl, by push_cast; omega⟩]
    · have hno : ¬ (column - 1 ≤ c1 ∧ c1 < column - 1 + ((1 : Nat) : Int) ∧
          Landing b g.height l c1) := by
        rintro ⟨b0, b1, b2⟩
        have e1 : c1 = column - 1 := by push_cast at b1; omega
        subst e1
        exact hL ⟨rfl, landing_unique b2 hland0⟩
      rw [hkeep l c1 hno, hcells l c1 a0 a1 a2 a3]
      have hiff : (c1 = column - 1 ∧ g.height - ((k + 1 : Nat) : Int) ≤ l) ↔
          (c1 = column - 1 ∧ g.height - (k : Int) ≤ l) := by
        push_cast
        constructor
        · rintro ⟨x, y⟩
          refine ⟨x, ?_⟩
          by_contra hlt
          exact hL ⟨x, by omega⟩
        · rintro ⟨x, y⟩
          exact ⟨x, by omega⟩
      rw [if_congr hiff rfl rfl]
  have hshape1g : BoardShape st1.board g1.height g1.width := by
    rw [hh1, hw1]
    exact hshape1
  have hwins := stacked_player_wins (m := k + 1) name hb1 hshape1g (by omega : 0 ≤ column - 1)
    (by omega) (by omega) (by push_cast; omega) (by omega) hp1 hcells1
  have horigin : g1.height - ((k + 1 : Nat) : Int) = r := by
    rw [hr, hh1]
    push_cast
    omega
  rw [horigin, hs1] at hwins
  have harr1 : array_get st1.lines 0 = some r := by simp [array_get, hline]
  have harr2 : array_get st1.columns 0 = some (column - 1) := by simp [array_get, hcol1]
  have hone : (1 : Int).toNat = 0 + 1 := rfl
  by_cases hlt : (k : Int) + 1 < g.sequence_size
  · have hfalse : player_wins g1 name r (column - 1) = some false := by
      rw [hwins]
      simp only [Option.some.injEq, decide_eq_false_iff_not]
      push_cast
      omega
    have hcp : cp_win_loop g1 name st1.lines st1.columns (1 : Int).toNat 0 =
        some (g1, false) := by
      rw [hone]
      simp only [cp_win_loop, harr1, harr2, hfalse]
    refine ⟨g1, ?_, fun _ => ⟨⟨q1, q2, st1.board, player, hq1, hq2, hb1, hshape1g, ?_, ?_, ?_,
      hp1, hcells1⟩, hs1, hh1, hw1⟩⟩
    · unfold cmd_CP
      simp only [hin, Bool.not_true, Bool.false_eq_true, if_false, hpig, hvs, hvp, hdrop, hcp,
        if_pos hlt]
      rfl
    · rw [has_player_congr hpl1, hn1]; exact hr1
    · rw [has_player_congr hpl1, hn2]; exact hr2
    · rw [hn1, hn2]; exact hseat
  · have htrue : player_wins g1 name r (column - 1) = some true := by
      rw [hwins]
      simp only [Option.some.injEq, decide_eq_true_eq]
      push_cast
      omega
    obtain ⟨g2, hover, _⟩ := game_over_ledger name none hq1 hq2
      (by rw [has_player_congr hpl1, hn1]; exact hr1)
      (by rw [has_player_congr hpl1, hn2]; exact hr2)
    have hcp : cp_win_loop g1 name st1.lines st1.columns (1 : Int).toNat 0 =
        some (g2, true) := by
      rw [hone]
      simp only [cp_win_loop, harr1, harr2, htrue, hover]
    refine ⟨g2, ?_, fun h => absurd h hlt⟩
    unfold cmd_CP
    simp only [hin, Bool.not_true, Bool.false_eq_true, if_false, hpig, hvs, hvp, hdrop, hcp,
      if_neg hlt]
/-- Drops on a stack of `k` pieces until the winning size is reached: every line
but the last is answered `Placed`, the last is answered `Won`. -/
theorem stacked_run (name : String) (column : Int) :
    ∀ (moves : List (Option String × (Nat → Int) × (Nat → Int))) (g : tGame) (k : Nat),
      Stacked g name (column - 1) k → 2 ≤ g.sequence_size → g.sequence_size ≤ g.height →
      1 ≤ column → column ≤ g.width → 1 ≤ moves.length →
      (k : Int) + moves.length = g.sequence_size →
      ∃ g1, run g (stack_drops name column moves) =
        some (g1, List.replicate (moves.length - 1) Output.Placed ++ [Output.Won]) := by
  intro moves
  induction moves with
  | nil =>
    intro g k _ _ _ _ _ hlen
    simp at hlen
  | cons m rest ih =>
    intro g k hst hseq hh hc1 hcw _ hsum
    obtain ⟨direction, cl, cc⟩ := m
    simp only [List.length_cons, Nat.cast_add, Nat.cast_one] at hsum
    obtain ⟨g1, hcmd, hnext⟩ := stacked_drop direction cl cc hst hseq (by omega) hh hc1 hcw
    cases rest with
    | nil =>
      simp only [List.length_nil, Nat.cast_zero] at hsum
      rw [if_neg (by omega)] at hcmd
      exact ⟨g1, by simp [stack_drops, run, exec, hcmd]⟩
    | cons m2 rest2 =>
      simp only [List.length_cons, Nat.cast_add, Nat.cast_one] at hsum
      have hlt : (k : Int) + 1 < g.sequence_size := by omega
      rw [if_pos hlt] at hcmd
      obtain ⟨hst1, hs1, hh1, hw1⟩ := hnext hlt
      obtain ⟨g2, hrun⟩ := ih g1 (k + 1) hst1 (by omega) (by omega) hc1 (by omega)
        (by simp) (by simp only [List.length_cons]; push_cast; omega)
      refine ⟨g2, ?_⟩
      have hrun2 : run g1 (stack_drops name column (m2 :: rest2)) =
          some (g2, List.replicate rest2.length Output.Placed ++ [Output.Won]) := by
        simpa using hrun
      show run g (Command.CP name 1 column direction cl cc ::
        stack_drops name column (m2 :: rest2)) = _
      rw [run]
      simp only [exec, hcmd, hrun2]
      simp [List.replicate_succ]

/-- C24: in a match just started with winning size at least 2 and height at
least the winning size, when one seated player drops a single piece in the same
valid column as many times as the winning size, with no other input line in
between, every line but the last is answered `Placed` and the last is answered
`Won`. -/
theorem vertical_stack_wins (g g0 : tGame) (n1 n2 name : String)
    (width height sequence_size column : Int) (special_sequences : List Int)
    (moves : List (Option String × (Nat → Int) × (Nat → Int)))
    (hstart : cmd_IJ g n1 n2 width height sequence_size special_sequences =
      (g0, Output.Started))
    (hseq : 2 ≤ sequence_size) (hheight : sequence_size ≤ height)
    (hname : name = n1 ∨ name = n2) (hc1 : 1 ≤ column) (hcw : column ≤ width)
    (hlen : (moves.length : Int) = sequence_size) :
    ∃ g1, run g0 (stack_drops name column moves) =
      some (g1, List.replicate (moves.length - 1) Output.Placed ++ [Output.Won]) := by
  obtain ⟨_, hp1, hp2, _, _, _, rfl⟩ := cmd_IJ_started hstart
  refine stacked_run name column moves _ 0 ?_ hseq hheight hc1 hcw (by omega)
    (by simpa using hlen)
  refine ⟨start_game_player g n1 special_sequences, start_game_player g n2 special_sequences,
    List.replicate height.toNat (List.replicate width.toNat none),
    if n1 = name then Seat.player1 else Seat.player2, rfl, rfl,
    start_game_board g n1 n2 width height sequence_size special_sequences (by omega),
    ?_, ?_, ?_, hname, ?_, ?_⟩
  · refine ⟨by simp [start_game], ?_⟩
    intro row hrow
    rw [List.eq_of_mem_replicate hrow]
    simp [start_game]
  · exact (@has_player_congr g
      (start_game g n1 n2 width height sequence_size special_sequences) rfl n1).trans hp1
  · exact (@has_player_congr g
      (start_game g n1 n2 width height sequence_size special_sequences) rfl n2).trans hp2
  · exact @get_in_game_player_active
      (start_game g n1 n2 width height sequence_size special_sequences)
      (start_game_player g n1 special_sequences) rfl name
  · intro l c1 a0 a1 a2 a3
    have hshape : BoardShape (List.replicate height.toNat (List.replicate width.toNat none))
        height width := by
      refine ⟨by simp, ?_⟩
      intro row hrow
      rw [List.eq_of_mem_replicate hrow]
      simp
    obtain ⟨cell, hcell⟩ := board_get_in_bounds hshape a0 a1 a2 a3
    obtain ⟨row, hrow, hmem⟩ := board_get_mem hcell
    rw [List.eq_of_mem_replicate hrow] at hmem
    rw [hcell, List.eq_of_mem_replicate hmem, if_neg]
    rintro ⟨_, hle⟩
    have : (start_game g n1 n2 width height sequence_size special_sequences).height = height :=
      rfl
    rw [this] at hle
    push_cast at hle
    omega

/-- Instance of `vertical_stack_wins` (C24): width 7, height 4, winning size 4,
column 4, four drops by "a". -/
theorem vertical_stack_wins_witness :
    cmd_IJ two_players "a" "b" 7 4 4 [] = (game_7x4, Output.Started) ∧
    (2 : Int) ≤ 4 ∧ (4 : Int) ≤ 4 ∧ ("a" = "a" ∨ "a" = "b") ∧ (1 : Int) ≤ 4 ∧ (4 : Int) ≤ 7 ∧
    (([(none, zeros, zeros), (none, zeros, zeros), (none, zeros, zeros),
      (none, zeros, zeros)] :
        List (Option String × (Nat → Int) × (Nat → Int))).length : Int) = 4 ∧
    ∃ g1, run game_7x4 (stack_drops "a" 4
        [(none, zeros, zeros), (none, zeros, zeros), (none, zeros, zeros),
          (none, zeros, zeros)]) =
      some (g1, List.replicate
        (([(none, zeros, zeros), (none, zeros, zeros), (none, zeros, zeros),
          (none, zeros, zeros)] :
            List (Option String × (Nat → Int) × (Nat → Int))).length - 1)
        Output.Placed ++ [Output.Won]) :=
  ⟨by rfl, by decide, by decide, Or.inl rfl, by decide, by decide, by rfl,
    vertical_stack_wins two_players game_7x4 "a" "b" "a" 7 4 4 4 []
      [(none, zeros, zeros), (none, zeros, zeros), (none, zeros, zeros), (none, zeros, zeros)]
      (by rfl) (by decide) (by decide) (Or.inl rfl) (by decide) (by decide) (by rfl)⟩

/-! ### Instances of the theorems on win detection, drops and the ledger -/

theorem board_7x4_three_shape :
    BoardShape board_7x4_three game_7x4_three.height game_7x4_three.width := by
  simp [BoardShape, board_7x4_three, game_7x4_three, game_7x4, start_game]

theorem board_wide_shape : BoardShape board_wide wide_game.height wide_game.width := by
  simp [BoardShape, board_wide, wide_game]

theorem game_7x4_ended_reachable : Reachable game_7x4_ended :=
  Reachable.step game_7x4 game_7x4_ended (Command.D "a" none) Output.Resigned
    (Reachable.step two_players game_7x4 (Command.IJ "a" "b" 7 4 4 []) Output.Started
      (Reachable.step (add_player new_game "a") two_players (Command.RJ "b") Output.Created
        (Reachable.step new_game (add_player new_game "a") (Command.RJ "a") Output.Created
          Reachable.init (by rfl))
        (by rfl))
      (by rfl))
    (by rfl)

/-- Instance of `count_pieces_spec` (C27): from the top of the stack of three
pieces of the first seat, going down. -/
theorem count_pieces_spec_witness :
    game_7x4_three.board = some board_7x4_three ∧
    BoardShape board_7x4_three game_7x4_three.height game_7x4_three.width ∧
    ¬((1 : Int) = 0 ∧ (0 : Int) = 0) ∧
    (board_get board_7x4_three 1 3 ≠ some (some Seat.player1) →
      count_pieces game_7x4_three Seat.player1 1 3 1 0 = some 0) ∧
    (board_get board_7x4_three 1 3 = some (some Seat.player1) →
      ∃ n : Nat, count_pieces game_7x4_three Seat.player1 1 3 1 0 = some (n : Int) ∧
        (∀ i : Nat, 1 ≤ i → i ≤ n →
          board_get board_7x4_three (1 + i * 1) (3 + i * 0) = some (some Seat.player1)) ∧
        board_get board_7x4_three (1 + ((n + 1 : Nat) : Int) * 1)
          (3 + ((n + 1 : Nat) : Int) * 0) ≠ some (some Seat.player1)) :=
  ⟨rfl, board_7x4_three_shape, by decide,
    count_pieces_spec game_7x4_three board_7x4_three Seat.player1 1 3 1 0 rfl
      board_7x4_three_shape (by decide)⟩

/-- Instance of `player_wins_sound` (C28): the three pieces of "a" in the third
column of `wide_game`. -/
theorem player_wins_sound_witness :
    wide_game.board = some board_wide ∧
    BoardShape board_wide wide_game.height wide_game.width ∧
    2 ≤ wide_game.sequence_size ∧ player_wins wide_game "a" 2 2 = some true ∧
    ∃ (player : Seat) (l_shift c_shift : Int) (n1 n2 : Nat),
      get_in_game_player wide_game "a" = some player ∧
      ((l_shift = 0 ∧ c_shift = 1) ∨ (l_shift = 1 ∧ c_shift = 0) ∨
        (l_shift = 1 ∧ c_shift = 1)) ∧
      board_get board_wide 2 2 = some (some player) ∧
      (n1 : Int) + 1 + n2 ≥ wide_game.sequence_size ∧
      ∀ i : Int, -(n2 : Int) ≤ i → i ≤ n1 →
        board_get board_wide (2 + i * l_shift) (2 + i * c_shift) = some (some player) :=
  ⟨rfl, board_wide_shape, by decide, by rfl,
    player_wins_sound wide_game board_wide "a" 2 2 rfl board_wide_shape (by decide) (by rfl)⟩

/-- Instance of `player_wins_order_independent` (C25): the diagonal test first,
at the winning cell of `wide_game`. -/
theorem player_wins_order_independent_witness :
    wide_game.board = some board_wide ∧
    BoardShape board_wide wide_game.height wide_game.width ∧
    List.Perm [((1 : Int), (1 : Int)), (0, 1), (1, 0)] axis_checks ∧
    (get_in_game_player wide_game "a").bind
        (fun player => wins_over wide_game player 2 2 [(1, 1), (0, 1), (1, 0)]) =
      player_wins wide_game "a" 2 2 :=
  ⟨rfl, board_wide_shape, by decide,
    player_wins_order_independent wide_game board_wide "a" 2 2 [(1, 1), (0, 1), (1, 0)] rfl
      board_wide_shape (by decide)⟩

/-- Instance of `drop_writes_in_bounds` (C29): "a" drops the piece of size 2 on
columns 3 and 4 of the fresh 5 x 3 board. -/
theorem drop_writes_in_bounds_witness :
    ActiveMatch game_5x3 ∧ (1 : Int) ≤ 2 ∧
    valid_position game_5x3 2 3 (some "D") = some true ∧
    ([0, 0] : List Int).length = (2 : Int).toNat ∧
    ∃ b g1 ls cs b1, game_5x3.board = some b ∧
      drop game_5x3 "a" 2 3 (some "D") [0, 0] [0, 0] = some (g1, ls, cs) ∧
      g1.board = some b1 ∧ 1 ≤ game_5x3.height ∧
      (∀ l c, board_get b1 l c ≠ board_get b l c →
        0 ≤ l ∧ l < game_5x3.height ∧ 0 ≤ c ∧ c < game_5x3.width ∧
          board_get b l c = some none) ∧
      occupied_count b1 = occupied_count b + (2 : Int).toNat :=
  ⟨game_5x3_active, by decide, by rfl, rfl,
    drop_writes_in_bounds game_5x3 "a" 2 3 (some "D") [0, 0] [0, 0]
      game_5x3_active (by decide) (by rfl) rfl rfl⟩

/-- Instance of `seated_players_stay_registered` (C26): the 5 x 3 match. -/
theorem seated_players_stay_registered_witness :
    Reachable game_5x3 ∧ in_game game_5x3 = true ∧
    ∃ p1 p2, game_5x3.player1 = some p1 ∧ game_5x3.player2 = some p2 ∧
      has_player game_5x3 p1.player = true ∧ has_player game_5x3 p2.player = true ∧
      ∀ name, name = p1.player ∨ name = p2.player →
        cmd_EJ game_5x3 name = some (game_5x3, Output.SeatedInActiveMatch) :=
  ⟨game_5x3_reachable, by rfl,
    seated_players_stay_registered game_5x3 game_5x3_reachable (by rfl)⟩

/-- Instance of `wins_at_most_games` (C30): the ledger after "a" resigned the
7 x 4 match against "b". -/
theorem wins_at_most_games_witness :
    Reachable game_7x4_ended ∧
    ∀ p ∈ game_7x4_ended.players, 0 ≤ p.wins ∧ p.wins ≤ p.games_played :=
  ⟨game_7x4_ended_reachable, wins_at_most_games game_7x4_ended game_7x4_ended_reachable⟩

/-- C21: `tab_name_game` is reached by `tab_name_commands` and has a match in
progress; its first ledger record has the name made of a tab and "x".
`save_game` writes that record on the line after the count.  On loading,
`fscanf(fp, "%d\n", ...)` reads the count and then skips all white space, the
tab included, so the first ledger line is read as "x 0 0": the ledger comes
back with the name "x".  The seat line still holds the name with the tab, which
is no longer in the ledger, and `load_game` has no result. -/
theorem load_drops_leading_tab_of_name :
    run new_game tab_name_commands =
      some (tab_name_game, [Output.Created, Output.Created, Output.Started]) ∧
    in_game tab_name_game = true ∧
    tab_name_game.players = [{ name := "\tx", games_played := 0, wins := 0 },
      { name := "b", games_played := 0, wins := 0 }] ∧
    (save_game tab_name_game).map String.mk =
      some "2\n\tx 0 0\nb 0 0\n3 5 3\n1 2 \n\tx 2 \nb 2 \n0 0 0 0 0 \n0 0 0 0 0 \n0 0 0 0 0 \n" ∧
    (save_game tab_name_game).map
        (fun fp => ((fscanf_int fp 0).1, String.mk (fscanf_int fp 0).2)) =
      some (2, "x 0 0\nb 0 0\n3 5 3\n1 2 \n\tx 2 \nb 2 \n0 0 0 0 0 \n0 0 0 0 0 \n0 0 0 0 0 \n") ∧
    (save_game tab_name_game).bind
        (fun fp => (load_players_loop 2 (fscanf_int fp 0).2).map Prod.fst) =
      some [{ name := "x", games_played := 0, wins := 0 },
        { name := "b", games_played := 0, wins := 0 }] ∧
    (save_game tab_name_game).bind load_game = none := by
  refine ⟨by rfl, by rfl, by rfl, by rfl, by rfl, by rfl, by rfl⟩

/-! ### The board in the states the program reaches -/

end Projeto
